import Mathlib

/-! PinePhone keyboard driver (`drivers/input/keyboard/pinephone-keyboard.c`)

A shallow embedding of the scan-matrix engine (`ppkb_update`) and of the
checksum it relies on, followed by theorems about them.

Conventions of the embedding

* `u8` values are natural numbers; a load into a `u8` local is reduced
  modulo 256.
* The flexible array `buf[]` of `struct pinephone_keyboard` is a list; the
  pointers `old_buf` / `new_buf` are offsets into it.  A load outside the list
  (undefined in C) reads 0, and a store outside the list is dropped.
* The calls made on the input device (`input_event(EV_MSC, MSC_SCAN, code)`,
  `input_report_key`, `input_sync`) are recorded, in order, as a list of
  `Event`s.
* The outcome of `i2c_smbus_read_i2c_block_data` is an input of the model.
-/

namespace PPKB

/-! ## Constants and macros -/

/-- The value of `PPKB_CRC8_POLYNOMIAL`. -/
def PPKB_CRC8_POLYNOMIAL : Nat := 0x07

/-- The key code `KEY_FN`, the overlay trigger; 0x1d0 in
`input-event-codes.h`.  The proofs only use that it differs from the other key
codes that occur. -/
def KEY_FN : Nat := 0x1d0

/-- The macro `BIT(n)`, that is `1UL << n`. -/
def BIT (n : Nat) : Nat := 1 <<< n

/-- Modelled from the spec: the macro `MATRIX_SCAN_CODE` of
`linux/input/matrix_keypad.h`, which is not part of the sources at hand.  The
spec gives the packing of a cell as `(r << rowShift) | c`. -/
def MATRIX_SCAN_CODE (row col row_shift : Nat) : Nat := (row <<< row_shift) ||| col

/-- Modelled from the spec: the constant `CRC8_INIT_VALUE` of `linux/crc8.h`,
which is not part of the sources at hand.  The spec gives the initial value of
the checksum as `0x00`. -/
def CRC8_INIT_VALUE : Nat := 0x00

/-! ## Checksum (`lib/crc8.c`) -/

/-- One doubling round of `crc8_populate_msb`: `t` is advanced by one shift
(with the polynomial folded in when the top bit falls out) and the entries
`table[i + j] = table[j] ^ t` for `j < i` are appended. -/
def crc8_populate_round (polynomial : Nat) (st : Nat × List Nat) : Nat × List Nat :=
  let t := ((st.1 <<< 1) ^^^ (if st.1 &&& 0x80 ≠ 0 then polynomial else 0)) % 256
  (t, st.2 ++ st.2.map (fun x => x ^^^ t))

/-- Modelled from the spec: `crc8_populate_msb` of `lib/crc8.c`, which is not
part of the sources at hand.  It fills the 256-entry table of the MSB-first
CRC-8 for the given generator polynomial: starting from `table[0] = 0` and
`t = 0x80`, eight doubling rounds. -/
def crc8_populate_msb (polynomial : Nat) : List Nat :=
  ((crc8_populate_round polynomial)^[8] (0x80, [0])).2

/-- Modelled from the spec: `crc8` of `lib/crc8.c`, which is not part of the
sources at hand.  One table look-up per byte:
`crc = table[(crc ^ *pdata++) & 0xff]`. -/
def crc8 (table : List Nat) (pdata : List Nat) (crc : Nat) : Nat :=
  pdata.foldl (fun crc b => table.getD ((crc ^^^ b) &&& 0xff) 0) crc

/-! ## Data model -/

/-- The calls `ppkb_update` makes on the input device. -/
inductive Event where
  /-- The call `input_event(input, EV_MSC, MSC_SCAN, code)`. -/
  | msc_scan (code : Nat)
  /-- The call `input_report_key(input, keycode, value)`; `pressed` is
  `!!value`. -/
  | key (keycode : Nat) (pressed : Bool)
  /-- The call `input_sync(input)`. -/
  | sync
  deriving DecidableEq, Repr

/-- The fields of `struct pinephone_keyboard` used by the scan engine;
`keycode` is `input->keycode`, the base keymap. -/
structure pinephone_keyboard where
  keycode : List Nat
  fn_keymap : List Nat
  crc_table : List Nat
  row_shift : Nat
  rows : Nat
  cols : Nat
  fn_state : Nat
  buf_swap : Nat
  buf : List Nat
  deriving DecidableEq, Repr

/-- The outcome of `i2c_smbus_read_i2c_block_data`: a failure with the given
errno (the call returns `-errno`), or the bytes that were transferred (at most
as many as were asked for). -/
inductive BlockRead where
  | error (errno : Nat)
  | data (bytes : List Nat)
  deriving DecidableEq, Repr

/-- The return value of the block read: the negated errno, or the byte
count. -/
def BlockRead.ret : BlockRead → Int
  | .error errno => -(errno : Int)
  | .data bytes => (bytes.length : Int)

/-- The bytes the block read copies to the caller: none on error. -/
def BlockRead.bytes : BlockRead → List Nat
  | .error _ => []
  | .data bytes => bytes

/-- Copy `src` into `dst` starting at offset `off`. -/
def memcpy (dst : List Nat) (off : Nat) : List Nat → List Nat
  | [] => dst
  | b :: rest => memcpy (dst.set off b) (off + 1) rest

/-! ## `ppkb_update` -/

/-- The locals that the two loops of `ppkb_update` carry along: the active
keymap pointer, the layer flag, and the events emitted so far. -/
structure ScanLoop where
  keymap : List Nat
  fn_state : Nat
  events : List Event
  deriving DecidableEq, Repr

/-- The body of the inner loop of `ppkb_update`, for one `row` of column
`col`; `new` and `changed` are the `u8` locals of the outer loop. -/
def ppkb_update_row (ppkb : pinephone_keyboard) (col new changed : Nat)
    (st : ScanLoop) (row : Nat) : ScanLoop :=
  let code := MATRIX_SCAN_CODE row col ppkb.row_shift
  let value := new &&& BIT row
  if changed &&& BIT row = 0 then st
  else
    let st1 : ScanLoop :=
      if st.keymap.getD code 0 = KEY_FN then
        { st with keymap := if value ≠ 0 then ppkb.fn_keymap else ppkb.keycode,
                  fn_state := value }
      else st
    { st1 with events := st1.events ++
        [Event.msc_scan code, Event.key (st1.keymap.getD code 0) (decide (value ≠ 0))] }

/-- The body of the outer loop of `ppkb_update`, for one column; `buf` is the
frame buffer after the block read, `old_buf` and `new_buf` the offsets of the
two slots. -/
def ppkb_update_col (ppkb : pinephone_keyboard) (buf : List Nat) (old_buf new_buf : Nat)
    (st : ScanLoop) (col : Nat) : ScanLoop :=
  let old := buf.getD (old_buf + (col + 1)) 0 % 256
  let new := buf.getD (new_buf + (col + 1)) 0 % 256
  let changed := old ^^^ new
  (List.range ppkb.rows).foldl (ppkb_update_row ppkb col new changed) st

/-- The function `ppkb_update`: the state after the call and the events
emitted on the input device, given the outcome `rd` of the block read. -/
def ppkb_update (ppkb : pinephone_keyboard) (rd : BlockRead) :
    pinephone_keyboard × List Event :=
  let buf_len := ppkb.cols + 1
  let old_buf := if ppkb.buf_swap ≠ 0 then buf_len else 0
  let new_buf := if ppkb.buf_swap ≠ 0 then 0 else buf_len
  let buf := memcpy ppkb.buf new_buf rd.bytes
  if rd.ret ≠ (buf_len : Int) then
    ({ ppkb with buf := buf }, [])
  else
    let crc := crc8 ppkb.crc_table ((buf.drop (new_buf + 1)).take ppkb.cols) CRC8_INIT_VALUE
    if crc ≠ buf.getD new_buf 0 % 256 then
      ({ ppkb with buf := buf }, [])
    else
      let keymap := if ppkb.fn_state ≠ 0 then ppkb.fn_keymap else ppkb.keycode
      let st := (List.range ppkb.cols).foldl (ppkb_update_col ppkb buf old_buf new_buf)
        { keymap := keymap, fn_state := ppkb.fn_state, events := [] }
      ({ ppkb with buf := buf, buf_swap := if ppkb.buf_swap ≠ 0 then 0 else 1,
                   fn_state := st.fn_state },
       st.events ++ [Event.sync])

/-! ## Vocabulary for the statements -/

/-- The offset of `old_buf` in `buf`: the slot holding the previous frame. -/
def old_off (ppkb : pinephone_keyboard) : Nat :=
  if ppkb.buf_swap ≠ 0 then ppkb.cols + 1 else 0

/-- The offset of `new_buf` in `buf`: the slot the next block read fills. -/
def new_off (ppkb : pinephone_keyboard) : Nat :=
  if ppkb.buf_swap ≠ 0 then 0 else ppkb.cols + 1

/-- The previous frame: the `cols + 1` bytes of the slot `old_buf` points to
(checksum byte first). -/
def old_frame (ppkb : pinephone_keyboard) : List Nat :=
  (ppkb.buf.drop (old_off ppkb)).take (ppkb.cols + 1)

/-- The buffer has the size `ppkb_probe` allocates: two slots of `cols + 1`
bytes. -/
def WellFormed (ppkb : pinephone_keyboard) : Prop :=
  ppkb.buf.length = 2 * (ppkb.cols + 1)

instance (ppkb : pinephone_keyboard) : Decidable (WellFormed ppkb) :=
  inferInstanceAs (Decidable (ppkb.buf.length = 2 * (ppkb.cols + 1)))

/-- The checksum `ppkb_update` computes for a frame: `crc8` with the table of
the state over the `cols` bytes that follow the leading byte. -/
def frame_crc (ppkb : pinephone_keyboard) (frame : List Nat) : Nat :=
  crc8 ppkb.crc_table ((frame.drop 1).take ppkb.cols) CRC8_INIT_VALUE

/-- A block read that `ppkb_update` accepts: exactly `cols + 1` bytes, the
leading one being the checksum of the others. -/
def ValidFrame (ppkb : pinephone_keyboard) (frame : List Nat) : Prop :=
  frame.length = ppkb.cols + 1 ∧ frame_crc ppkb frame = frame.getD 0 0 % 256

instance (ppkb : pinephone_keyboard) (frame : List Nat) : Decidable (ValidFrame ppkb frame) :=
  inferInstanceAs (Decidable (frame.length = ppkb.cols + 1 ∧
    frame_crc ppkb frame = frame.getD 0 0 % 256))

/-- Bit `r` of the data byte (a `u8`) of column `c` of a frame: the state of
cell `(r, c)`. -/
def cellBit (frame : List Nat) (r c : Nat) : Bool :=
  (frame.getD (c + 1) 0 % 256).testBit r

/-- The cells of the matrix whose bit differs between two frames, as pairs
`(row, column)`, columns ascending and rows ascending within a column. -/
def changedCells (rows cols : Nat) (prev cur : List Nat) : List (Nat × Nat) :=
  (List.range cols).flatMap fun c =>
    ((List.range rows).filter fun r => cellBit prev r c != cellBit cur r c).map fun r => (r, c)

/-- What the loop body does for a cell `(row, column)` whose bit changed, in
terms of the new frame `cur`. -/
def cellStep (ppkb : pinephone_keyboard) (cur : List Nat) (st : ScanLoop)
    (cell : Nat × Nat) : ScanLoop :=
  let code := MATRIX_SCAN_CODE cell.1 cell.2 ppkb.row_shift
  let pressed := cellBit cur cell.1 cell.2
  let st1 : ScanLoop :=
    if st.keymap.getD code 0 = KEY_FN then
      { st with keymap := if pressed then ppkb.fn_keymap else ppkb.keycode,
                fn_state := if pressed then BIT cell.1 else 0 }
    else st
  { st1 with events := st1.events ++
      [Event.msc_scan code, Event.key (st1.keymap.getD code 0) pressed] }

/-- The two events reported for a cell: its scan code, then the logical key
`k` with the polarity of the cell in the new frame `cur`. -/
def cellEvents (row_shift : Nat) (cur : List Nat) (cell : Nat × Nat) (k : Nat) : List Event :=
  [Event.msc_scan ((cell.1 <<< row_shift) ||| cell.2), Event.key k (cellBit cur cell.1 cell.2)]

/-- The keymap that is active once the loop body has run for a changed cell:
switched when the keymap active before maps the cell to `KEY_FN`. -/
def cellKeymap (ppkb : pinephone_keyboard) (cur : List Nat) (km : List Nat)
    (cell : Nat × Nat) : List Nat :=
  if km.getD (MATRIX_SCAN_CODE cell.1 cell.2 ppkb.row_shift) 0 = KEY_FN then
    (if cellBit cur cell.1 cell.2 then ppkb.fn_keymap else ppkb.keycode)
  else km

/-- The logical keys reported for a list of changed cells, the keymap `km`
being active before the first of them. -/
def cellKeys (ppkb : pinephone_keyboard) (cur : List Nat) : List Nat → List (Nat × Nat) → List Nat
  | _, [] => []
  | km, cell :: rest =>
    (cellKeymap ppkb cur km cell).getD (MATRIX_SCAN_CODE cell.1 cell.2 ppkb.row_shift) 0 ::
      cellKeys ppkb cur (cellKeymap ppkb cur km cell) rest

/-- Cell `a` comes before cell `b` in the order (column, row). -/
def cellBefore (a b : Nat × Nat) : Prop :=
  a.2 < b.2 ∨ (a.2 = b.2 ∧ a.1 < b.1)

instance (a b : Nat × Nat) : Decidable (cellBefore a b) :=
  inferInstanceAs (Decidable (a.2 < b.2 ∨ (a.2 = b.2 ∧ a.1 < b.1)))

/-- Modelled from the spec: `get_count_order` of `linux/bitops.h`, which is not
part of the sources at hand: the bit width needed to encode an index below
`count`, that is the least `s` with `count ≤ 2 ^ s` (0 for `count = 1`, and
one more than the position of the top bit of `count - 1` otherwise).  For
`count = 0` the kernel returns -1, which the `u8` field `row_shift` holds as
255. -/
def get_count_order (count : Nat) : Nat :=
  if count = 0 then 255 else if count = 1 then 0 else Nat.log2 (count - 1) + 1

/-- The state `ppkb_probe` sets up for keymaps of `map_rows` by `map_cols`
cells: a zeroed allocation with two frame slots, the checksum table, the row
shift and the dimensions. -/
def ppkb_probe_state (keycode fn_keymap : List Nat) (map_rows map_cols : Nat) :
    pinephone_keyboard :=
  { keycode := keycode
    fn_keymap := fn_keymap
    crc_table := crc8_populate_msb PPKB_CRC8_POLYNOMIAL
    row_shift := get_count_order map_cols
    rows := map_rows
    cols := map_cols
    fn_state := 0
    buf_swap := 0
    buf := List.replicate (2 * (map_cols + 1)) 0 }

/-- A 6 x 12 keyboard right after `ppkb_probe`, with keymaps whose cells are
all unassigned (`KEY_RESERVED`). -/
def blank_6x12 : pinephone_keyboard :=
  ppkb_probe_state (List.replicate 96 0) (List.replicate 96 0) 6 12

/-- A frame as the keyboard sends it: the data bytes, preceded by their
checksum. -/
def mk_frame (data : List Nat) : List Nat :=
  crc8 (crc8_populate_msb PPKB_CRC8_POLYNOMIAL) data CRC8_INIT_VALUE :: data

/-- Frame A: a valid frame of a 6 x 12 matrix in which only cell (row 0,
column 0) is pressed. -/
def frame_A : List Nat := mk_frame [1, 0, 0, 0, 0, 0, 0, 0, 0, 0, 0, 0]

/-- Frame B: a valid frame of a 6 x 12 matrix in which no cell is pressed. -/
def frame_B : List Nat := mk_frame [0, 0, 0, 0, 0, 0, 0, 0, 0, 0, 0, 0]

/-- A run of scans: `ppkb_update` called once per outcome of the block read,
in order (from `ppkb_open` and from the interrupt thread). -/
def ppkb_run (ppkb : pinephone_keyboard) (rds : List BlockRead) : pinephone_keyboard :=
  rds.foldl (fun s rd => (ppkb_update s rd).1) ppkb

/-- The zero-initialised scan state: layer flag and parity 0, both frame slots
all zero. -/
def ZeroInit (ppkb : pinephone_keyboard) : Prop :=
  ppkb.fn_state = 0 ∧ ppkb.buf_swap = 0 ∧ ppkb.buf = List.replicate (2 * (ppkb.cols + 1)) 0

instance (ppkb : pinephone_keyboard) : Decidable (ZeroInit ppkb) :=
  inferInstanceAs (Decidable (ppkb.fn_state = 0 ∧ ppkb.buf_swap = 0 ∧
    ppkb.buf = List.replicate (2 * (ppkb.cols + 1)) 0))

/-- The frame of the most recent successful scan (full read, checksum
matches) among the attempts `rds`, and `prev` if there is none. -/
def lastGoodFrom (ppkb : pinephone_keyboard) (prev : List Nat) (rds : List BlockRead) :
    List Nat :=
  rds.foldl (fun good rd =>
    if rd.ret = ((ppkb.cols + 1 : Nat) : Int) ∧ ValidFrame ppkb rd.bytes then rd.bytes
    else good) prev

/-- The frame of the most recent successful scan among the attempts `rds`,
and the all-zero frame if there is none. -/
def lastGoodFrame (ppkb : pinephone_keyboard) (rds : List BlockRead) : List Nat :=
  lastGoodFrom ppkb (List.replicate (ppkb.cols + 1) 0) rds

/-- The fields `ppkb_update` never writes. -/
def SameConfig (s t : pinephone_keyboard) : Prop :=
  t.keycode = s.keycode ∧ t.fn_keymap = s.fn_keymap ∧ t.crc_table = s.crc_table ∧
    t.row_shift = s.row_shift ∧ t.rows = s.rows ∧ t.cols = s.cols

/-- Cell `(rF, cF)` is the cell of the matrix that carries the overlay
trigger: the base keymap and the overlay keymap both map it, and no other
cell of the matrix, to `KEY_FN`. -/
def FnCellAt (ppkb : pinephone_keyboard) (rF cF : Nat) : Prop :=
  rF < ppkb.rows ∧ cF < ppkb.cols ∧
  ∀ r, r < ppkb.rows → ∀ c, c < ppkb.cols →
    ((ppkb.keycode.getD (MATRIX_SCAN_CODE r c ppkb.row_shift) 0 = KEY_FN ↔ (r = rF ∧ c = cF)) ∧
     (ppkb.fn_keymap.getD (MATRIX_SCAN_CODE r c ppkb.row_shift) 0 = KEY_FN ↔
       (r = rF ∧ c = cF)))

instance (ppkb : pinephone_keyboard) (rF cF : Nat) : Decidable (FnCellAt ppkb rF cF) :=
  inferInstanceAs (Decidable (rF < ppkb.rows ∧ cF < ppkb.cols ∧
    ∀ r, r < ppkb.rows → ∀ c, c < ppkb.cols →
      ((ppkb.keycode.getD (MATRIX_SCAN_CODE r c ppkb.row_shift) 0 = KEY_FN ↔
          (r = rF ∧ c = cF)) ∧
       (ppkb.fn_keymap.getD (MATRIX_SCAN_CODE r c ppkb.row_shift) 0 = KEY_FN ↔
          (r = rF ∧ c = cF)))))

/-- A 6 x 12 keyboard right after `ppkb_probe` whose keymaps hold, like the
default keymaps of the driver, `KEY_1` (2) in the base keymap and `KEY_F1`
(59) in the overlay keymap at cell (0, 1), and `KEY_FN` at cell (5, 2) in
both. -/
def fn_6x12 : pinephone_keyboard :=
  ppkb_probe_state (((List.replicate 96 0).set 1 2).set 82 KEY_FN)
    (((List.replicate 96 0).set 1 59).set 82 KEY_FN) 6 12

/-- A 6 x 12 keyboard right after `ppkb_probe` with keymaps as a device tree
may supply them: the base keymap holds `KEY_1` (2) at cell (0, 1) and `KEY_FN`
at cell (5, 2); the overlay keymap holds `KEY_F1` (59) at cell (0, 1) and
leaves cell (5, 2) unassigned. -/
def fn_base_only_6x12 : pinephone_keyboard :=
  ppkb_probe_state (((List.replicate 96 0).set 1 2).set 82 KEY_FN)
    ((List.replicate 96 0).set 1 59) 6 12

/-- A valid frame in which only cell (5, 2) is pressed. -/
def frame_FN : List Nat := mk_frame [0, 0, 0x20, 0, 0, 0, 0, 0, 0, 0, 0, 0]

/-- A valid frame in which only cell (0, 1) is pressed. -/
def frame_K1 : List Nat := mk_frame [0, 1, 0, 0, 0, 0, 0, 0, 0, 0, 0, 0]

/-- A valid frame in which the cells (0, 1) and (5, 2) are pressed. -/
def frame_K1_FN : List Nat := mk_frame [0, 1, 0x20, 0, 0, 0, 0, 0, 0, 0, 0, 0]

/-- A valid frame in which the cells (0, 0), (1, 0) and (0, 2) are pressed. -/
def frame_C : List Nat := mk_frame [3, 0, 1, 0, 0, 0, 0, 0, 0, 0, 0, 0]

/-! ## The bit-by-bit checksum -/

/-- One bit of the MSB-first CRC-8: the register is shifted left by one, and
the polynomial is folded in when the bit shifted out is 1. -/
def crc8_shift (polynomial crc : Nat) : Nat :=
  if crc &&& 0x80 ≠ 0 then ((crc <<< 1) ^^^ polynomial) % 256 else (crc <<< 1) % 256

/-- The bit-by-bit CRC-8 of `data`, MSB first, without final XOR: each byte is
folded into the register, which is then shifted eight times. -/
def crc8_bitwise (polynomial init : Nat) (data : List Nat) : Nat :=
  data.foldl (fun crc b => (crc8_shift polynomial)^[8] ((crc ^^^ b) % 256)) init

/-- The inverse of `crc8_shift` for a polynomial with bit 0 set: the low bit
of the register tells whether the polynomial was folded in. -/
def crc8_unshift (polynomial crc : Nat) : Nat :=
  if crc &&& 1 ≠ 0 then ((crc ^^^ polynomial) >>> 1) ||| 0x80 else crc >>> 1

/-- The data with bit `k` of the byte at index `i` flipped. -/
def flipBit (data : List Nat) (i k : Nat) : List Nat :=
  data.set i (data.getD i 0 ^^^ 2 ^ k)

/-! ## Transport operations -/

/-- The register `PPKB_SCAN_CRC`. -/
def PPKB_SCAN_CRC : Nat := 0x07

/-- The register `PPKB_MATRIX_SIZE`. -/
def PPKB_MATRIX_SIZE : Nat := 0x06

/-- The register `PPKB_SYS_CONFIG`. -/
def PPKB_SYS_CONFIG : Nat := 0x20

/-- The bit `PPKB_SYS_CONFIG_DISABLE_SCAN`, that is `BIT(0)`. -/
def PPKB_SYS_CONFIG_DISABLE_SCAN : Nat := BIT 0

/-- The register `PPKB_SYS_SMBUS_COMMAND`. -/
def PPKB_SYS_SMBUS_COMMAND : Nat := 0x21

/-- The register `PPKB_SYS_SMBUS_DATA`. -/
def PPKB_SYS_SMBUS_DATA : Nat := 0x22

/-- The register `PPKB_SYS_COMMAND`. -/
def PPKB_SYS_COMMAND : Nat := 0x23

/-- The command byte `PPKB_SYS_COMMAND_SMBUS_READ`. -/
def PPKB_SYS_COMMAND_SMBUS_READ : Nat := 0x91

/-- The command byte `PPKB_SYS_COMMAND_SMBUS_WRITE`. -/
def PPKB_SYS_COMMAND_SMBUS_WRITE : Nat := 0xa1

/-- The value of `PPKB_DEVICE_ID_HI_VALUE`. -/
def PPKB_DEVICE_ID_HI_VALUE : Nat := 0x4b

/-- The value of `PPKB_DEVICE_ID_LO_VALUE`. -/
def PPKB_DEVICE_ID_LO_VALUE : Nat := 0x42

/-- The value of `PPKB_DEFAULT_KEYMAP_ROWS`. -/
def PPKB_DEFAULT_KEYMAP_ROWS : Nat := 6

/-- The value of `PPKB_DEFAULT_KEYMAP_COLS`. -/
def PPKB_DEFAULT_KEYMAP_COLS : Nat := 12

/-- The direction `I2C_SMBUS_READ` of `linux/i2c.h` (1 there); every other
value of `read_write` is treated as a write by the driver. -/
def I2C_SMBUS_READ : Nat := 1

/-- The direction `I2C_SMBUS_WRITE` of `linux/i2c.h` (0 there). -/
def I2C_SMBUS_WRITE : Nat := 0

/-- The errno `EIO` (5 in `errno-base.h`). -/
def EIO : Int := 5

/-- The errno `ENODEV` (19 in `errno-base.h`). -/
def ENODEV : Int := 19

/-- The errno `EINVAL` (22 in `errno-base.h`). -/
def EINVAL : Int := 22

/-- The calls the driver makes on the I2C client, in the order it makes
them. -/
inductive I2cOp where
  /-- The call `i2c_smbus_write_i2c_block_data(client, reg, len, bytes)`. -/
  | write_block (reg : Nat) (bytes : List Nat)
  /-- The call `i2c_smbus_read_i2c_block_data(client, reg, len, buf)`. -/
  | read_block (reg : Nat) (len : Nat)
  /-- The call `i2c_smbus_read_byte_data(client, reg)`. -/
  | read_byte (reg : Nat)
  /-- The call `i2c_smbus_write_byte_data(client, reg, value)`. -/
  | write_byte (reg : Nat) (value : Nat)
  deriving DecidableEq, Repr

/-- Whether a transport operation is a block write. -/
def I2cOp.isWriteBlock : I2cOp → Bool
  | .write_block _ _ => true
  | _ => false

/-- The one transport operation of `ppkb_update`: the block read of
`cols + 1` bytes from `PPKB_SCAN_CRC`, made on every call. -/
def ppkb_update_ops (ppkb : pinephone_keyboard) : List I2cOp :=
  [I2cOp.read_block PPKB_SCAN_CRC (ppkb.cols + 1)]

/-! ## `ppkb_adap_smbus_xfer` -/

/-- The `do ... while (ret == buf[2])` loop of `ppkb_adap_smbus_xfer`:
`status k` is what the `k`-th read of `PPKB_SYS_COMMAND` returns (a byte, or a
negative errno), `done` the number of reads made so far.  The result is the
value that ended the loop together with the total number of reads; the value
is `none` when the loop is still running after `fuel` more reads.  (The
`usleep_range` before each read is not recorded.) -/
def ppkb_poll (status : Nat → Int) (cmd : Nat) : Nat → Nat → Option Int × Nat
  | 0, done => (none, done)
  | fuel + 1, done =>
    if status done = (cmd : Int) then ppkb_poll status cmd fuel (done + 1)
    else (some (status done), done + 1)

/-- What `ppkb_adap_smbus_xfer` leaves behind: the value returned (`none`
when the poll loop has not ended within the fuel), `data->byte` after the
call, and the transport operations made. -/
structure XferResult where
  ret : Option Int
  byte : Nat
  ops : List I2cOp
  deriving DecidableEq, Repr

/-- The function `ppkb_adap_smbus_xfer`.  Of its arguments only `read_write`,
`command` and `data->byte` (here `byte`) are used by the code; all three are
`u8`/`char` values.  The transport is given by the return value `write_ret` of
the block write, the sequence `status` of the status reads and the return
value `data_read` of the read of the data register.  `fuel` bounds the number
of status reads. -/
def ppkb_adap_smbus_xfer (fuel : Nat) (write_ret : Int) (status : Nat → Int)
    (data_read : Int) (read_write command byte : Nat) : XferResult :=
  let buf2 := if read_write = I2C_SMBUS_READ then PPKB_SYS_COMMAND_SMBUS_READ
              else PPKB_SYS_COMMAND_SMBUS_WRITE
  let buf := [command, byte, buf2]
  let ops1 := [I2cOp.write_block PPKB_SYS_SMBUS_COMMAND buf]
  if write_ret ≠ 0 then { ret := some write_ret, byte := byte, ops := ops1 }
  else
    let polled := ppkb_poll status buf2 fuel 0
    let ops2 := ops1 ++ List.replicate polled.2 (I2cOp.read_byte PPKB_SYS_COMMAND)
    match polled.1 with
    | none => { ret := none, byte := byte, ops := ops2 }
    | some ret =>
      if ret < 0 then { ret := some ret, byte := byte, ops := ops2 }
      else if ret ≠ 0 then { ret := some (- EIO), byte := byte, ops := ops2 }
      else if read_write = I2C_SMBUS_READ then
        let ops3 := ops2 ++ [I2cOp.read_byte PPKB_SYS_SMBUS_DATA]
        if data_read < 0 then { ret := some data_read, byte := byte, ops := ops3 }
        else { ret := some 0, byte := data_read.toNat % 256, ops := ops3 }
      else { ret := some 0, byte := byte, ops := ops2 }

/-- A status sequence given by the list of its first values, continued by
`last` for ever. -/
def statusSeq (vals : List Int) (last : Int) : Nat → Int :=
  fun k => vals.getD k last

/-! ## `ppkb_set_scan`, `ppkb_open`, `ppkb_close` -/

/-- The value `~PPKB_SYS_CONFIG_DISABLE_SCAN`: the complement of an `unsigned
long` (64 bits wide). -/
def NOT_DISABLE_SCAN : Nat := (2 ^ 64 - 1) ^^^ PPKB_SYS_CONFIG_DISABLE_SCAN

/-- The function `ppkb_set_scan`: the value returned and the transport
operations made.  `config_read` is what the read of `PPKB_SYS_CONFIG` returns
(the register value, or a negative errno), `config_write` what the write
returns.  The value passed to `i2c_smbus_write_byte_data` is a `u8`. -/
def ppkb_set_scan (config_read config_write : Int) (enable : Bool) : Int × List I2cOp :=
  let ret := config_read
  if ret < 0 then (ret, [I2cOp.read_byte PPKB_SYS_CONFIG])
  else
    let val := if enable then ret.toNat &&& NOT_DISABLE_SCAN
               else ret.toNat ||| PPKB_SYS_CONFIG_DISABLE_SCAN
    let ops := [I2cOp.read_byte PPKB_SYS_CONFIG, I2cOp.write_byte PPKB_SYS_CONFIG (val % 256)]
    let ret := config_write
    if ret ≠ 0 then (ret, ops) else (0, ops)

/-- What a call of `ppkb_open` or `ppkb_close` leaves behind: the value
returned (0 for `ppkb_close`, which returns nothing), the scan state, the
events emitted on the input device and the transport operations made. -/
structure SessionResult where
  ret : Int
  state : pinephone_keyboard
  events : List Event
  ops : List I2cOp
  deriving DecidableEq, Repr

/-- The function `ppkb_open`; `rd` is the outcome of the block read that
`ppkb_update` makes. -/
def ppkb_open (ppkb : pinephone_keyboard) (config_read config_write : Int) (rd : BlockRead) :
    SessionResult :=
  let r := ppkb_set_scan config_read config_write true
  if r.1 ≠ 0 then { ret := r.1, state := ppkb, events := [], ops := r.2 }
  else
    let u := ppkb_update ppkb rd
    { ret := 0, state := u.1, events := u.2, ops := r.2 ++ ppkb_update_ops ppkb }

/-- The function `ppkb_close`: it calls `ppkb_set_scan(client, false)` and
drops its return value. -/
def ppkb_close (ppkb : pinephone_keyboard) (config_read config_write : Int) : SessionResult :=
  let r := ppkb_set_scan config_read config_write false
  { ret := 0, state := ppkb, events := [], ops := r.2 }

/-! ## `ppkb_probe` -/

/-- The return statements of `ppkb_probe`, as told apart by the message that
is logged. -/
inductive ProbeExit where
  /-- Exit with "Failed to read device ID". -/
  | id_read_failed
  /-- Exit with "Unexpected device ID". -/
  | unexpected_id
  /-- The call `ppkb_set_scan(client, false)` failed. -/
  | set_scan_failed
  /-- The call `matrix_keypad_parse_properties` failed. -/
  | parse_failed
  /-- Exit with "Keyboard size is %ux%u, but keymap is %ux%u". -/
  | size_mismatch
  /-- One of the steps after the size check failed (allocation, regulator,
  I2C adapter, input device, keymaps, interrupt). -/
  | setup_failed
  /-- The final `return 0`. -/
  | ok
  deriving DecidableEq, Repr

/-- What `ppkb_probe` finds around it.  `info` is the outcome of the block read
of the 7 identity bytes, `config_read` and `config_write` are the outcomes of
the two transfers of `ppkb_set_scan`.  `dt_keymap` is `none` when the device
tree has neither `linux,fn-keymap` nor `linux,keymap`, and otherwise the
outcome (return value, rows, columns) of `matrix_keypad_parse_properties`.
`setup` is the first error among the steps that follow the size check, 0 if
they all succeed; `keycode` and `fn_keymap` are the tables that
`matrix_keypad_build_keymap` builds. -/
structure ProbeEnv where
  info : BlockRead
  config_read : Int
  config_write : Int
  dt_keymap : Option (Int × Nat × Nat)
  setup : Int
  keycode : List Nat
  fn_keymap : List Nat

/-- What `ppkb_probe` leaves behind: the return statement taken, the value
returned, the transport operations made and, once allocated and filled in,
the driver state. -/
structure ProbeResult where
  exit : ProbeExit
  ret : Int
  ops : List I2cOp
  state : Option pinephone_keyboard
  deriving DecidableEq, Repr

/-- The function `ppkb_probe`. -/
def ppkb_probe (env : ProbeEnv) : ProbeResult :=
  let info (i : Nat) : Nat := env.info.bytes.getD i 0 % 256
  let ops1 := [I2cOp.read_block 0 (PPKB_MATRIX_SIZE + 1)]
  if env.info.ret ≠ ((PPKB_MATRIX_SIZE + 1 : Nat) : Int) then
    { exit := .id_read_failed, ret := env.info.ret, ops := ops1, state := none }
  else if info 0 ≠ PPKB_DEVICE_ID_HI_VALUE ∨ info 1 ≠ PPKB_DEVICE_ID_LO_VALUE then
    { exit := .unexpected_id, ret := -ENODEV, ops := ops1, state := none }
  else
    let r := ppkb_set_scan env.config_read env.config_write false
    let ops2 := ops1 ++ r.2
    if r.1 ≠ 0 then { exit := .set_scan_failed, ret := r.1, ops := ops2, state := none }
    else
      let parsed : Int × Nat × Nat :=
        match env.dt_keymap with
        | some p => p
        | none => (0, PPKB_DEFAULT_KEYMAP_ROWS, PPKB_DEFAULT_KEYMAP_COLS)
      if parsed.1 ≠ 0 then
        { exit := .parse_failed, ret := parsed.1, ops := ops2, state := none }
      else
        let map_rows := parsed.2.1
        let map_cols := parsed.2.2
        let phys_rows := info PPKB_MATRIX_SIZE &&& 0xf
        let phys_cols := info PPKB_MATRIX_SIZE >>> 4
        if map_rows ≠ phys_rows ∨ map_cols ≠ phys_cols then
          { exit := .size_mismatch, ret := -EINVAL, ops := ops2, state := none }
        else if env.setup ≠ 0 then
          { exit := .setup_failed, ret := env.setup, ops := ops2, state := none }
        else
          { exit := .ok, ret := 0, ops := ops2,
            state := some (ppkb_probe_state env.keycode env.fn_keymap map_rows map_cols) }

/-- A keyboard that reports the device ID `0x4b 0x42` and a matrix of 6 rows
by 12 columns (size byte 0xC6), with a device tree that declares keymaps of 5
rows by 12 columns. -/
def env_6x12_keymap_5x12 : ProbeEnv :=
  { info := .data [0x4b, 0x42, 0x10, 0x00, 0x00, 0x00, 0xC6]
    config_read := 0x54
    config_write := 0
    dt_keymap := some (0, 5, 12)
    setup := 0
    keycode := List.replicate 80 0
    fn_keymap := List.replicate 80 0 }

/-! ## The default keymaps -/

/-- The key code `KEY_ESC` of `input-event-codes.h`. -/
def KEY_ESC : Nat := 1
/-- The key code `KEY_1`. -/
def KEY_1 : Nat := 2
/-- The key code `KEY_2`. -/
def KEY_2 : Nat := 3
/-- The key code `KEY_3`. -/
def KEY_3 : Nat := 4
/-- The key code `KEY_4`. -/
def KEY_4 : Nat := 5
/-- The key code `KEY_5`. -/
def KEY_5 : Nat := 6
/-- The key code `KEY_6`. -/
def KEY_6 : Nat := 7
/-- The key code `KEY_7`. -/
def KEY_7 : Nat := 8
/-- The key code `KEY_8`. -/
def KEY_8 : Nat := 9
/-- The key code `KEY_9`. -/
def KEY_9 : Nat := 10
/-- The key code `KEY_0`. -/
def KEY_0 : Nat := 11
/-- The key code `KEY_BACKSPACE`. -/
def KEY_BACKSPACE : Nat := 14
/-- The key code `KEY_TAB`. -/
def KEY_TAB : Nat := 15
/-- The key code `KEY_Q`. -/
def KEY_Q : Nat := 16
/-- The key code `KEY_W`. -/
def KEY_W : Nat := 17
/-- The key code `KEY_E`. -/
def KEY_E : Nat := 18
/-- The key code `KEY_R`. -/
def KEY_R : Nat := 19
/-- The key code `KEY_T`. -/
def KEY_T : Nat := 20
/-- The key code `KEY_Y`. -/
def KEY_Y : Nat := 21
/-- The key code `KEY_U`. -/
def KEY_U : Nat := 22
/-- The key code `KEY_I`. -/
def KEY_I : Nat := 23
/-- The key code `KEY_O`. -/
def KEY_O : Nat := 24
/-- The key code `KEY_P`. -/
def KEY_P : Nat := 25
/-- The key code `KEY_LEFTBRACE`. -/
def KEY_LEFTBRACE : Nat := 26
/-- The key code `KEY_RIGHTBRACE`. -/
def KEY_RIGHTBRACE : Nat := 27
/-- The key code `KEY_ENTER`. -/
def KEY_ENTER : Nat := 28
/-- The key code `KEY_LEFTCTRL`. -/
def KEY_LEFTCTRL : Nat := 29
/-- The key code `KEY_A`. -/
def KEY_A : Nat := 30
/-- The key code `KEY_S`. -/
def KEY_S : Nat := 31
/-- The key code `KEY_D`. -/
def KEY_D : Nat := 32
/-- The key code `KEY_F`. -/
def KEY_F : Nat := 33
/-- The key code `KEY_G`. -/
def KEY_G : Nat := 34
/-- The key code `KEY_H`. -/
def KEY_H : Nat := 35
/-- The key code `KEY_J`. -/
def KEY_J : Nat := 36
/-- The key code `KEY_K`. -/
def KEY_K : Nat := 37
/-- The key code `KEY_L`. -/
def KEY_L : Nat := 38
/-- The key code `KEY_SEMICOLON`. -/
def KEY_SEMICOLON : Nat := 39
/-- The key code `KEY_APOSTROPHE`. -/
def KEY_APOSTROPHE : Nat := 40
/-- The key code `KEY_LEFTSHIFT`. -/
def KEY_LEFTSHIFT : Nat := 42
/-- The key code `KEY_Z`. -/
def KEY_Z : Nat := 44
/-- The key code `KEY_X`. -/
def KEY_X : Nat := 45
/-- The key code `KEY_C`. -/
def KEY_C : Nat := 46
/-- The key code `KEY_V`. -/
def KEY_V : Nat := 47
/-- The key code `KEY_B`. -/
def KEY_B : Nat := 48
/-- The key code `KEY_N`. -/
def KEY_N : Nat := 49
/-- The key code `KEY_M`. -/
def KEY_M : Nat := 50
/-- The key code `KEY_COMMA`. -/
def KEY_COMMA : Nat := 51
/-- The key code `KEY_DOT`. -/
def KEY_DOT : Nat := 52
/-- The key code `KEY_SLASH`. -/
def KEY_SLASH : Nat := 53
/-- The key code `KEY_LEFTALT`. -/
def KEY_LEFTALT : Nat := 56
/-- The key code `KEY_SPACE`. -/
def KEY_SPACE : Nat := 57
/-- The key code `KEY_F1`. -/
def KEY_F1 : Nat := 59
/-- The key code `KEY_F2`. -/
def KEY_F2 : Nat := 60
/-- The key code `KEY_F3`. -/
def KEY_F3 : Nat := 61
/-- The key code `KEY_F4`. -/
def KEY_F4 : Nat := 62
/-- The key code `KEY_F5`. -/
def KEY_F5 : Nat := 63
/-- The key code `KEY_F6`. -/
def KEY_F6 : Nat := 64
/-- The key code `KEY_F7`. -/
def KEY_F7 : Nat := 65
/-- The key code `KEY_F8`. -/
def KEY_F8 : Nat := 66
/-- The key code `KEY_F9`. -/
def KEY_F9 : Nat := 67
/-- The key code `KEY_F10`. -/
def KEY_F10 : Nat := 68
/-- The key code `KEY_SYSRQ`. -/
def KEY_SYSRQ : Nat := 99
/-- The key code `KEY_RIGHTALT`. -/
def KEY_RIGHTALT : Nat := 100
/-- The key code `KEY_HOME`. -/
def KEY_HOME : Nat := 102
/-- The key code `KEY_UP`. -/
def KEY_UP : Nat := 103
/-- The key code `KEY_LEFT`. -/
def KEY_LEFT : Nat := 105
/-- The key code `KEY_RIGHT`. -/
def KEY_RIGHT : Nat := 106
/-- The key code `KEY_END`. -/
def KEY_END : Nat := 107
/-- The key code `KEY_DOWN`. -/
def KEY_DOWN : Nat := 108
/-- The key code `KEY_INSERT`. -/
def KEY_INSERT : Nat := 110
/-- The key code `KEY_DELETE`. -/
def KEY_DELETE : Nat := 111
/-- The key code `KEY_LEFTMETA`. -/
def KEY_LEFTMETA : Nat := 125
/-- The key code `KEY_FN_ESC`. -/
def KEY_FN_ESC : Nat := 0x1d1

/-- The macro `KEY(row, col, val)` of `linux/input/matrix_keypad.h`: one entry
of a keymap, kept here as the triple that `matrix_keypad_build_keymap` unpacks
from it. -/
def KEY (row col val : Nat) : Nat × Nat × Nat := (row, col, val)

/-- The table `ppkb_default_fn_keymap`. -/
def ppkb_default_fn_keymap : List (Nat × Nat × Nat) := [
  KEY 0 0 KEY_FN_ESC,
  KEY 0 1 KEY_F1,
  KEY 0 2 KEY_F2,
  KEY 0 3 KEY_F3,
  KEY 0 4 KEY_F4,
  KEY 0 5 KEY_F5,
  KEY 0 6 KEY_F6,
  KEY 0 7 KEY_F7,
  KEY 0 8 KEY_F8,
  KEY 0 9 KEY_F9,
  KEY 0 10 KEY_F10,
  KEY 0 11 KEY_DELETE,

  KEY 2 0 KEY_SYSRQ,
  KEY 2 10 KEY_INSERT,

  KEY 3 0 KEY_LEFTSHIFT,
  KEY 3 8 KEY_HOME,
  KEY 3 9 KEY_UP,
  KEY 3 10 KEY_END,

  KEY 4 1 KEY_LEFTCTRL,
  KEY 4 6 KEY_LEFT,
  KEY 4 8 KEY_RIGHT,
  KEY 4 9 KEY_DOWN,

  KEY 5 2 KEY_FN,
  KEY 5 3 KEY_LEFTALT,
  KEY 5 5 KEY_RIGHTALT]

/-- The table `ppkb_default_keymap`. -/
def ppkb_default_keymap : List (Nat × Nat × Nat) := [
  KEY 0 0 KEY_ESC,
  KEY 0 1 KEY_1,
  KEY 0 2 KEY_2,
  KEY 0 3 KEY_3,
  KEY 0 4 KEY_4,
  KEY 0 5 KEY_5,
  KEY 0 6 KEY_6,
  KEY 0 7 KEY_7,
  KEY 0 8 KEY_8,
  KEY 0 9 KEY_9,
  KEY 0 10 KEY_0,
  KEY 0 11 KEY_BACKSPACE,

  KEY 1 0 KEY_TAB,
  KEY 1 1 KEY_Q,
  KEY 1 2 KEY_W,
  KEY 1 3 KEY_E,
  KEY 1 4 KEY_R,
  KEY 1 5 KEY_T,
  KEY 1 6 KEY_Y,
  KEY 1 7 KEY_U,
  KEY 1 8 KEY_I,
  KEY 1 9 KEY_O,
  KEY 1 10 KEY_P,
  KEY 1 11 KEY_ENTER,

  KEY 2 0 KEY_LEFTMETA,
  KEY 2 1 KEY_A,
  KEY 2 2 KEY_S,
  KEY 2 3 KEY_D,
  KEY 2 4 KEY_F,
  KEY 2 5 KEY_G,
  KEY 2 6 KEY_H,
  KEY 2 7 KEY_J,
  KEY 2 8 KEY_K,
  KEY 2 9 KEY_L,
  KEY 2 10 KEY_SEMICOLON,

  KEY 3 0 KEY_LEFTSHIFT,
  KEY 3 1 KEY_Z,
  KEY 3 2 KEY_X,
  KEY 3 3 KEY_C,
  KEY 3 4 KEY_V,
  KEY 3 5 KEY_B,
  KEY 3 6 KEY_N,
  KEY 3 7 KEY_M,
  KEY 3 8 KEY_COMMA,
  KEY 3 9 KEY_DOT,
  KEY 3 10 KEY_SLASH,

  KEY 4 1 KEY_LEFTCTRL,
  KEY 4 4 KEY_SPACE,
  KEY 4 6 KEY_APOSTROPHE,
  KEY 4 8 KEY_RIGHTBRACE,
  KEY 4 9 KEY_LEFTBRACE,

  KEY 5 2 KEY_FN,
  KEY 5 3 KEY_LEFTALT,
  KEY 5 5 KEY_RIGHTALT]

/-- Modelled from the spec: `matrix_keypad_build_keymap` of
`drivers/input/matrix-keymap.c`, which is not part of the sources at hand.  It
turns the (row, column, key) triples of a keymap into the table indexed by
packed scan code that `ppkb_update` looks keys up in, and fails (`none`) when
a triple lies outside the matrix.  The table is given `rows << row_shift`
entries, unassigned ones being 0 (`KEY_RESERVED`): that is the size at which
the packed code of every cell is an index of the table (the spec's `rows*cols`
entries would not hold the code 82 of cell (5, 2) of the 6 x 12 matrix). -/
def matrix_keypad_build_keymap (keymap_data : List (Nat × Nat × Nat)) (rows cols : Nat) :
    Option (List Nat) :=
  let row_shift := get_count_order cols
  keymap_data.foldl
    (fun (keymap : Option (List Nat)) (k : Nat × Nat × Nat) =>
      match keymap with
      | none => none
      | some t =>
        if k.1 < rows ∧ k.2.1 < cols then
          some (t.set (MATRIX_SCAN_CODE k.1 k.2.1 row_shift) k.2.2)
        else none)
    (some (List.replicate (rows <<< row_shift) 0))

/-- The keyboard right after `ppkb_probe` without device-tree keymaps: the
6 x 12 matrix with the tables built from `ppkb_default_keymap` and
`ppkb_default_fn_keymap`. -/
def ppkb_default_state : pinephone_keyboard :=
  ppkb_probe_state
    ((matrix_keypad_build_keymap ppkb_default_keymap PPKB_DEFAULT_KEYMAP_ROWS
      PPKB_DEFAULT_KEYMAP_COLS).getD [])
    ((matrix_keypad_build_keymap ppkb_default_fn_keymap PPKB_DEFAULT_KEYMAP_ROWS
      PPKB_DEFAULT_KEYMAP_COLS).getD [])
    PPKB_DEFAULT_KEYMAP_ROWS PPKB_DEFAULT_KEYMAP_COLS

/-- A keyboard whose identity read returns no byte at all. -/
def env_identity_read_empty : ProbeEnv :=
  { info := .data []
    config_read := 0x54
    config_write := 0
    dt_keymap := none
    setup := 0
    keycode := ppkb_default_state.keycode
    fn_keymap := ppkb_default_state.fn_keymap }

/-- A keyboard whose identity read returns 5 of the 7 bytes. -/
def env_identity_read_short : ProbeEnv :=
  { info := .data [0x4b, 0x42, 0x10, 0x00, 0x00]
    config_read := 0x54
    config_write := 0
    dt_keymap := none
    setup := 0
    keycode := ppkb_default_state.keycode
    fn_keymap := ppkb_default_state.fn_keymap }


/-- A valid frame in which the cells (0, 1), (5, 2) and (0, 3) are pressed. -/
def frame_K1_FN_K3 : List Nat := mk_frame [0, 1, 0x20, 1, 0, 0, 0, 0, 0, 0, 0, 0]

/-- A 6 x 12 keyboard right after `ppkb_probe` with keymaps as a device tree
may supply them: the base keymap is the default one, the overlay keymap is the
default one without its entry for cell (5, 2), which it leaves unassigned. -/
def default_overlay_without_fn : pinephone_keyboard :=
  ppkb_probe_state ppkb_default_state.keycode
    ((matrix_keypad_build_keymap (ppkb_default_fn_keymap.filter fun k => k.2.2 ≠ KEY_FN)
      PPKB_DEFAULT_KEYMAP_ROWS PPKB_DEFAULT_KEYMAP_COLS).getD [])
    PPKB_DEFAULT_KEYMAP_ROWS PPKB_DEFAULT_KEYMAP_COLS

/-- A valid frame in which only cell (0, 3) is pressed. -/
def frame_K3 : List Nat := mk_frame [0, 0, 0, 1, 0, 0, 0, 0, 0, 0, 0, 0]

/-! ## Lemmas on `memcpy` and the frame buffer -/

theorem length_memcpy (src : List Nat) : ∀ (dst : List Nat) (off : Nat),
    (memcpy dst off src).length = dst.length := by
  induction src with
  | nil => intro dst off; rfl
  | cons b rest ih => intro dst off; simp [memcpy, ih]

theorem getElem?_memcpy (src : List Nat) : ∀ (dst : List Nat) (off i : Nat),
    (memcpy dst off src)[i]? =
      if off ≤ i ∧ i < off + src.length ∧ i < dst.length then src[i - off]? else dst[i]? := by
  induction src with
  | nil =>
    intro dst off i
    rw [if_neg (by simp only [List.length_nil]; omega)]
    rfl
  | cons b rest ih =>
    intro dst off i
    simp only [memcpy, ih, List.length_cons, List.length_set, List.getElem?_set]
    by_cases h1 : off = i
    · subst h1
      by_cases h2 : off < dst.length
      · simp [h2]
      · simp [h2]; omega
    · by_cases h2 : off + 1 ≤ i ∧ i < off + 1 + rest.length ∧ i < dst.length
      · have h3 : off ≤ i ∧ i < off + (rest.length + 1) ∧ i < dst.length := by omega
        have h4 : i - off = (i - (off + 1)) + 1 := by omega
        rw [if_pos h2, if_pos h3, h4]
        simp
      · have h3 : ¬ (off ≤ i ∧ i < off + (rest.length + 1) ∧ i < dst.length) := by omega
        rw [if_neg h2, if_neg h3, if_neg h1]

theorem getD_memcpy_lt (src dst : List Nat) (off i : Nat) (h : i < off) :
    (memcpy dst off src).getD i 0 = dst.getD i 0 := by
  simp only [List.getD_eq_getElem?_getD, getElem?_memcpy]
  rw [if_neg (by omega)]

theorem getD_memcpy_ge (src dst : List Nat) (off i : Nat) (h : off + src.length ≤ i) :
    (memcpy dst off src).getD i 0 = dst.getD i 0 := by
  simp only [List.getD_eq_getElem?_getD, getElem?_memcpy]
  rw [if_neg (by omega)]

theorem getD_memcpy_mid (src dst : List Nat) (off i : Nat)
    (h1 : off ≤ i) (h2 : i < off + src.length) (h3 : i < dst.length) :
    (memcpy dst off src).getD i 0 = src.getD (i - off) 0 := by
  simp only [List.getD_eq_getElem?_getD, getElem?_memcpy]
  rw [if_pos ⟨h1, h2, h3⟩]

theorem take_drop_memcpy (src dst : List Nat) (off k n : Nat)
    (h : off + src.length ≤ dst.length) (hk : k + n ≤ src.length) :
    ((memcpy dst off src).drop (off + k)).take n = (src.drop k).take n := by
  apply List.ext_getElem?
  intro i
  simp only [List.getElem?_take, List.getElem?_drop, getElem?_memcpy]
  by_cases hi : i < n
  · rw [if_pos hi, if_pos hi, if_pos (by omega)]
    congr 1
    omega
  · rw [if_neg hi, if_neg hi]

theorem take_drop_memcpy_lt (src dst : List Nat) (off k n : Nat) (h : k + n ≤ off) :
    ((memcpy dst off src).drop k).take n = (dst.drop k).take n := by
  apply List.ext_getElem?
  intro i
  simp only [List.getElem?_take, List.getElem?_drop, getElem?_memcpy]
  by_cases hi : i < n
  · rw [if_pos hi, if_pos hi, if_neg (by omega)]
  · rw [if_neg hi, if_neg hi]

theorem take_drop_memcpy_ge (src dst : List Nat) (off k n : Nat) (h : off + src.length ≤ k) :
    ((memcpy dst off src).drop k).take n = (dst.drop k).take n := by
  apply List.ext_getElem?
  intro i
  simp only [List.getElem?_take, List.getElem?_drop, getElem?_memcpy]
  by_cases hi : i < n
  · rw [if_pos hi, if_pos hi, if_neg (by omega)]
  · rw [if_neg hi, if_neg hi]

theorem getD_take_drop (l : List Nat) (k n i : Nat) (h : i < n) :
    ((l.drop k).take n).getD i 0 = l.getD (k + i) 0 := by
  simp [List.getD_eq_getElem?_getD, List.getElem?_take, List.getElem?_drop, h]

/-! ## The two loops of `ppkb_update` as a fold over the changed cells -/

theorem and_BIT_eq_zero (a r : Nat) : a &&& BIT r = 0 ↔ a.testBit r = false := by
  unfold BIT
  rw [Nat.one_shiftLeft, Nat.and_two_pow]
  cases h : a.testBit r <;> simp [Nat.pos_pow_of_pos]

theorem and_BIT_eq (a r : Nat) : a &&& BIT r = if a.testBit r then BIT r else 0 := by
  unfold BIT
  rw [Nat.one_shiftLeft, Nat.and_two_pow]
  cases h : a.testBit r <;> simp

theorem BIT_ne_zero (r : Nat) : BIT r ≠ 0 := by
  unfold BIT
  rw [Nat.one_shiftLeft]
  exact Nat.pos_iff_ne_zero.mp (Nat.pos_pow_of_pos r (by decide))

theorem ppkb_update_row_eq (ppkb : pinephone_keyboard) (prev cur : List Nat) (c : Nat)
    (st : ScanLoop) (r : Nat) :
    ppkb_update_row ppkb c (cur.getD (c + 1) 0 % 256)
        ((prev.getD (c + 1) 0 % 256) ^^^ (cur.getD (c + 1) 0 % 256)) st r =
      if cellBit prev r c != cellBit cur r c then cellStep ppkb cur st (r, c) else st := by
  unfold ppkb_update_row cellStep cellBit
  simp only [and_BIT_eq_zero, Nat.testBit_xor, and_BIT_eq]
  cases h1 : (prev.getD (c + 1) 0 % 256).testBit r <;>
    cases h2 : (cur.getD (c + 1) 0 % 256).testBit r <;>
    simp [MATRIX_SCAN_CODE, BIT_ne_zero]

theorem foldl_ppkb_update_row (ppkb : pinephone_keyboard) (prev cur : List Nat) (c : Nat) :
    ∀ (rs : List Nat) (st : ScanLoop),
      rs.foldl (ppkb_update_row ppkb c (cur.getD (c + 1) 0 % 256)
          ((prev.getD (c + 1) 0 % 256) ^^^ (cur.getD (c + 1) 0 % 256))) st =
        ((rs.filter fun r => cellBit prev r c != cellBit cur r c).map fun r => (r, c)).foldl
          (cellStep ppkb cur) st := by
  intro rs
  induction rs with
  | nil => intro st; rfl
  | cons r rs ih =>
    intro st
    rw [List.foldl_cons, ppkb_update_row_eq ppkb prev cur c st r, ih]
    by_cases hc : (cellBit prev r c != cellBit cur r c) = true
    · simp [List.filter_cons, hc]
    · simp [List.filter_cons, hc]

theorem foldl_ppkb_update_col (ppkb : pinephone_keyboard) (buf : List Nat) (oo no : Nat)
    (prev cur : List Nat) :
    ∀ (cs : List Nat) (st : ScanLoop),
      (∀ c ∈ cs, buf.getD (oo + (c + 1)) 0 = prev.getD (c + 1) 0 ∧
                 buf.getD (no + (c + 1)) 0 = cur.getD (c + 1) 0) →
      cs.foldl (ppkb_update_col ppkb buf oo no) st =
        (cs.flatMap fun c =>
          ((List.range ppkb.rows).filter fun r => cellBit prev r c != cellBit cur r c).map
            fun r => (r, c)).foldl (cellStep ppkb cur) st := by
  intro cs
  induction cs with
  | nil => intro st _; rfl
  | cons c cs ih =>
    intro st h
    obtain ⟨h1, h2⟩ := h c (List.mem_cons_self _ _)
    have hcs := fun x hx => h x (List.mem_cons_of_mem c hx)
    rw [List.foldl_cons, List.flatMap_cons, List.foldl_append, ← ih _ hcs]
    congr 1
    unfold ppkb_update_col
    simp only [h1, h2]
    apply foldl_ppkb_update_row

/-! ## The three outcomes of `ppkb_update` -/

/-- The state a scan leaves behind when it is abandoned: only the slot
`new_buf` points to has received the bytes that were transferred. -/
theorem ppkb_update_short (s : pinephone_keyboard) (rd : BlockRead)
    (h : rd.ret ≠ ((s.cols + 1 : Nat) : Int)) :
    ppkb_update s rd = ({ s with buf := memcpy s.buf (new_off s) rd.bytes }, []) := by
  unfold ppkb_update new_off
  simp only [Nat.cast_add, Nat.cast_one] at h
  simp [h]

theorem new_off_add_le (s : pinephone_keyboard) (hwf : WellFormed s) :
    new_off s + (s.cols + 1) ≤ s.buf.length := by
  unfold WellFormed at hwf
  unfold new_off
  split <;> omega

theorem old_off_add_le (s : pinephone_keyboard) (hwf : WellFormed s) :
    old_off s + (s.cols + 1) ≤ s.buf.length := by
  unfold WellFormed at hwf
  unfold old_off
  split <;> omega

theorem off_disjoint (s : pinephone_keyboard) :
    old_off s + (s.cols + 1) ≤ new_off s ∨ new_off s + (s.cols + 1) ≤ old_off s := by
  unfold old_off new_off
  split <;> simp

theorem crc_of_memcpy (s : pinephone_keyboard) (frame : List Nat) (hwf : WellFormed s)
    (hlen : frame.length = s.cols + 1) :
    crc8 s.crc_table (((memcpy s.buf (new_off s) frame).drop (new_off s + 1)).take s.cols)
      CRC8_INIT_VALUE = frame_crc s frame := by
  unfold frame_crc
  rw [take_drop_memcpy _ _ _ _ _ (by rw [hlen]; exact new_off_add_le s hwf) (by omega)]

theorem lead_of_memcpy (s : pinephone_keyboard) (frame : List Nat) (hwf : WellFormed s)
    (hlen : frame.length = s.cols + 1) :
    (memcpy s.buf (new_off s) frame).getD (new_off s) 0 = frame.getD 0 0 := by
  have h := new_off_add_le s hwf
  rw [getD_memcpy_mid _ _ _ _ (le_refl _) (by omega) (by omega)]
  simp

theorem ppkb_update_bad_crc (s : pinephone_keyboard) (frame : List Nat) (hwf : WellFormed s)
    (hlen : frame.length = s.cols + 1) (hcrc : frame_crc s frame ≠ frame.getD 0 0 % 256) :
    ppkb_update s (.data frame) = ({ s with buf := memcpy s.buf (new_off s) frame }, []) := by
  have h1 := crc_of_memcpy s frame hwf hlen
  have h2 := lead_of_memcpy s frame hwf hlen
  unfold new_off at h1 h2
  unfold ppkb_update new_off
  simp only [BlockRead.ret, BlockRead.bytes, hlen, ne_eq, not_true_eq_false, if_false, h1, h2,
    hcrc, not_false_eq_true, if_true]

theorem ppkb_update_ok (s : pinephone_keyboard) (frame : List Nat) (hwf : WellFormed s)
    (hv : ValidFrame s frame) :
    ppkb_update s (.data frame) =
      ({ s with buf := memcpy s.buf (new_off s) frame,
                buf_swap := if s.buf_swap ≠ 0 then 0 else 1,
                fn_state := ((changedCells s.rows s.cols (old_frame s) frame).foldl
                  (cellStep s frame)
                  { keymap := if s.fn_state ≠ 0 then s.fn_keymap else s.keycode,
                    fn_state := s.fn_state, events := [] }).fn_state },
       ((changedCells s.rows s.cols (old_frame s) frame).foldl (cellStep s frame)
          { keymap := if s.fn_state ≠ 0 then s.fn_keymap else s.keycode,
            fn_state := s.fn_state, events := [] }).events ++ [Event.sync]) := by
  obtain ⟨hlen, hcrc⟩ := hv
  have h1 := crc_of_memcpy s frame hwf hlen
  have h2 := lead_of_memcpy s frame hwf hlen
  have h3 := foldl_ppkb_update_col s (memcpy s.buf (new_off s) frame) (old_off s) (new_off s)
    (old_frame s) frame (List.range s.cols)
    { keymap := if s.fn_state ≠ 0 then s.fn_keymap else s.keycode,
      fn_state := s.fn_state, events := [] }
    (by
      intro c hc
      have hc := List.mem_range.mp hc
      have hn := new_off_add_le s hwf
      have ho := old_off_add_le s hwf
      constructor
      · unfold old_frame
        rw [getD_take_drop _ _ _ _ (by omega)]
        rcases off_disjoint s with hd | hd
        · exact getD_memcpy_lt _ _ _ _ (by omega)
        · exact getD_memcpy_ge _ _ _ _ (by omega)
      · rw [getD_memcpy_mid _ _ _ _ (by omega) (by omega) (by omega)]
        congr 1
        omega)
  unfold changedCells
  rw [← h3]
  unfold old_off new_off at h3
  unfold new_off at h1 h2
  unfold ppkb_update new_off old_off
  simp only [BlockRead.ret, BlockRead.bytes, hlen, ne_eq, not_true_eq_false, if_false, h1, h2,
    hcrc]

/-! ## The changed cells and the events reported for them -/

theorem mem_changedCells (rows cols : Nat) (prev cur : List Nat) (r c : Nat) :
    (r, c) ∈ changedCells rows cols prev cur ↔
      r < rows ∧ c < cols ∧ cellBit prev r c ≠ cellBit cur r c := by
  unfold changedCells
  simp only [List.mem_flatMap, List.mem_map, List.mem_filter, List.mem_range, Prod.mk.injEq,
    bne_iff_ne]
  constructor
  · rintro ⟨c', hc', r', ⟨hr', hne⟩, rfl, rfl⟩
    exact ⟨hr', hc', hne⟩
  · rintro ⟨hr, hc, hne⟩
    exact ⟨c, hc, r, ⟨hr, hne⟩, rfl, rfl⟩

theorem pairwise_changedCells (rows cols : Nat) (prev cur : List Nat) :
    (changedCells rows cols prev cur).Pairwise cellBefore := by
  unfold changedCells
  rw [List.pairwise_flatMap]
  constructor
  · intro c _
    rw [List.pairwise_map]
    refine List.Pairwise.imp ?_ (List.Pairwise.filter _ (List.pairwise_lt_range rows))
    intro a b hab
    exact Or.inr ⟨rfl, hab⟩
  · refine List.Pairwise.imp ?_ (List.pairwise_lt_range cols)
    intro c1 c2 hc x hx y hy
    simp only [List.mem_map, List.mem_filter] at hx hy
    obtain ⟨_, _, rfl⟩ := hx
    obtain ⟨_, _, rfl⟩ := hy
    exact Or.inl hc

theorem nodup_changedCells (rows cols : Nat) (prev cur : List Nat) :
    (changedCells rows cols prev cur).Nodup := by
  refine List.Pairwise.imp ?_ (pairwise_changedCells rows cols prev cur)
  intro a b hab heq
  subst heq
  unfold cellBefore at hab
  omega

theorem changedCells_eq_singleton (rows cols : Nat) (prev cur : List Nat) (r c : Nat)
    (hr : r < rows) (hc : c < cols)
    (h : ∀ r' c', r' < rows → c' < cols →
      (cellBit prev r' c' ≠ cellBit cur r' c' ↔ (r' = r ∧ c' = c))) :
    changedCells rows cols prev cur = [(r, c)] := by
  rw [← List.perm_singleton,
    List.perm_ext_iff_of_nodup (nodup_changedCells rows cols prev cur) (List.nodup_singleton _)]
  rintro ⟨r', c'⟩
  rw [mem_changedCells, List.mem_singleton, Prod.mk.injEq]
  constructor
  · rintro ⟨h1, h2, h3⟩
    exact (h r' c' h1 h2).mp h3
  · rintro ⟨rfl, rfl⟩
    exact ⟨hr, hc, (h r' c' hr hc).mpr ⟨rfl, rfl⟩⟩

theorem length_cellKeys (ppkb : pinephone_keyboard) (cur : List Nat) :
    ∀ (cells : List (Nat × Nat)) (km : List Nat),
      (cellKeys ppkb cur km cells).length = cells.length := by
  intro cells
  induction cells with
  | nil => intro km; rfl
  | cons x rest ih => intro km; simp [cellKeys, ih]

theorem foldl_cellStep (ppkb : pinephone_keyboard) (cur : List Nat) :
    ∀ (cells : List (Nat × Nat)) (st : ScanLoop),
      (cells.foldl (cellStep ppkb cur) st).events =
        st.events ++ (List.zipWith (cellEvents ppkb.row_shift cur) cells
          (cellKeys ppkb cur st.keymap cells)).flatten := by
  intro cells
  induction cells with
  | nil => intro st; simp [cellKeys]
  | cons x rest ih =>
    intro st
    rw [List.foldl_cons, ih]
    have hk : (cellStep ppkb cur st x).keymap = cellKeymap ppkb cur st.keymap x := by
      by_cases h : st.keymap.getD (MATRIX_SCAN_CODE x.1 x.2 ppkb.row_shift) 0 = KEY_FN
      · simp only [cellStep, cellKeymap, h, if_true]
      · simp only [cellStep, cellKeymap, h, if_false]
    have he : (cellStep ppkb cur st x).events =
        st.events ++ cellEvents ppkb.row_shift cur x
          ((cellKeymap ppkb cur st.keymap x).getD
            (MATRIX_SCAN_CODE x.1 x.2 ppkb.row_shift) 0) := by
      by_cases h : st.keymap.getD (MATRIX_SCAN_CODE x.1 x.2 ppkb.row_shift) 0 = KEY_FN
      · simp only [cellStep, cellKeymap, cellEvents, h, if_true]
        rfl
      · simp only [cellStep, cellKeymap, cellEvents, h, if_false]
        rfl
    rw [hk, he]
    simp [cellKeys, List.append_assoc]

/-- The events of a successful scan: for each changed cell, in the order of
the loops, its scan code and a key event; then the sync. -/
theorem events_of_valid_scan (s : pinephone_keyboard) (frame : List Nat) (hwf : WellFormed s)
    (hv : ValidFrame s frame) :
    (ppkb_update s (.data frame)).2 =
      (List.zipWith (cellEvents s.row_shift frame)
        (changedCells s.rows s.cols (old_frame s) frame)
        (cellKeys s frame (if s.fn_state ≠ 0 then s.fn_keymap else s.keycode)
          (changedCells s.rows s.cols (old_frame s) frame))).flatten ++ [Event.sync] := by
  rw [ppkb_update_ok s frame hwf hv]
  simp only [foldl_cellStep, List.nil_append]

/-! ## Claims on a single scan -/

/-- C1: for a frame that is read in full and passes the checksum, the events
of `ppkb_update` are, for each cell `(r, c)` of the matrix whose bit differs
between the previous frame and the new one and for no other cell, exactly one
scan-code event carrying `(r << rowShift) | c` followed by one key event that
is "pressed" iff the bit of the cell is set in the new frame (then the sync);
each such cell is listed once.  In particular, when the frames differ in the
single cell `(r, c)`, the events are those of that one cell. -/
theorem C1_one_event_per_changed_cell (s : pinephone_keyboard) (frame : List Nat)
    (hwf : WellFormed s) (hv : ValidFrame s frame) :
    (∃ keys : List Nat,
      keys.length = (changedCells s.rows s.cols (old_frame s) frame).length ∧
      (ppkb_update s (.data frame)).2 =
        (List.zipWith
          (fun (cell : Nat × Nat) (k : Nat) =>
            [Event.msc_scan ((cell.1 <<< s.row_shift) ||| cell.2),
             Event.key k (cellBit frame cell.1 cell.2)])
          (changedCells s.rows s.cols (old_frame s) frame) keys).flatten ++ [Event.sync]) ∧
    (changedCells s.rows s.cols (old_frame s) frame).Nodup ∧
    (∀ r c, (r, c) ∈ changedCells s.rows s.cols (old_frame s) frame ↔
      r < s.rows ∧ c < s.cols ∧ cellBit (old_frame s) r c ≠ cellBit frame r c) ∧
    (∀ r c, r < s.rows → c < s.cols →
      (∀ r' c', r' < s.rows → c' < s.cols →
        (cellBit (old_frame s) r' c' ≠ cellBit frame r' c' ↔ (r' = r ∧ c' = c))) →
      ∃ k, (ppkb_update s (.data frame)).2 =
        [Event.msc_scan ((r <<< s.row_shift) ||| c), Event.key k (cellBit frame r c),
         Event.sync]) := by
  refine ⟨⟨_, length_cellKeys s frame _ _, events_of_valid_scan s frame hwf hv⟩,
    nodup_changedCells _ _ _ _, mem_changedCells _ _ _ _, ?_⟩
  intro r c hr hc h
  have hcells := changedCells_eq_singleton s.rows s.cols (old_frame s) frame r c hr hc h
  rw [events_of_valid_scan s frame hwf hv, hcells]
  exact ⟨_, rfl⟩

/-- C1, at frame A of the scenario on a blank 6 x 12 keyboard. -/
theorem C1_one_event_per_changed_cell_witness :
    WellFormed blank_6x12 ∧ ValidFrame blank_6x12 frame_A ∧
    (ppkb_update blank_6x12 (.data frame_A)).2 =
      [Event.msc_scan 0, Event.key 0 true, Event.sync] ∧
    (∃ keys : List Nat,
      keys.length = (changedCells blank_6x12.rows blank_6x12.cols (old_frame blank_6x12)
        frame_A).length ∧
      (ppkb_update blank_6x12 (.data frame_A)).2 =
        (List.zipWith
          (fun (cell : Nat × Nat) (k : Nat) =>
            [Event.msc_scan ((cell.1 <<< blank_6x12.row_shift) ||| cell.2),
             Event.key k (cellBit frame_A cell.1 cell.2)])
          (changedCells blank_6x12.rows blank_6x12.cols (old_frame blank_6x12) frame_A)
          keys).flatten ++ [Event.sync]) :=
  ⟨by decide!, by decide!, by decide!,
    (C1_one_event_per_changed_cell blank_6x12 frame_A (by decide!) (by decide!)).1⟩

theorem old_frame_memcpy (s : pinephone_keyboard) (bytes : List Nat)
    (hlen : bytes.length ≤ s.cols + 1) :
    old_frame { s with buf := memcpy s.buf (new_off s) bytes } = old_frame s := by
  unfold old_frame
  have ho : old_off { s with buf := memcpy s.buf (new_off s) bytes } = old_off s := rfl
  rw [ho]
  rcases off_disjoint s with hd | hd
  · exact take_drop_memcpy_lt _ _ _ _ _ hd
  · exact take_drop_memcpy_ge _ _ _ _ _ (by omega)

/-- C2: a full-length frame whose leading byte is not the checksum of its
`cols` data bytes produces no event at all (the event list is empty: no scan
code, no key, no sync) and leaves the parity bit, the layer flag and the
previous-frame slot as they were. -/
theorem C2_corrupt_frame_discarded (s : pinephone_keyboard) (frame : List Nat)
    (hwf : WellFormed s) (hlen : frame.length = s.cols + 1)
    (hcrc : frame.getD 0 0 % 256 ≠ crc8 s.crc_table ((frame.drop 1).take s.cols) CRC8_INIT_VALUE) :
    (ppkb_update s (.data frame)).2 = [] ∧
    (ppkb_update s (.data frame)).1.buf_swap = s.buf_swap ∧
    (ppkb_update s (.data frame)).1.fn_state = s.fn_state ∧
    old_frame (ppkb_update s (.data frame)).1 = old_frame s := by
  rw [ppkb_update_bad_crc s frame hwf hlen (fun h => hcrc h.symm)]
  exact ⟨rfl, rfl, rfl, old_frame_memcpy s frame (le_of_eq hlen)⟩

/-- C2, at frame A with its checksum byte replaced by 0, after frame A itself
was accepted (so that the layer flag, parity and previous frame are not the
initial ones). -/
theorem C2_corrupt_frame_discarded_witness :
    WellFormed (ppkb_update blank_6x12 (.data frame_A)).1 ∧
    (0 :: frame_A.drop 1).length = (ppkb_update blank_6x12 (.data frame_A)).1.cols + 1 ∧
    (ppkb_update (ppkb_update blank_6x12 (.data frame_A)).1 (.data (0 :: frame_A.drop 1))).2
      = [] ∧
    old_frame (ppkb_update (ppkb_update blank_6x12 (.data frame_A)).1
      (.data (0 :: frame_A.drop 1))).1 = frame_A :=
  ⟨by decide!, by decide!,
   (C2_corrupt_frame_discarded (ppkb_update blank_6x12 (.data frame_A)).1 (0 :: frame_A.drop 1)
      (by decide!) (by decide!) (by decide!)).1,
   by decide!⟩

/-- C3: when the block read returns anything but exactly `cols + 1` bytes (an
error, or fewer bytes), `ppkb_update` emits no event at all and leaves the
parity bit, the layer flag and the contents of the previous-frame slot
unchanged. -/
theorem C3_short_read_abandoned (s : pinephone_keyboard) (rd : BlockRead)
    (hret : rd.ret ≠ ((s.cols + 1 : Nat) : Int)) (hshort : rd.bytes.length ≤ s.cols + 1) :
    (ppkb_update s rd).2 = [] ∧
    (ppkb_update s rd).1.buf_swap = s.buf_swap ∧
    (ppkb_update s rd).1.fn_state = s.fn_state ∧
    old_frame (ppkb_update s rd).1 = old_frame s := by
  rw [ppkb_update_short s rd hret]
  exact ⟨rfl, rfl, rfl, old_frame_memcpy s rd.bytes hshort⟩

/-- C3, at a read of 5 of the 13 bytes of a 6 x 12 matrix, after frame A was
accepted. -/
theorem C3_short_read_abandoned_witness :
    (BlockRead.data [1, 2, 3, 4, 5]).ret ≠
      (((ppkb_update blank_6x12 (.data frame_A)).1.cols + 1 : Nat) : Int) ∧
    (ppkb_update (ppkb_update blank_6x12 (.data frame_A)).1 (.data [1, 2, 3, 4, 5])).2 = [] ∧
    old_frame (ppkb_update (ppkb_update blank_6x12 (.data frame_A)).1
      (.data [1, 2, 3, 4, 5])).1 = frame_A :=
  ⟨by decide!,
   (C3_short_read_abandoned (ppkb_update blank_6x12 (.data frame_A)).1 (.data [1, 2, 3, 4, 5])
      (by decide!) (by decide!)).1,
   by decide!⟩

theorem wf_after_memcpy (s : pinephone_keyboard) (bytes : List Nat) (b f : Nat)
    (hwf : WellFormed s) :
    WellFormed { s with buf := memcpy s.buf (new_off s) bytes, buf_swap := b, fn_state := f } := by
  unfold WellFormed at *
  simpa [length_memcpy] using hwf

theorem old_off_after_ok (s : pinephone_keyboard) (l : List Nat) (f : Nat) :
    old_off { s with buf := l, buf_swap := if s.buf_swap ≠ 0 then 0 else 1, fn_state := f } =
      new_off s := by
  unfold old_off new_off
  by_cases h : s.buf_swap = 0 <;> simp [h]

theorem old_frame_after_ok (s : pinephone_keyboard) (frame : List Nat) (f : Nat)
    (hwf : WellFormed s) (hlen : frame.length = s.cols + 1) :
    old_frame { s with buf := memcpy s.buf (new_off s) frame,
                       buf_swap := if s.buf_swap ≠ 0 then 0 else 1, fn_state := f } = frame := by
  unfold old_frame
  rw [old_off_after_ok]
  have h := take_drop_memcpy frame s.buf (new_off s) 0 (s.cols + 1)
    (by rw [hlen]; exact new_off_add_le s hwf) (by omega)
  simp only [Nat.add_zero, List.drop_zero] at h
  rw [h, ← hlen, List.take_length]

theorem changedCells_eq_nil (rows cols : Nat) (prev cur : List Nat)
    (h : ∀ c, c < cols → cur.getD (c + 1) 0 = prev.getD (c + 1) 0) :
    changedCells rows cols prev cur = [] := by
  rw [List.eq_nil_iff_forall_not_mem]
  rintro ⟨r, c⟩ hmem
  rw [mem_changedCells] at hmem
  obtain ⟨_, hc, hne⟩ := hmem
  apply hne
  unfold cellBit
  rw [h c hc]

/-- C6: a valid frame whose `cols` data bytes equal those of the previous
frame yields no key event (the event list is the sync alone) and leaves the
layer flag unchanged; hence a valid frame delivered twice in a row yields no
key event on the second delivery. -/
theorem C6_identical_frame_no_key_events (s : pinephone_keyboard) (frame : List Nat)
    (hwf : WellFormed s) (hv : ValidFrame s frame) :
    ((∀ c, c < s.cols → frame.getD (c + 1) 0 = (old_frame s).getD (c + 1) 0) →
      (ppkb_update s (.data frame)).2 = [Event.sync] ∧
      (ppkb_update s (.data frame)).1.fn_state = s.fn_state) ∧
    (ppkb_update (ppkb_update s (.data frame)).1 (.data frame)).2 = [Event.sync] ∧
    (ppkb_update (ppkb_update s (.data frame)).1 (.data frame)).1.fn_state =
      (ppkb_update s (.data frame)).1.fn_state := by
  have key : ∀ (t : pinephone_keyboard), WellFormed t → ValidFrame t frame →
      (∀ c, c < t.cols → frame.getD (c + 1) 0 = (old_frame t).getD (c + 1) 0) →
      (ppkb_update t (.data frame)).2 = [Event.sync] ∧
      (ppkb_update t (.data frame)).1.fn_state = t.fn_state := by
    intro t htwf htv hsame
    rw [ppkb_update_ok t frame htwf htv,
      changedCells_eq_nil t.rows t.cols (old_frame t) frame hsame]
    exact ⟨rfl, rfl⟩
  refine ⟨key s hwf hv, ?_⟩
  apply key
  · rw [ppkb_update_ok s frame hwf hv]
    exact wf_after_memcpy s frame _ _ hwf
  · rw [ppkb_update_ok s frame hwf hv]
    exact hv
  · intro c _
    rw [ppkb_update_ok s frame hwf hv, old_frame_after_ok s frame _ hwf hv.1]

/-- C6, at frame A delivered twice to a blank 6 x 12 keyboard. -/
theorem C6_identical_frame_no_key_events_witness :
    WellFormed blank_6x12 ∧ ValidFrame blank_6x12 frame_A ∧
    (ppkb_update blank_6x12 (.data frame_A)).2 =
      [Event.msc_scan 0, Event.key 0 true, Event.sync] ∧
    (ppkb_update (ppkb_update blank_6x12 (.data frame_A)).1 (.data frame_A)).2 =
      [Event.sync] :=
  ⟨by decide!, by decide!, by decide!,
   (C6_identical_frame_no_key_events blank_6x12 frame_A (by decide!) (by decide!)).2.1⟩

/-- C10: in a successful scan the pairs (scan code, key event) are emitted
for the changed cells in strictly increasing order of (column, row): the pair
of cell `(r1, c1)` comes before the pair of cell `(r2, c2)` iff `c1 < c2`, or
`c1 = c2` and `r1 < r2`.  Here `cells` lists the changed cells in the order of
their events. -/
theorem C10_events_in_column_row_order (s : pinephone_keyboard) (frame : List Nat)
    (hwf : WellFormed s) (hv : ValidFrame s frame) :
    ∃ (cells : List (Nat × Nat)) (keys : List Nat),
      cells = changedCells s.rows s.cols (old_frame s) frame ∧
      keys.length = cells.length ∧
      (ppkb_update s (.data frame)).2 =
        (List.zipWith
          (fun (cell : Nat × Nat) (k : Nat) =>
            [Event.msc_scan ((cell.1 <<< s.row_shift) ||| cell.2),
             Event.key k (cellBit frame cell.1 cell.2)])
          cells keys).flatten ++ [Event.sync] ∧
      ∀ (i j : Nat) (hi : i < cells.length) (hj : j < cells.length),
        i < j ↔ ((cells[i]).2 < (cells[j]).2 ∨
          ((cells[i]).2 = (cells[j]).2 ∧ (cells[i]).1 < (cells[j]).1)) := by
  refine ⟨changedCells s.rows s.cols (old_frame s) frame, _, rfl, length_cellKeys s frame _ _,
    events_of_valid_scan s frame hwf hv, ?_⟩
  have hp := pairwise_changedCells s.rows s.cols (old_frame s) frame
  rw [List.pairwise_iff_getElem] at hp
  intro i j hi hj
  constructor
  · intro hij
    exact hp i j hi hj hij
  · intro hb
    by_contra hij
    rcases Nat.lt_or_eq_of_le (Nat.le_of_not_lt hij) with h | h
    · have := hp j i hj hi h
      unfold cellBefore at this
      omega
    · subst h
      omega

/-! ## Runs of scans -/

theorem ret_error_ne (errno n : Nat) : (BlockRead.error errno).ret ≠ ((n + 1 : Nat) : Int) := by
  unfold BlockRead.ret
  push_cast
  omega

/-- Every outcome of the block read is either abandoned at the length check,
or a list of exactly `cols + 1` bytes. -/
theorem blockRead_cases (s : pinephone_keyboard) (rd : BlockRead) :
    rd.ret ≠ ((s.cols + 1 : Nat) : Int) ∨
      ∃ frame, rd = .data frame ∧ frame.length = s.cols + 1 := by
  cases rd with
  | error errno => exact Or.inl (ret_error_ne errno s.cols)
  | data bytes =>
    by_cases h : bytes.length = s.cols + 1
    · exact Or.inr ⟨bytes, rfl, h⟩
    · left
      unfold BlockRead.ret
      push_cast
      omega

/-- The outcome of `ppkb_update` in all cases: the new slot receives the
bytes; parity, layer flag and events are those of the diff when the frame is
valid, and untouched (no events) otherwise. -/
theorem ppkb_update_cases (s : pinephone_keyboard) (rd : BlockRead) (hwf : WellFormed s) :
    (rd.ret = ((s.cols + 1 : Nat) : Int) ∧ ValidFrame s rd.bytes ∧
      ∃ frame, rd = .data frame) ∨
    (¬ (rd.ret = ((s.cols + 1 : Nat) : Int) ∧ ValidFrame s rd.bytes) ∧
      ppkb_update s rd = ({ s with buf := memcpy s.buf (new_off s) rd.bytes }, [])) := by
  rcases blockRead_cases s rd with h | ⟨frame, rfl, hlen⟩
  · exact Or.inr ⟨fun h' => h h'.1, ppkb_update_short s rd h⟩
  · by_cases hcrc : frame_crc s frame = frame.getD 0 0 % 256
    · left
      refine ⟨?_, ⟨hlen, hcrc⟩, frame, rfl⟩
      simp [BlockRead.ret, hlen]
    · right
      refine ⟨?_, ppkb_update_bad_crc s frame hwf hlen hcrc⟩
      rintro ⟨_, hv⟩
      exact hcrc hv.2

theorem wf_ppkb_update (s : pinephone_keyboard) (rd : BlockRead) (hwf : WellFormed s) :
    WellFormed (ppkb_update s rd).1 := by
  rcases ppkb_update_cases s rd hwf with ⟨_, hv, frame, rfl⟩ | ⟨_, h⟩
  · rw [ppkb_update_ok s frame hwf hv]
    exact wf_after_memcpy s frame _ _ hwf
  · rw [h]
    exact wf_after_memcpy s rd.bytes s.buf_swap s.fn_state hwf

theorem sameConfig_ppkb_update (s : pinephone_keyboard) (rd : BlockRead) :
    SameConfig s (ppkb_update s rd).1 := by
  unfold ppkb_update SameConfig
  simp only
  split_ifs <;> exact ⟨rfl, rfl, rfl, rfl, rfl, rfl⟩

theorem validFrame_congr (s t : pinephone_keyboard) (h : SameConfig s t) (frame : List Nat) :
    ValidFrame t frame ↔ ValidFrame s frame := by
  obtain ⟨_, _, h3, _, _, h6⟩ := h
  unfold ValidFrame frame_crc
  rw [h3, h6]

theorem old_frame_ppkb_update (s : pinephone_keyboard) (rd : BlockRead) (hwf : WellFormed s)
    (hlen : rd.bytes.length ≤ s.cols + 1) :
    old_frame (ppkb_update s rd).1 =
      if rd.ret = ((s.cols + 1 : Nat) : Int) ∧ ValidFrame s rd.bytes then rd.bytes
      else old_frame s := by
  rcases ppkb_update_cases s rd hwf with ⟨h1, hv, frame, rfl⟩ | ⟨hn, h⟩
  · rw [if_pos ⟨h1, hv⟩, ppkb_update_ok s frame hwf hv]
    exact old_frame_after_ok s frame _ hwf hv.1
  · rw [if_neg hn, h]
    exact old_frame_memcpy s rd.bytes hlen

theorem old_frame_ppkb_run (s : pinephone_keyboard) :
    ∀ (rds : List BlockRead) (t : pinephone_keyboard), SameConfig s t → WellFormed t →
      (∀ rd ∈ rds, rd.bytes.length ≤ s.cols + 1) →
      old_frame (ppkb_run t rds) = lastGoodFrom s (old_frame t) rds ∧
      SameConfig s (ppkb_run t rds) ∧ WellFormed (ppkb_run t rds) := by
  intro rds
  induction rds with
  | nil => intro t hc hwf _; exact ⟨rfl, hc, hwf⟩
  | cons rd rest ih =>
    intro t hc hwf hlen
    have hc' : SameConfig s (ppkb_update t rd).1 := by
      have h := sameConfig_ppkb_update t rd
      unfold SameConfig at *
      obtain ⟨a1, a2, a3, a4, a5, a6⟩ := hc
      obtain ⟨b1, b2, b3, b4, b5, b6⟩ := h
      exact ⟨b1.trans a1, b2.trans a2, b3.trans a3, b4.trans a4, b5.trans a5, b6.trans a6⟩
    have hrd : rd.bytes.length ≤ t.cols + 1 := by
      rw [hc.2.2.2.2.2]
      exact hlen rd (List.mem_cons_self _ _)
    have hstep := old_frame_ppkb_update t rd hwf hrd
    have := ih (ppkb_update t rd).1 hc' (wf_ppkb_update t rd hwf)
      (fun x hx => hlen x (List.mem_cons_of_mem _ hx))
    unfold ppkb_run lastGoodFrom at *
    rw [List.foldl_cons, List.foldl_cons]
    rw [hstep] at this
    simp only [validFrame_congr s t hc, hc.2.2.2.2.2] at this
    exact this

theorem old_frame_zeroInit (s : pinephone_keyboard) (h : ZeroInit s) :
    old_frame s = List.replicate (s.cols + 1) 0 ∧ WellFormed s := by
  obtain ⟨_, h2, h3⟩ := h
  unfold old_frame old_off WellFormed
  rw [h3]
  simp [h2]


/-- C7: from the zero-initialised state, after any sequence of scan attempts
(each returning at most the `cols + 1` bytes asked for), the previous-frame
slot holds the frame of the most recent successful scan (the all-zero frame if
there is none), and the events of a next successful scan are the diff of its
frame against that one: one (scan code, key) pair per cell that differs, then
the sync. -/
theorem C7_diff_against_last_good_frame (s : pinephone_keyboard) (rds : List BlockRead)
    (frame : List Nat) (hzero : ZeroInit s)
    (hrds : ∀ rd ∈ rds, rd.bytes.length ≤ s.cols + 1) (hv : ValidFrame s frame) :
    old_frame (ppkb_run s rds) = lastGoodFrame s rds ∧
    ∃ keys : List Nat,
      keys.length = (changedCells s.rows s.cols (lastGoodFrame s rds) frame).length ∧
      (ppkb_update (ppkb_run s rds) (.data frame)).2 =
        (List.zipWith
          (fun (cell : Nat × Nat) (k : Nat) =>
            [Event.msc_scan ((cell.1 <<< s.row_shift) ||| cell.2),
             Event.key k (cellBit frame cell.1 cell.2)])
          (changedCells s.rows s.cols (lastGoodFrame s rds) frame) keys).flatten ++
          [Event.sync] := by
  obtain ⟨hz, hwf⟩ := old_frame_zeroInit s hzero
  obtain ⟨h1, hc, hwf'⟩ := old_frame_ppkb_run s rds s ⟨rfl, rfl, rfl, rfl, rfl, rfl⟩ hwf hrds
  rw [hz] at h1
  have hv' : ValidFrame (ppkb_run s rds) frame := (validFrame_congr s _ hc frame).mpr hv
  refine ⟨h1, ?_⟩
  have he := events_of_valid_scan (ppkb_run s rds) frame hwf' hv'
  obtain ⟨_, _, _, c4, c5, c6⟩ := hc
  rw [h1, c4, c5, c6] at he
  exact ⟨_, length_cellKeys _ frame _ _, he⟩

/-- C7, on the 6 x 12 matrix: frame A (only cell (0, 0) set) yields one press
for code 0; then, after a short read and a frame with a bad checksum, the
all-zero frame B yields one release for code 0. -/
theorem C7_diff_against_last_good_frame_witness :
    ZeroInit blank_6x12 ∧ ValidFrame blank_6x12 frame_A ∧ ValidFrame blank_6x12 frame_B ∧
    (ppkb_update blank_6x12 (.data frame_A)).2 =
      [Event.msc_scan 0, Event.key 0 true, Event.sync] ∧
    lastGoodFrame blank_6x12
      [.data frame_A, .data [1, 2, 3, 4, 5], .error 5, .data (0 :: frame_A.drop 1)] = frame_A ∧
    (ppkb_update (ppkb_run blank_6x12
        [.data frame_A, .data [1, 2, 3, 4, 5], .error 5, .data (0 :: frame_A.drop 1)])
      (.data frame_B)).2 = [Event.msc_scan 0, Event.key 0 false, Event.sync] ∧
    old_frame (ppkb_run blank_6x12
        [.data frame_A, .data [1, 2, 3, 4, 5], .error 5, .data (0 :: frame_A.drop 1)]) =
      lastGoodFrame blank_6x12
        [.data frame_A, .data [1, 2, 3, 4, 5], .error 5, .data (0 :: frame_A.drop 1)] :=
  ⟨by decide!, by decide!, by decide!, by decide!, by decide!, by decide!,
   (C7_diff_against_last_good_frame blank_6x12
      [.data frame_A, .data [1, 2, 3, 4, 5], .error 5, .data (0 :: frame_A.drop 1)] frame_B
      (by decide!) (by decide!) (by decide!)).1⟩
/-! ## The overlay trigger -/

theorem cellKeymap_mem (s : pinephone_keyboard) (cur km : List Nat) (x : Nat × Nat)
    (hkm : km = s.keycode ∨ km = s.fn_keymap) :
    cellKeymap s cur km x = s.keycode ∨ cellKeymap s cur km x = s.fn_keymap := by
  unfold cellKeymap
  split
  · split
    · exact Or.inr rfl
    · exact Or.inl rfl
  · exact hkm

theorem cellStep_keymap (s : pinephone_keyboard) (cur : List Nat) (st : ScanLoop)
    (x : Nat × Nat) : (cellStep s cur st x).keymap = cellKeymap s cur st.keymap x := by
  by_cases h : st.keymap.getD (MATRIX_SCAN_CODE x.1 x.2 s.row_shift) 0 = KEY_FN
  · simp only [cellStep, cellKeymap, h, if_true]
  · simp only [cellStep, cellKeymap, h, if_false]

theorem cellStep_fn_state (s : pinephone_keyboard) (cur : List Nat) (st : ScanLoop)
    (x : Nat × Nat) :
    (cellStep s cur st x).fn_state =
      if st.keymap.getD (MATRIX_SCAN_CODE x.1 x.2 s.row_shift) 0 = KEY_FN then
        (if cellBit cur x.1 x.2 then BIT x.1 else 0)
      else st.fn_state := by
  by_cases h : st.keymap.getD (MATRIX_SCAN_CODE x.1 x.2 s.row_shift) 0 = KEY_FN
  · simp only [cellStep, h, if_true]
  · simp only [cellStep, h, if_false]

/-- Whether the active keymap maps a cell of the matrix to `KEY_FN`, when one
cell carries the overlay trigger. -/
theorem lookup_eq_KEY_FN_iff (s : pinephone_keyboard) (rF cF : Nat) (hfn : FnCellAt s rF cF)
    (km : List Nat) (hkm : km = s.keycode ∨ km = s.fn_keymap) (x : Nat × Nat)
    (hx : x.1 < s.rows ∧ x.2 < s.cols) :
    km.getD (MATRIX_SCAN_CODE x.1 x.2 s.row_shift) 0 = KEY_FN ↔ x = (rF, cF) := by
  obtain ⟨_, _, h⟩ := hfn
  have := h x.1 hx.1 x.2 hx.2
  rw [Prod.ext_iff]
  rcases hkm with rfl | rfl
  · exact this.1
  · exact this.2

theorem foldl_cellStep_fn_state (s : pinephone_keyboard) (cur : List Nat) (rF cF : Nat)
    (hfn : FnCellAt s rF cF) :
    ∀ (cells : List (Nat × Nat)) (st : ScanLoop),
      (∀ x ∈ cells, x.1 < s.rows ∧ x.2 < s.cols) →
      (st.keymap = s.keycode ∨ st.keymap = s.fn_keymap) →
      (cells.foldl (cellStep s cur) st).fn_state =
        if (rF, cF) ∈ cells then (if cellBit cur rF cF then BIT rF else 0) else st.fn_state := by
  intro cells
  induction cells with
  | nil => intro st _ _; simp
  | cons x rest ih =>
    intro st hin hkm
    have hx := hin x (List.mem_cons_self _ _)
    have hrest := fun y hy => hin y (List.mem_cons_of_mem x hy)
    have hkm' : (cellStep s cur st x).keymap = s.keycode ∨
        (cellStep s cur st x).keymap = s.fn_keymap := by
      rw [cellStep_keymap]
      exact cellKeymap_mem s cur st.keymap x hkm
    rw [List.foldl_cons, ih _ hrest hkm', cellStep_fn_state]
    have hiff := lookup_eq_KEY_FN_iff s rF cF hfn st.keymap hkm x hx
    by_cases hxF : x = (rF, cF)
    · rw [if_pos (hiff.mpr hxF)]
      subst hxF
      simp
    · rw [if_neg (fun h => hxF (hiff.mp h))]
      have hne : ¬ (rF, cF) = x := fun h => hxF h.symm
      simp [hne, List.mem_cons]

theorem cellKeys_of_fnCell (s : pinephone_keyboard) (cur : List Nat) (rF cF : Nat)
    (hfn : FnCellAt s rF cF) :
    ∀ (cells : List (Nat × Nat)) (km : List Nat),
      cells.Pairwise cellBefore →
      (∀ x ∈ cells, x.1 < s.rows ∧ x.2 < s.cols) →
      (km = s.keycode ∨ km = s.fn_keymap) →
      cellKeys s cur km cells =
        cells.map fun x =>
          (if (rF, cF) ∈ cells ∧ ¬ cellBefore x (rF, cF) then
              (if cellBit cur rF cF then s.fn_keymap else s.keycode)
            else km).getD ((x.1 <<< s.row_shift) ||| x.2) 0 := by
  intro cells
  induction cells with
  | nil => intro km _ _ _; rfl
  | cons x rest ih =>
    intro km hp hin hkm
    have hx := hin x (List.mem_cons_self _ _)
    have hrest := fun y hy => hin y (List.mem_cons_of_mem x hy)
    rw [List.pairwise_cons] at hp
    obtain ⟨hxlt, hp'⟩ := hp
    have hkm' := cellKeymap_mem s cur km x hkm
    have hkx : cellKeymap s cur km x =
        if x = (rF, cF) then (if cellBit cur x.1 x.2 then s.fn_keymap else s.keycode)
        else km := by
      unfold cellKeymap
      by_cases hxF : x = (rF, cF)
      · rw [if_pos ((lookup_eq_KEY_FN_iff s rF cF hfn km hkm x hx).mpr hxF), if_pos hxF]
      · rw [if_neg (fun h => hxF ((lookup_eq_KEY_FN_iff s rF cF hfn km hkm x hx).mp h)),
          if_neg hxF]
    simp only [cellKeys, List.map_cons]
    rw [ih _ hp' hrest hkm', hkx]
    by_cases hxF : x = (rF, cF)
    · subst hxF
      have hirr : ¬ cellBefore (rF, cF) (rF, cF) := by unfold cellBefore; simp
      simp only [if_true, List.mem_cons, true_or, true_and, hirr, not_false_eq_true,
        MATRIX_SCAN_CODE]
      congr 1
      apply List.map_congr_left
      intro y hy
      have hby : ¬ cellBefore y (rF, cF) := by
        have := hxlt y hy
        unfold cellBefore at *
        omega
      simp [hby]
    · have hne : ¬ (rF, cF) = x := fun h => hxF h.symm
      have hhead : ¬ ((rF, cF) ∈ x :: rest ∧ ¬ cellBefore x (rF, cF)) := by
        rintro ⟨hmem, hnb⟩
        rcases List.mem_cons.mp hmem with h | h
        · exact hne h
        · exact hnb (hxlt _ h)
      simp only [if_neg hxF, if_neg hhead, MATRIX_SCAN_CODE]
      congr 1
      apply List.map_congr_left
      intro y _
      simp only [List.mem_cons, hne, false_or]

theorem flatten_zipWith_map {α β γ : Type} (f : α → β → List γ) (g : α → β) :
    ∀ (l : List α), (List.zipWith f l (l.map g)).flatten = l.flatMap fun x => f x (g x) := by
  intro l
  induction l with
  | nil => rfl
  | cons a l ih => simp [List.flatMap_cons, ih]

theorem ppkb_run_induction (P : pinephone_keyboard → Prop) (n : Nat)
    (hstep : ∀ t rd, P t → rd.bytes.length ≤ n → P (ppkb_update t rd).1) :
    ∀ (rds : List BlockRead) (t : pinephone_keyboard), P t →
      (∀ rd ∈ rds, rd.bytes.length ≤ n) → P (ppkb_run t rds) := by
  intro rds
  induction rds with
  | nil => intro t h _; exact h
  | cons rd rest ih =>
    intro t h hlen
    unfold ppkb_run
    rw [List.foldl_cons]
    exact ih _ (hstep t rd h (hlen rd (List.mem_cons_self _ _)))
      (fun x hx => hlen x (List.mem_cons_of_mem _ hx))

theorem sameConfig_trans (s t u : pinephone_keyboard) (h1 : SameConfig s t)
    (h2 : SameConfig t u) : SameConfig s u := by
  unfold SameConfig at *
  obtain ⟨a1, a2, a3, a4, a5, a6⟩ := h1
  obtain ⟨b1, b2, b3, b4, b5, b6⟩ := h2
  exact ⟨b1.trans a1, b2.trans a2, b3.trans a3, b4.trans a4, b5.trans a5, b6.trans a6⟩

theorem fnCellAt_congr (s t : pinephone_keyboard) (h : SameConfig s t) (rF cF : Nat)
    (hfn : FnCellAt s rF cF) : FnCellAt t rF cF := by
  obtain ⟨h1, h2, _, h4, h5, h6⟩ := h
  unfold FnCellAt at *
  rw [h1, h2, h4, h5, h6]
  exact hfn

/-- The layer flag after a successful scan, when one cell carries the overlay
trigger: it follows the bit of that cell in the new frame. -/
theorem fn_state_after_ok (t : pinephone_keyboard) (frame : List Nat) (rF cF : Nat)
    (hwf : WellFormed t) (hv : ValidFrame t frame) (hfn : FnCellAt t rF cF)
    (hinv : t.fn_state ≠ 0 ↔ cellBit (old_frame t) rF cF = true) :
    ((ppkb_update t (.data frame)).1.fn_state ≠ 0 ↔ cellBit frame rF cF = true) := by
  rw [ppkb_update_ok t frame hwf hv]
  simp only
  rw [foldl_cellStep_fn_state t frame rF cF hfn _ _
    (fun x hx => by
      have := (mem_changedCells t.rows t.cols (old_frame t) frame x.1 x.2).mp hx
      exact ⟨this.1, this.2.1⟩)
    (by simp only; split <;> simp)]
  by_cases hmem : (rF, cF) ∈ changedCells t.rows t.cols (old_frame t) frame
  · rw [if_pos hmem]
    cases h : cellBit frame rF cF <;> simp [BIT_ne_zero]
  · rw [if_neg hmem]
    rw [mem_changedCells] at hmem
    have heq : cellBit (old_frame t) rF cF = cellBit frame rF cF := by
      by_contra hne
      exact hmem ⟨hfn.1, hfn.2.1, hne⟩
    simp only
    rw [hinv, heq]

theorem inv_ppkb_run (s : pinephone_keyboard) (rF cF : Nat) (rds : List BlockRead)
    (hzero : ZeroInit s) (hfn : FnCellAt s rF cF)
    (hrds : ∀ rd ∈ rds, rd.bytes.length ≤ s.cols + 1) :
    SameConfig s (ppkb_run s rds) ∧ WellFormed (ppkb_run s rds) ∧
    ((ppkb_run s rds).fn_state ≠ 0 ↔ cellBit (old_frame (ppkb_run s rds)) rF cF = true) := by
  obtain ⟨hz, hwf⟩ := old_frame_zeroInit s hzero
  refine ppkb_run_induction
    (fun t => SameConfig s t ∧ WellFormed t ∧
      (t.fn_state ≠ 0 ↔ cellBit (old_frame t) rF cF = true)) (s.cols + 1) ?_ rds s ?_ hrds
  · rintro t rd ⟨hc, htwf, hinv⟩ hlen
    refine ⟨sameConfig_trans s t _ hc (sameConfig_ppkb_update t rd), wf_ppkb_update t rd htwf, ?_⟩
    have hlen' : rd.bytes.length ≤ t.cols + 1 := by rw [hc.2.2.2.2.2]; exact hlen
    rcases ppkb_update_cases t rd htwf with ⟨_, hv, frame, rfl⟩ | ⟨_, h⟩
    · have hold : old_frame (ppkb_update t (.data frame)).1 = frame := by
        rw [ppkb_update_ok t frame htwf hv]
        exact old_frame_after_ok t frame _ htwf hv.1
      rw [hold]
      exact fn_state_after_ok t frame rF cF htwf hv (fnCellAt_congr s t hc rF cF hfn) hinv
    · rw [h, old_frame_memcpy t rd.bytes hlen']
      exact hinv
  · refine ⟨⟨rfl, rfl, rfl, rfl, rfl, rfl⟩, hwf, ?_⟩
    rw [hz, hzero.1]
    have : cellBit (List.replicate (s.cols + 1) 0) rF cF = false := by
      unfold cellBit
      have h0 : (List.replicate (s.cols + 1) 0).getD (cF + 1) 0 = 0 := by
        simp [List.getD_eq_getElem?_getD, List.getElem?_replicate]
        split <;> simp
      rw [h0]
      simp
    simp [this]

theorem events_contain_fn (s : pinephone_keyboard) (cur : List Nat) (x0 : Nat × Nat)
    (hbase : s.keycode.getD ((x0.1 <<< s.row_shift) ||| x0.2) 0 = KEY_FN)
    (hfn : s.fn_keymap.getD ((x0.1 <<< s.row_shift) ||| x0.2) 0 = KEY_FN) :
    ∀ (cells : List (Nat × Nat)) (km : List Nat),
      (km = s.keycode ∨ km = s.fn_keymap) → x0 ∈ cells →
      ∃ pre post,
        (List.zipWith (cellEvents s.row_shift cur) cells (cellKeys s cur km cells)).flatten =
          pre ++ [Event.msc_scan ((x0.1 <<< s.row_shift) ||| x0.2),
                  Event.key KEY_FN (cellBit cur x0.1 x0.2)] ++ post := by
  intro cells
  induction cells with
  | nil => intro km _ h; simp at h
  | cons x rest ih =>
    intro km hkm hmem
    have hkm' := cellKeymap_mem s cur km x hkm
    simp only [cellKeys, List.zipWith_cons_cons, List.flatten_cons]
    by_cases hx : x0 = x
    · subst hx
      refine ⟨[], (List.zipWith (cellEvents s.row_shift cur) rest
        (cellKeys s cur (cellKeymap s cur km x0) rest)).flatten, ?_⟩
      have hk : (cellKeymap s cur km x0).getD (MATRIX_SCAN_CODE x0.1 x0.2 s.row_shift) 0 =
          KEY_FN := by
        unfold MATRIX_SCAN_CODE
        rcases hkm' with h | h <;> rw [h] <;> assumption
      rw [hk]
      rfl
    · have hmem' : x0 ∈ rest := by
        rcases List.mem_cons.mp hmem with h | h
        · exact absurd h hx
        · exact h
      obtain ⟨pre, post, h⟩ := ih _ hkm' hmem'
      refine ⟨cellEvents s.row_shift cur x
        ((cellKeymap s cur km x).getD (MATRIX_SCAN_CODE x.1 x.2 s.row_shift) 0) ++ pre, post, ?_⟩
      rw [h]
      simp only [List.append_assoc]

/-- C4 (as the code has it): in a successful scan in which a cell `(r, c)`
that both keymaps map to `KEY_FN` changes, the cell is reported like every
other changed cell: its scan-code event is emitted, immediately followed by a
key event with logical key `KEY_FN` and the polarity of the cell in the new
frame.  When it is the only cell of the matrix mapped to `KEY_FN`, the layer
flag after the scan is set iff the cell is pressed in the new frame. -/
theorem C4_fn_cell_is_reported (s : pinephone_keyboard) (frame : List Nat) (r c : Nat)
    (hwf : WellFormed s) (hv : ValidFrame s frame) (hr : r < s.rows) (hc : c < s.cols)
    (hchg : cellBit (old_frame s) r c ≠ cellBit frame r c)
    (hbase : s.keycode.getD ((r <<< s.row_shift) ||| c) 0 = KEY_FN)
    (hfn : s.fn_keymap.getD ((r <<< s.row_shift) ||| c) 0 = KEY_FN) :
    (∃ pre post, (ppkb_update s (.data frame)).2 =
      pre ++ [Event.msc_scan ((r <<< s.row_shift) ||| c),
              Event.key KEY_FN (cellBit frame r c)] ++ post) ∧
    (FnCellAt s r c →
      ((ppkb_update s (.data frame)).1.fn_state ≠ 0 ↔ cellBit frame r c = true)) := by
  have hmem : (r, c) ∈ changedCells s.rows s.cols (old_frame s) frame :=
    (mem_changedCells _ _ _ _ r c).mpr ⟨hr, hc, hchg⟩
  constructor
  · rw [events_of_valid_scan s frame hwf hv]
    obtain ⟨pre, post, h⟩ := events_contain_fn s frame (r, c) hbase hfn
      (changedCells s.rows s.cols (old_frame s) frame)
      (if s.fn_state ≠ 0 then s.fn_keymap else s.keycode)
      (by split <;> simp) hmem
    exact ⟨pre, post ++ [Event.sync], by rw [h]; simp only [List.append_assoc]⟩
  · intro hcell
    rw [ppkb_update_ok s frame hwf hv]
    simp only
    rw [foldl_cellStep_fn_state s frame r c hcell _ _
      (fun x hx => by
        have := (mem_changedCells s.rows s.cols (old_frame s) frame x.1 x.2).mp hx
        exact ⟨this.1, this.2.1⟩)
      (by simp only; split <;> simp), if_pos hmem]
    cases h : cellBit frame r c <;> simp [BIT_ne_zero]

/-- C4 (as the code has it), at the press of the FN cell (5, 2) of a 6 x 12
keyboard. -/
theorem C4_fn_cell_is_reported_witness :
    WellFormed fn_6x12 ∧ ValidFrame fn_6x12 frame_FN ∧ FnCellAt fn_6x12 5 2 ∧
    (∃ pre post, (ppkb_update fn_6x12 (.data frame_FN)).2 =
      pre ++ [Event.msc_scan ((5 <<< fn_6x12.row_shift) ||| 2),
              Event.key KEY_FN (cellBit frame_FN 5 2)] ++ post) :=
  ⟨by decide!, by decide!, by decide!,
   (C4_fn_cell_is_reported fn_6x12 frame_FN 5 2 (by decide!) (by decide!) (by decide!)
      (by decide!) (by decide!) (by decide!) (by decide!)).1⟩

/-- C4 fails as stated: on a 6 x 12 keyboard whose keymaps both hold `KEY_FN`
at cell (5, 2), the scan in which that cell becomes pressed emits the scan
code 82 of the cell and a key event whose logical key is `KEY_FN`. -/
theorem C4_counterexample :
    WellFormed fn_6x12 ∧ ValidFrame fn_6x12 frame_FN ∧
    fn_6x12.keycode.getD (MATRIX_SCAN_CODE 5 2 fn_6x12.row_shift) 0 = KEY_FN ∧
    (ppkb_update fn_6x12 (.data frame_FN)).2 =
      [Event.msc_scan 82, Event.key KEY_FN true, Event.sync] ∧
    ¬ (∀ e ∈ (ppkb_update fn_6x12 (.data frame_FN)).2,
        e ≠ Event.msc_scan 82 ∧ ∀ p, e ≠ Event.key KEY_FN p) := by
  refine ⟨by decide!, by decide!, by decide!, by decide!, ?_⟩
  intro h
  have h1 : (ppkb_update fn_6x12 (.data frame_FN)).2 =
      [Event.msc_scan 82, Event.key KEY_FN true, Event.sync] := by decide!
  rw [h1] at h
  exact (h (Event.msc_scan 82) (by simp)).1 rfl

/-- C5 (as the code has it): when the base keymap and the overlay keymap both
map the same one cell `(rF, cF)` of the matrix, and no other, to `KEY_FN`,
then from the zero-initialised state, after any sequence of scan attempts, the
layer flag is set iff that cell is pressed in the most recent successful
frame; and in a next successful scan every changed cell `x` is reported with
the logical key of the overlay keymap if the FN cell is held at the time the
loop reaches `x`, and of the base keymap otherwise.  The FN cell counts as held
according to the previous frame for the cells before it in (column, row)
order, and according to the new frame from the FN cell on. -/
theorem C5_layer_follows_fn_cell (s : pinephone_keyboard) (rF cF : Nat)
    (rds : List BlockRead) (frame : List Nat) (hzero : ZeroInit s) (hfn : FnCellAt s rF cF)
    (hrds : ∀ rd ∈ rds, rd.bytes.length ≤ s.cols + 1) (hv : ValidFrame s frame) :
    ((ppkb_run s rds).fn_state ≠ 0 ↔ cellBit (lastGoodFrame s rds) rF cF = true) ∧
    ((ppkb_update (ppkb_run s rds) (.data frame)).1.fn_state ≠ 0 ↔
      cellBit frame rF cF = true) ∧
    (ppkb_update (ppkb_run s rds) (.data frame)).2 =
      ((changedCells s.rows s.cols (lastGoodFrame s rds) frame).flatMap fun x =>
        [Event.msc_scan ((x.1 <<< s.row_shift) ||| x.2),
         Event.key
          ((if (if x.2 < cF ∨ (x.2 = cF ∧ x.1 < rF) then cellBit (lastGoodFrame s rds) rF cF
                else cellBit frame rF cF) = true
            then s.fn_keymap else s.keycode).getD ((x.1 <<< s.row_shift) ||| x.2) 0)
          (cellBit frame x.1 x.2)]) ++ [Event.sync] := by
  obtain ⟨hz, hwf⟩ := old_frame_zeroInit s hzero
  obtain ⟨hold, _, _⟩ := old_frame_ppkb_run s rds s ⟨rfl, rfl, rfl, rfl, rfl, rfl⟩ hwf hrds
  rw [hz] at hold
  obtain ⟨hc, hwf', hinv⟩ := inv_ppkb_run s rF cF rds hzero hfn hrds
  have hold' : old_frame (ppkb_run s rds) = lastGoodFrame s rds := hold
  rw [hold'] at hinv
  have hv' : ValidFrame (ppkb_run s rds) frame := (validFrame_congr s _ hc frame).mpr hv
  have hfn' := fnCellAt_congr s _ hc rF cF hfn
  refine ⟨hinv, ?_, ?_⟩
  · exact fn_state_after_ok _ frame rF cF hwf' hv' hfn' (by rw [hold']; exact hinv)
  · rw [events_of_valid_scan _ frame hwf' hv', hold']
    rw [cellKeys_of_fnCell _ frame rF cF hfn' _ _ (pairwise_changedCells _ _ _ _)
      (fun x hx => by
        have := (mem_changedCells _ _ _ _ x.1 x.2).mp hx
        exact ⟨this.1, this.2.1⟩)
      (by split <;> simp)]
    rw [flatten_zipWith_map]
    obtain ⟨c1, c2, _, c4, c5, c6⟩ := hc
    rw [c1, c2, c4, c5, c6]
    congr 1
    apply List.flatMap_congr
    intro x hx
    unfold cellEvents
    congr 3
    by_cases hb : cellBefore x (rF, cF)
    · have hb' : x.2 < cF ∨ (x.2 = cF ∧ x.1 < rF) := hb
      rw [if_neg (fun h => h.2 hb), if_pos hb']
      by_cases hst : (ppkb_run s rds).fn_state ≠ 0
      · rw [if_pos hst, if_pos (hinv.mp hst)]
      · rw [if_neg hst, if_neg (fun h => hst (hinv.mpr h))]
    · have hb' : ¬ (x.2 < cF ∨ (x.2 = cF ∧ x.1 < rF)) := hb
      rw [if_neg hb']
      by_cases hmem : (rF, cF) ∈ changedCells s.rows s.cols (lastGoodFrame s rds) frame
      · rw [if_pos ⟨hmem, hb⟩]
      · rw [if_neg (fun h => hmem h.1)]
        rw [mem_changedCells] at hmem
        have heq : cellBit (lastGoodFrame s rds) rF cF = cellBit frame rF cF := by
          by_contra hne
          exact hmem ⟨hfn.1, hfn.2.1, hne⟩
        rw [← heq]
        by_cases hst : (ppkb_run s rds).fn_state ≠ 0
        · rw [if_pos hst, if_pos (hinv.mp hst)]
        · rw [if_neg hst, if_neg (fun h => hst (hinv.mpr h))]

/-- C5 (as the code has it), on a 6 x 12 keyboard with the FN cell at (5, 2):
FN is pressed, then cell (0, 1) is pressed while FN is held and reported with
the overlay key 59 (`KEY_F1`). -/
theorem C5_layer_follows_fn_cell_witness :
    ZeroInit fn_6x12 ∧ FnCellAt fn_6x12 5 2 ∧ ValidFrame fn_6x12 frame_K1_FN ∧
    ((ppkb_run fn_6x12 [.data frame_FN]).fn_state ≠ 0 ↔
      cellBit (lastGoodFrame fn_6x12 [.data frame_FN]) 5 2 = true) ∧
    (ppkb_update (ppkb_run fn_6x12 [.data frame_FN]) (.data frame_K1_FN)).2 =
      [Event.msc_scan 1, Event.key 59 true, Event.sync] ∧
    (ppkb_update (ppkb_run fn_6x12 [.data frame_FN, .data frame_B]) (.data frame_K1)).2 =
      [Event.msc_scan 1, Event.key 2 true, Event.sync] :=
  ⟨by decide!, by decide!, by decide!,
   (C5_layer_follows_fn_cell fn_6x12 5 2 [.data frame_FN] frame_K1_FN (by decide!) (by decide!)
      (by decide!) (by decide!)).1,
   by decide!, by decide!⟩

/-- C5 fails as stated: with a base keymap that maps the one cell (5, 2) to
`KEY_FN` and an overlay keymap that leaves that cell unassigned, the release
of the cell is not recognised: after the release the layer flag is still set,
and a later press of cell (0, 1) carries the overlay key 59, not the base
key 2. -/
theorem C5_counterexample :
    ZeroInit fn_base_only_6x12 ∧
    (∀ r, r < 6 → ∀ c, c < 12 →
      (fn_base_only_6x12.keycode.getD (MATRIX_SCAN_CODE r c fn_base_only_6x12.row_shift) 0 =
        KEY_FN ↔ (r = 5 ∧ c = 2))) ∧
    ValidFrame fn_base_only_6x12 frame_FN ∧ ValidFrame fn_base_only_6x12 frame_B ∧
    ValidFrame fn_base_only_6x12 frame_K1 ∧
    cellBit frame_FN 5 2 = true ∧ cellBit frame_B 5 2 = false ∧
    (ppkb_run fn_base_only_6x12 [.data frame_FN, .data frame_B]).fn_state ≠ 0 ∧
    fn_base_only_6x12.keycode.getD 1 0 = 2 ∧
    (ppkb_update (ppkb_run fn_base_only_6x12 [.data frame_FN, .data frame_B])
      (.data frame_K1)).2 = [Event.msc_scan 1, Event.key 59 true, Event.sync] := by
  refine ⟨by decide!, by decide!, by decide!, by decide!, by decide!, by decide!, by decide!,
    by decide!, by decide!, by decide!⟩

/-- C10, at a frame with three pressed cells on a blank 6 x 12 keyboard:
cells (0, 0) and (1, 0) of column 0 come first, then cell (0, 2). -/
theorem C10_events_in_column_row_order_witness :
    WellFormed blank_6x12 ∧ ValidFrame blank_6x12 frame_C ∧
    (ppkb_update blank_6x12 (.data frame_C)).2 =
      [Event.msc_scan 0, Event.key 0 true, Event.msc_scan 16, Event.key 0 true,
       Event.msc_scan 2, Event.key 0 true, Event.sync] ∧
    ∃ (cells : List (Nat × Nat)) (keys : List Nat),
      cells = changedCells blank_6x12.rows blank_6x12.cols (old_frame blank_6x12) frame_C ∧
      keys.length = cells.length ∧
      (ppkb_update blank_6x12 (.data frame_C)).2 =
        (List.zipWith
          (fun (cell : Nat × Nat) (k : Nat) =>
            [Event.msc_scan ((cell.1 <<< blank_6x12.row_shift) ||| cell.2),
             Event.key k (cellBit frame_C cell.1 cell.2)])
          cells keys).flatten ++ [Event.sync] ∧
      ∀ (i j : Nat) (hi : i < cells.length) (hj : j < cells.length),
        i < j ↔ ((cells[i]).2 < (cells[j]).2 ∨
          ((cells[i]).2 = (cells[j]).2 ∧ (cells[i]).1 < (cells[j]).1)) :=
  ⟨by decide!, by decide!, by decide!,
   C10_events_in_column_row_order blank_6x12 frame_C (by decide!) (by decide!)⟩

/-! ## Checksum -/

theorem crc8_table_eq_shift :
    ∀ i, i < 256 → (crc8_populate_msb 0x07).getD i 0 = (crc8_shift 0x07)^[8] i := by
  decide!

theorem crc8_table_lt : ∀ i, i < 256 → (crc8_populate_msb 0x07).getD i 0 < 256 := by
  decide!

theorem crc8_table_unshift :
    ∀ i, i < 256 → (crc8_unshift 0x07)^[8] ((crc8_populate_msb 0x07).getD i 0) = i := by
  decide!

theorem and_0xff (x : Nat) : x &&& 0xff = x % 256 := by
  have h := Nat.and_pow_two_sub_one_eq_mod x 8
  norm_num at h
  exact h

theorem crc8_eq_bitwise (data : List Nat) (init : Nat) :
    crc8 (crc8_populate_msb 0x07) data init = crc8_bitwise 0x07 init data := by
  unfold crc8 crc8_bitwise
  apply List.foldl_ext
  intro crc b _
  rw [and_0xff]
  exact crc8_table_eq_shift _ (Nat.mod_lt _ (by norm_num))

theorem crc8_table_injective (i j : Nat) (hi : i < 256) (hj : j < 256)
    (h : (crc8_populate_msb 0x07).getD i 0 = (crc8_populate_msb 0x07).getD j 0) : i = j := by
  rw [← crc8_table_unshift i hi, ← crc8_table_unshift j hj, h]

theorem xor_mod_256 (a b : Nat) : (a ^^^ b) % 256 = (a % 256) ^^^ (b % 256) := by
  apply Nat.eq_of_testBit_eq
  intro i
  have h : (256 : Nat) = 2 ^ 8 := by norm_num
  rw [h]
  simp only [Nat.testBit_mod_two_pow, Nat.testBit_xor]
  by_cases hi : i < 8 <;> simp [hi]

/-- One byte step of `crc8` with the table of polynomial 0x07 sends distinct
register values below 256 to distinct values. -/
theorem crc8_step_injective (c1 c2 b : Nat) (h1 : c1 < 256) (h2 : c2 < 256) (hne : c1 ≠ c2) :
    (crc8_populate_msb 0x07).getD ((c1 ^^^ b) &&& 0xff) 0 ≠
      (crc8_populate_msb 0x07).getD ((c2 ^^^ b) &&& 0xff) 0 := by
  intro h
  rw [and_0xff, and_0xff] at h
  have := crc8_table_injective _ _ (Nat.mod_lt _ (by norm_num)) (Nat.mod_lt _ (by norm_num)) h
  rw [xor_mod_256, xor_mod_256, Nat.mod_eq_of_lt h1, Nat.mod_eq_of_lt h2] at this
  exact hne (Nat.xor_left_injective this)

theorem crc8_step_lt (c b : Nat) :
    (crc8_populate_msb 0x07).getD ((c ^^^ b) &&& 0xff) 0 < 256 := by
  rw [and_0xff]
  exact crc8_table_lt _ (Nat.mod_lt _ (by norm_num))

theorem crc8_injective (data : List Nat) :
    ∀ (c1 c2 : Nat), c1 < 256 → c2 < 256 → c1 ≠ c2 →
      crc8 (crc8_populate_msb 0x07) data c1 ≠ crc8 (crc8_populate_msb 0x07) data c2 := by
  induction data with
  | nil => intro c1 c2 _ _ h; exact h
  | cons b rest ih =>
    intro c1 c2 h1 h2 hne
    unfold crc8
    rw [List.foldl_cons, List.foldl_cons]
    exact ih _ _ (crc8_step_lt c1 b) (crc8_step_lt c2 b) (crc8_step_injective c1 c2 b h1 h2 hne)

theorem flip_ne (x k : Nat) (hk : k < 8) : (x ^^^ 2 ^ k) % 256 ≠ x % 256 := by
  intro h
  have h1 := congrArg (fun y => Nat.testBit y k) h
  have h256 : (256 : Nat) = 2 ^ 8 := by norm_num
  simp only [h256, Nat.testBit_mod_two_pow, Nat.testBit_xor, Nat.testBit_two_pow_self, hk,
    decide_True, Bool.true_and] at h1
  cases hx : x.testBit k <;> simp [hx] at h1

/-- Flipping one bit of one byte changes the checksum, whatever the register
held before the first byte. -/
theorem crc8_flipBit_ne (data : List Nat) :
    ∀ (i k init : Nat), i < data.length → k < 8 →
      crc8 (crc8_populate_msb 0x07) (flipBit data i k) init ≠
        crc8 (crc8_populate_msb 0x07) data init := by
  induction data with
  | nil => intro i k init hi; simp at hi
  | cons b rest ih =>
    intro i k init hi hk
    cases i with
    | zero =>
      unfold flipBit crc8
      simp only [List.set_cons_zero, List.getD_cons_zero, List.foldl_cons]
      apply crc8_injective rest _ _ (crc8_step_lt _ _) (crc8_step_lt _ _)
      intro h
      rw [and_0xff, and_0xff] at h
      have := crc8_table_injective _ _ (Nat.mod_lt _ (by norm_num)) (Nat.mod_lt _ (by norm_num)) h
      rw [← Nat.xor_assoc] at this
      exact flip_ne _ k hk this
    | succ j =>
      have hj : j < rest.length := by simpa using hi
      have := ih j k ((crc8_populate_msb 0x07).getD ((init ^^^ b) &&& 0xff) 0) hj hk
      unfold flipBit crc8 at *
      simpa only [List.set_cons_succ, List.getD_cons_succ, List.foldl_cons] using this

/-- C8: with the table `ppkb_probe` builds (`crc8_populate_msb` for
`PPKB_CRC8_POLYNOMIAL`), the checksum `ppkb_update` computes over the `cols`
data bytes it has just read is their bit-by-bit CRC-8 with polynomial 0x07,
MSB first, initial value 0x00 and no final XOR; hence a full-length frame is
processed (some event is emitted) iff that CRC-8 equals its leading byte. -/
theorem C8_scan_checksum_is_crc8 (s : pinephone_keyboard) (frame : List Nat)
    (hwf : WellFormed s) (htable : s.crc_table = crc8_populate_msb PPKB_CRC8_POLYNOMIAL)
    (hlen : frame.length = s.cols + 1) :
    crc8 s.crc_table (((memcpy s.buf (new_off s) frame).drop (new_off s + 1)).take s.cols)
        CRC8_INIT_VALUE = crc8_bitwise 0x07 0x00 ((frame.drop 1).take s.cols) ∧
    ((ppkb_update s (.data frame)).2 ≠ [] ↔
      crc8_bitwise 0x07 0x00 ((frame.drop 1).take s.cols) = frame.getD 0 0 % 256) := by
  have h1 := crc_of_memcpy s frame hwf hlen
  have h2 : frame_crc s frame = crc8_bitwise 0x07 0x00 ((frame.drop 1).take s.cols) := by
    unfold frame_crc
    rw [htable]
    exact crc8_eq_bitwise _ _
  refine ⟨h1.trans h2, ?_⟩
  rw [← h2]
  constructor
  · intro hne
    by_contra hcrc
    exact hne (by rw [ppkb_update_bad_crc s frame hwf hlen hcrc])
  · intro hcrc
    rw [ppkb_update_ok s frame hwf ⟨hlen, hcrc⟩]
    simp

/-- C8, at frame A on a blank 6 x 12 keyboard: its leading byte 0x5d is the
CRC-8 of its data bytes. -/
theorem C8_scan_checksum_is_crc8_witness :
    WellFormed blank_6x12 ∧ blank_6x12.crc_table = crc8_populate_msb PPKB_CRC8_POLYNOMIAL ∧
    frame_A.length = blank_6x12.cols + 1 ∧
    crc8_bitwise 0x07 0x00 ((frame_A.drop 1).take blank_6x12.cols) = 0x5d ∧
    ((ppkb_update blank_6x12 (.data frame_A)).2 ≠ [] ↔
      crc8_bitwise 0x07 0x00 ((frame_A.drop 1).take blank_6x12.cols) =
        frame_A.getD 0 0 % 256) :=
  ⟨by decide!, rfl, by decide!, by decide!,
   (C8_scan_checksum_is_crc8 blank_6x12 frame_A (by decide!) rfl (by decide!)).2⟩

theorem flipBit_cons_succ (a : Nat) (rest : List Nat) (i k : Nat) :
    flipBit (a :: rest) (i + 1) k = a :: flipBit rest i k := by
  unfold flipBit
  simp

theorem length_flipBit (data : List Nat) (i k : Nat) : (flipBit data i k).length = data.length := by
  unfold flipBit
  simp

/-- C9: with the table of polynomial 0x07, flipping any one bit of any one
byte of a data sequence changes its checksum; hence a frame obtained from a
valid frame by flipping one bit of one data byte, the checksum byte kept, is
discarded by `ppkb_update`: no event, parity, layer flag and previous frame
unchanged. -/
theorem C9_single_bit_corruption_detected (s : pinephone_keyboard) (frame : List Nat)
    (i k : Nat) (hwf : WellFormed s)
    (htable : s.crc_table = crc8_populate_msb PPKB_CRC8_POLYNOMIAL)
    (hv : ValidFrame s frame) (hi : i < s.cols) (hk : k < 8) :
    (∀ (data : List Nat) (j b init : Nat), j < data.length → b < 8 →
      crc8 (crc8_populate_msb PPKB_CRC8_POLYNOMIAL) (flipBit data j b) init ≠
        crc8 (crc8_populate_msb PPKB_CRC8_POLYNOMIAL) data init) ∧
    (ppkb_update s (.data (flipBit frame (i + 1) k))).2 = [] ∧
    (ppkb_update s (.data (flipBit frame (i + 1) k))).1.buf_swap = s.buf_swap ∧
    (ppkb_update s (.data (flipBit frame (i + 1) k))).1.fn_state = s.fn_state ∧
    old_frame (ppkb_update s (.data (flipBit frame (i + 1) k))).1 = old_frame s := by
  refine ⟨fun data j b init hj hb => crc8_flipBit_ne data j b init hj hb, ?_⟩
  obtain ⟨hlen, hcrc⟩ := hv
  have hlen' : (flipBit frame (i + 1) k).length = s.cols + 1 := by
    rw [length_flipBit]; exact hlen
  have hbad : frame_crc s (flipBit frame (i + 1) k) ≠
      (flipBit frame (i + 1) k).getD 0 0 % 256 := by
    cases frame with
    | nil => simp at hlen
    | cons a rest =>
      have hrest : rest.length = s.cols := by simpa using hlen
      rw [flipBit_cons_succ]
      unfold frame_crc at *
      simp only [List.drop_succ_cons, List.drop_zero, List.getD_cons_zero] at *
      rw [← hcrc, htable]
      have ht1 : List.take s.cols rest = rest := by rw [← hrest]; exact List.take_length _
      have ht2 : List.take s.cols (flipBit rest i k) = flipBit rest i k := by
        rw [← hrest, ← length_flipBit rest i k]; exact List.take_length _
      rw [ht1, ht2]
      exact crc8_flipBit_ne rest i k _ (by omega) hk
  rw [ppkb_update_bad_crc s _ hwf hlen' hbad]
  exact ⟨rfl, rfl, rfl, old_frame_memcpy s _ (le_of_eq hlen')⟩

/-- C9, at frame A with bit 3 of the data byte of column 4 flipped. -/
theorem C9_single_bit_corruption_detected_witness :
    WellFormed blank_6x12 ∧ ValidFrame blank_6x12 frame_A ∧
    flipBit frame_A (4 + 1) 3 = [0x5d, 1, 0, 0, 0, 8, 0, 0, 0, 0, 0, 0, 0] ∧
    (ppkb_update blank_6x12 (.data (flipBit frame_A (4 + 1) 3))).2 = [] :=
  ⟨by decide!, by decide!, by decide!,
   (C9_single_bit_corruption_detected blank_6x12 frame_A 4 3 (by decide!) rfl (by decide!)
      (by decide!) (by decide!)).2.1⟩

/-! ## The shape of the event stream -/

theorem length_flatten_cellEvents (shift : Nat) (cur : List Nat) :
    ∀ (cells : List (Nat × Nat)) (keys : List Nat), keys.length = cells.length →
      (List.zipWith (cellEvents shift cur) cells keys).flatten.length = 2 * cells.length := by
  intro cells
  induction cells with
  | nil => intro keys _; simp
  | cons x rest ih =>
    intro keys hlen
    cases keys with
    | nil => simp at hlen
    | cons k ks =>
      have hks : ks.length = rest.length := by simpa using hlen
      simp only [List.zipWith_cons_cons, List.flatten_cons, List.length_append, ih ks hks,
        List.length_cons, cellEvents, List.length_nil]
      omega

theorem getElem?_flatten_cellEvents (shift : Nat) (cur : List Nat) :
    ∀ (cells : List (Nat × Nat)) (keys : List Nat), keys.length = cells.length →
      ∀ (i : Nat) (hi : i < cells.length),
        (List.zipWith (cellEvents shift cur) cells keys).flatten[2 * i]? =
          some (Event.msc_scan (((cells[i]).1 <<< shift) ||| (cells[i]).2)) ∧
        ∃ k, (List.zipWith (cellEvents shift cur) cells keys).flatten[2 * i + 1]? =
          some (Event.key k (cellBit cur (cells[i]).1 (cells[i]).2)) := by
  intro cells
  induction cells with
  | nil => intro keys _ i hi; simp at hi
  | cons x rest ih =>
    intro keys hlen i hi
    cases keys with
    | nil => simp at hlen
    | cons k ks =>
      have hks : ks.length = rest.length := by simpa using hlen
      simp only [List.zipWith_cons_cons, List.flatten_cons, cellEvents, List.cons_append,
        List.nil_append]
      cases i with
      | zero => exact ⟨by simp, k, by simp⟩
      | succ j =>
        have hj : j < rest.length := by simpa using hi
        obtain ⟨h1, k', h2⟩ := ih ks hks j hj
        have e1 : 2 * (j + 1) = (2 * j + 1) + 1 := by omega
        have e2 : 2 * (j + 1) + 1 = ((2 * j + 1) + 1) + 1 := by omega
        refine ⟨?_, k', ?_⟩
        · rw [e1, List.getElem?_cons_succ, List.getElem?_cons_succ]
          simpa [cellEvents] using h1
        · rw [e2, List.getElem?_cons_succ, List.getElem?_cons_succ]
          simpa [cellEvents] using h2

/-- C11: the event stream of a successful scan consists, for the changed cells
in order, of a scan-code event carrying the packed code of the cell followed
at once by the key event of that cell, and then of one sync: with `n` changed
cells the stream has `2 n + 1` events, the events at `2 i` and `2 i + 1` are
the scan code and the key of the `i`-th changed cell, and the event at `2 n`,
the last one, is the sync; it is there also when no cell changed. -/
theorem C11_scan_code_key_pairs_then_sync (s : pinephone_keyboard) (frame : List Nat)
    (hwf : WellFormed s) (hv : ValidFrame s frame) :
    (ppkb_update s (.data frame)).2.length =
      2 * (changedCells s.rows s.cols (old_frame s) frame).length + 1 ∧
    (ppkb_update s (.data frame)).2[2 * (changedCells s.rows s.cols (old_frame s) frame).length]?
      = some Event.sync ∧
    (ppkb_update s (.data frame)).2.getLast? = some Event.sync ∧
    (∀ (i : Nat) (hi : i < (changedCells s.rows s.cols (old_frame s) frame).length),
      (ppkb_update s (.data frame)).2[2 * i]? =
        some (Event.msc_scan
          ((((changedCells s.rows s.cols (old_frame s) frame)[i]).1 <<< s.row_shift) |||
            ((changedCells s.rows s.cols (old_frame s) frame)[i]).2)) ∧
      ∃ k, (ppkb_update s (.data frame)).2[2 * i + 1]? =
        some (Event.key k (cellBit frame
          ((changedCells s.rows s.cols (old_frame s) frame)[i]).1
          ((changedCells s.rows s.cols (old_frame s) frame)[i]).2))) ∧
    (changedCells s.rows s.cols (old_frame s) frame = [] →
      (ppkb_update s (.data frame)).2 = [Event.sync]) := by
  have he := events_of_valid_scan s frame hwf hv
  have hk := length_cellKeys s frame (changedCells s.rows s.cols (old_frame s) frame)
    (if s.fn_state ≠ 0 then s.fn_keymap else s.keycode)
  have hl := length_flatten_cellEvents s.row_shift frame _ _ hk
  rw [he]
  refine ⟨?_, ?_, ?_, ?_, ?_⟩
  · rw [List.length_append, hl]
    rfl
  · rw [← hl, List.getElem?_append_right (le_refl _)]
    simp
  · simp
  · intro i hi
    obtain ⟨h1, k, h2⟩ := getElem?_flatten_cellEvents s.row_shift frame _ _ hk i hi
    refine ⟨?_, k, ?_⟩
    · rw [List.getElem?_append_left (by rw [hl]; omega)]
      exact h1
    · rw [List.getElem?_append_left (by rw [hl]; omega)]
      exact h2
  · intro hnil
    rw [hnil]
    rfl

/-- C11, at a frame with three pressed cells on a blank 6 x 12 keyboard. -/
theorem C11_scan_code_key_pairs_then_sync_witness :
    WellFormed blank_6x12 ∧ ValidFrame blank_6x12 frame_C ∧
    (ppkb_update blank_6x12 (.data frame_C)).2 =
      [Event.msc_scan 0, Event.key 0 true, Event.msc_scan 16, Event.key 0 true,
       Event.msc_scan 2, Event.key 0 true, Event.sync] ∧
    (ppkb_update blank_6x12 (.data frame_C)).2.length =
      2 * (changedCells blank_6x12.rows blank_6x12.cols (old_frame blank_6x12)
        frame_C).length + 1 :=
  ⟨by decide!, by decide!, by decide!,
   (C11_scan_code_key_pairs_then_sync blank_6x12 frame_C (by decide!) (by decide!)).1⟩

/-! ## The command tunnel -/

theorem ppkb_poll_eq (status : Nat → Int) (cmd : Nat) :
    ∀ (k fuel done : Nat), (∀ j, j < k → status (done + j) = (cmd : Int)) →
      status (done + k) ≠ (cmd : Int) → k < fuel →
      ppkb_poll status cmd fuel done = (some (status (done + k)), done + k + 1) := by
  intro k
  induction k with
  | zero =>
    intro fuel done _ hne hfuel
    cases fuel with
    | zero => omega
    | succ f =>
      simp only [Nat.add_zero] at hne
      simp only [ppkb_poll, if_neg hne, Nat.add_zero]
  | succ k ih =>
    intro fuel done heq hne hfuel
    cases fuel with
    | zero => omega
    | succ f =>
      have h0 : status done = (cmd : Int) := by simpa using heq 0 (by omega)
      simp only [ppkb_poll, if_pos h0]
      have := ih f (done + 1)
        (fun j hj => by have := heq (j + 1) (by omega); rwa [show done + 1 + j = done + (j + 1) by omega])
        (by rwa [show done + 1 + k = done + (k + 1) by omega]) (by omega)
      rw [this]
      rw [show done + 1 + k = done + (k + 1) by omega]

theorem ppkb_poll_running (status : Nat → Int) (cmd : Nat) :
    ∀ (fuel done : Nat), (∀ j, j < fuel → status (done + j) = (cmd : Int)) →
      ppkb_poll status cmd fuel done = (none, done + fuel) := by
  intro fuel
  induction fuel with
  | zero => intro done _; rfl
  | succ f ih =>
    intro done heq
    have h0 : status done = (cmd : Int) := by simpa using heq 0 (by omega)
    simp only [ppkb_poll, if_pos h0]
    rw [ih (done + 1) (fun j hj => by
      have := heq (j + 1) (by omega); rwa [show done + 1 + j = done + (j + 1) by omega])]
    rw [show done + 1 + f = done + (f + 1) by omega]

/-- The transport operations of `ppkb_adap_smbus_xfer`: the block write, then
only register reads. -/
theorem xfer_ops (fuel : Nat) (write_ret : Int) (status : Nat → Int) (data_read : Int)
    (read_write command byte : Nat) :
    ∃ rest, (ppkb_adap_smbus_xfer fuel write_ret status data_read read_write command byte).ops =
        I2cOp.write_block PPKB_SYS_SMBUS_COMMAND
          [command, byte, if read_write = I2C_SMBUS_READ then PPKB_SYS_COMMAND_SMBUS_READ
                          else PPKB_SYS_COMMAND_SMBUS_WRITE] :: rest ∧
      ∀ op ∈ rest, op = I2cOp.read_byte PPKB_SYS_COMMAND ∨
        op = I2cOp.read_byte PPKB_SYS_SMBUS_DATA := by
  unfold ppkb_adap_smbus_xfer
  simp only
  split
  · exact ⟨[], rfl, by simp⟩
  · split
    · refine ⟨_, rfl, ?_⟩
      intro op hop
      exact Or.inl (List.eq_of_mem_replicate hop)
    · split
      · refine ⟨_, rfl, ?_⟩
        intro op hop
        exact Or.inl (List.eq_of_mem_replicate hop)
      · split
        · refine ⟨_, rfl, ?_⟩
          intro op hop
          exact Or.inl (List.eq_of_mem_replicate hop)
        · split
          · split
            all_goals
              refine ⟨_, rfl, ?_⟩
              intro op hop
              rcases List.mem_append.mp hop with h | h
              · exact Or.inl (List.eq_of_mem_replicate h)
              · exact Or.inr (List.mem_singleton.mp h)
          · refine ⟨_, rfl, ?_⟩
            intro op hop
            exact Or.inl (List.eq_of_mem_replicate hop)

/-- C12: whatever the transport answers and however long the status is
polled, the first transport operation of `ppkb_adap_smbus_xfer` is the block
write of the three bytes `[command, value, commandByte]` to register 0x21,
with `commandByte` 0x91 for a read and 0xa1 for a write, and no later
operation of the call is a block write. -/
theorem C12_tunnel_starts_with_block_write (fuel : Nat) (write_ret : Int)
    (status : Nat → Int) (data_read : Int) (read_write command byte : Nat) :
    ∃ rest, (ppkb_adap_smbus_xfer fuel write_ret status data_read read_write command byte).ops =
        I2cOp.write_block 0x21
          [command, byte, if read_write = I2C_SMBUS_READ then 0x91 else 0xa1] :: rest ∧
      ∀ op ∈ rest, op.isWriteBlock = false := by
  obtain ⟨rest, h1, h2⟩ := xfer_ops fuel write_ret status data_read read_write command byte
  refine ⟨rest, h1, ?_⟩
  intro op hop
  rcases h2 op hop with h | h <;> rw [h] <;> rfl

/-- The result of `ppkb_adap_smbus_xfer` when the block write succeeds and the
status first differs from the command byte at its read number `k` (counted
from 0), given fuel for more than `k` reads. -/
theorem xfer_eq (fuel : Nat) (status : Nat → Int) (data_read : Int)
    (read_write command byte k : Nat)
    (heq : ∀ j, j < k → status j =
      ((if read_write = I2C_SMBUS_READ then PPKB_SYS_COMMAND_SMBUS_READ
        else PPKB_SYS_COMMAND_SMBUS_WRITE : Nat) : Int))
    (hne : status k ≠
      ((if read_write = I2C_SMBUS_READ then PPKB_SYS_COMMAND_SMBUS_READ
        else PPKB_SYS_COMMAND_SMBUS_WRITE : Nat) : Int))
    (hfuel : k < fuel) :
    ppkb_adap_smbus_xfer fuel 0 status data_read read_write command byte =
      (let ops2 := [I2cOp.write_block PPKB_SYS_SMBUS_COMMAND
          [command, byte, if read_write = I2C_SMBUS_READ then PPKB_SYS_COMMAND_SMBUS_READ
                          else PPKB_SYS_COMMAND_SMBUS_WRITE]] ++
          List.replicate (k + 1) (I2cOp.read_byte PPKB_SYS_COMMAND)
       if status k < 0 then { ret := some (status k), byte := byte, ops := ops2 }
       else if status k ≠ 0 then { ret := some (- EIO), byte := byte, ops := ops2 }
       else if read_write = I2C_SMBUS_READ then
         if data_read < 0 then
           { ret := some data_read, byte := byte,
             ops := ops2 ++ [I2cOp.read_byte PPKB_SYS_SMBUS_DATA] }
         else
           { ret := some 0, byte := data_read.toNat % 256,
             ops := ops2 ++ [I2cOp.read_byte PPKB_SYS_SMBUS_DATA] }
       else { ret := some 0, byte := byte, ops := ops2 }) := by
  have hp := ppkb_poll_eq status
    (if read_write = I2C_SMBUS_READ then PPKB_SYS_COMMAND_SMBUS_READ
     else PPKB_SYS_COMMAND_SMBUS_WRITE) k fuel 0
    (fun j hj => by simpa using heq j hj) (by simpa using hne) hfuel
  simp only [Nat.zero_add] at hp
  unfold ppkb_adap_smbus_xfer
  simp only [hp, ne_eq, not_true_eq_false, if_false]

theorem xfer_write_failed (fuel : Nat) (write_ret : Int) (status : Nat → Int)
    (data_read : Int) (read_write command byte : Nat) (h : write_ret ≠ 0) :
    ppkb_adap_smbus_xfer fuel write_ret status data_read read_write command byte =
      { ret := some write_ret, byte := byte,
        ops := [I2cOp.write_block PPKB_SYS_SMBUS_COMMAND
          [command, byte, if read_write = I2C_SMBUS_READ then PPKB_SYS_COMMAND_SMBUS_READ
                          else PPKB_SYS_COMMAND_SMBUS_WRITE]] } := by
  unfold ppkb_adap_smbus_xfer
  simp only [h, ne_eq, not_false_eq_true, if_true]

/-- C13: when the status first differs from the command byte at its read
number `k` (so the poll loop ends), `ppkb_adap_smbus_xfer` returns, and it
returns 0 iff the block write succeeded, that status value is 0x00 and, for a
read, the read of the data register succeeded.  Otherwise it returns an
error: the return value of the failed block write (and then no status was
polled), the negative status of a failed poll, `-EIO` for a non-zero status,
or the return value of the failed data read. -/
theorem C13_tunnel_result (fuel : Nat) (write_ret : Int) (status : Nat → Int)
    (data_read : Int) (read_write command byte k : Nat)
    (heq : ∀ j, j < k → status j =
      ((if read_write = I2C_SMBUS_READ then PPKB_SYS_COMMAND_SMBUS_READ
        else PPKB_SYS_COMMAND_SMBUS_WRITE : Nat) : Int))
    (hne : status k ≠
      ((if read_write = I2C_SMBUS_READ then PPKB_SYS_COMMAND_SMBUS_READ
        else PPKB_SYS_COMMAND_SMBUS_WRITE : Nat) : Int))
    (hfuel : k < fuel) :
    (∃ v, (ppkb_adap_smbus_xfer fuel write_ret status data_read read_write command byte).ret =
        some v ∧
      (v = 0 ↔ (write_ret = 0 ∧ status k = 0 ∧
        (read_write = I2C_SMBUS_READ → 0 ≤ data_read)))) ∧
    (write_ret ≠ 0 →
      (ppkb_adap_smbus_xfer fuel write_ret status data_read read_write command byte).ret =
        some write_ret ∧
      (ppkb_adap_smbus_xfer fuel write_ret status data_read read_write command byte).ops =
        [I2cOp.write_block PPKB_SYS_SMBUS_COMMAND
          [command, byte, if read_write = I2C_SMBUS_READ then PPKB_SYS_COMMAND_SMBUS_READ
                          else PPKB_SYS_COMMAND_SMBUS_WRITE]]) ∧
    (write_ret = 0 → status k < 0 →
      (ppkb_adap_smbus_xfer fuel write_ret status data_read read_write command byte).ret =
        some (status k)) ∧
    (write_ret = 0 → 0 < status k →
      (ppkb_adap_smbus_xfer fuel write_ret status data_read read_write command byte).ret =
        some (- EIO)) ∧
    (write_ret = 0 → status k = 0 → read_write = I2C_SMBUS_READ → data_read < 0 →
      (ppkb_adap_smbus_xfer fuel write_ret status data_read read_write command byte).ret =
        some data_read) := by
  by_cases hw : write_ret = 0
  · subst hw
    rw [xfer_eq fuel status data_read read_write command byte k heq hne hfuel]
    simp only
    refine ⟨?_, fun h => absurd rfl h, ?_, ?_, ?_⟩
    · by_cases h1 : status k < 0
      · rw [if_pos h1]
        exact ⟨_, rfl, by constructor <;> intro h <;> omega⟩
      · rw [if_neg h1]
        by_cases h2 : status k ≠ 0
        · rw [if_pos h2]
          refine ⟨_, rfl, ?_⟩
          unfold EIO
          constructor
          · intro h; omega
          · intro h; exact absurd h.2.1 h2
        · rw [if_neg h2]
          have h2' : status k = 0 := by omega
          by_cases h3 : read_write = I2C_SMBUS_READ
          · rw [if_pos h3]
            by_cases h4 : data_read < 0
            · rw [if_pos h4]
              refine ⟨_, rfl, ?_⟩
              constructor
              · intro h; omega
              · intro h; have := h.2.2 h3; omega
            · rw [if_neg h4]
              exact ⟨_, rfl, by simp [h2']; intro _; omega⟩
          · rw [if_neg h3]
            exact ⟨_, rfl, by simp [h2', h3]⟩
    · intro _ h1
      rw [if_pos h1]
    · intro _ h1
      rw [if_neg (by omega), if_pos (by omega)]
    · intro _ h1 h3 h4
      rw [if_neg (by omega), if_neg (by omega), if_pos h3, if_pos h4]
  · rw [xfer_write_failed fuel write_ret status data_read read_write command byte hw]
    refine ⟨⟨write_ret, rfl, ?_⟩, fun _ => ⟨rfl, rfl⟩, fun h => absurd h hw, fun h => absurd h hw,
      fun h => absurd h hw⟩
    constructor
    · intro h; exact absurd h hw
    · intro h; exact absurd h.1 hw

/-- C13, at a read whose status echoes the command byte 0x91 twice and then
reads 0x00, the data register holding 0x55. -/
theorem C13_tunnel_result_witness :
    (∀ j, j < 2 → statusSeq [0x91, 0x91] 0 j =
      ((if I2C_SMBUS_READ = I2C_SMBUS_READ then PPKB_SYS_COMMAND_SMBUS_READ
        else PPKB_SYS_COMMAND_SMBUS_WRITE : Nat) : Int)) ∧
    (ppkb_adap_smbus_xfer 10 0 (statusSeq [0x91, 0x91] 0) 0x55 I2C_SMBUS_READ 0x20 0x01).ret =
      some 0 ∧
    (∃ v, (ppkb_adap_smbus_xfer 10 0 (statusSeq [0x91, 0x91] 0) 0x55 I2C_SMBUS_READ 0x20
        0x01).ret = some v ∧
      (v = 0 ↔ ((0 : Int) = 0 ∧ statusSeq [0x91, 0x91] 0 2 = 0 ∧
        (I2C_SMBUS_READ = I2C_SMBUS_READ → (0 : Int) ≤ 0x55)))) :=
  ⟨by decide!, by decide!,
   (C13_tunnel_result 10 0 (statusSeq [0x91, 0x91] 0) 0x55 I2C_SMBUS_READ 0x20 0x01 2
      (by decide!) (by decide!) (by decide!)).1⟩

/-- C14 (as the code has it): a tunnel exchange whose final status is non-zero
is reported as `-EIO`, for the failure sentinel 0xFF as for every other
non-zero status value; a transport error during polling is reported as the
negative value the transport returned. -/
theorem C14_every_nonzero_status_same_error (fuel : Nat) (status : Nat → Int) (data_read : Int)
    (read_write command byte k : Nat)
    (heq : ∀ j, j < k → status j =
      ((if read_write = I2C_SMBUS_READ then PPKB_SYS_COMMAND_SMBUS_READ
        else PPKB_SYS_COMMAND_SMBUS_WRITE : Nat) : Int))
    (hne : status k ≠
      ((if read_write = I2C_SMBUS_READ then PPKB_SYS_COMMAND_SMBUS_READ
        else PPKB_SYS_COMMAND_SMBUS_WRITE : Nat) : Int))
    (hfuel : k < fuel) :
    (0 < status k →
      (ppkb_adap_smbus_xfer fuel 0 status data_read read_write command byte).ret =
        some (- EIO)) ∧
    (status k < 0 →
      (ppkb_adap_smbus_xfer fuel 0 status data_read read_write command byte).ret =
        some (status k)) := by
  rw [xfer_eq fuel status data_read read_write command byte k heq hne hfuel]
  simp only
  constructor
  · intro h
    rw [if_neg (by omega), if_pos (by omega)]
  · intro h
    rw [if_pos h]

/-- C14 (as the code has it), at a write whose status reads 0xFF at once. -/
theorem C14_every_nonzero_status_same_error_witness :
    (0 : Int) < statusSeq [] 0xff 0 ∧
    (ppkb_adap_smbus_xfer 10 0 (statusSeq [] 0xff) 0 I2C_SMBUS_WRITE 0x20 0x01).ret =
      some (- EIO) :=
  ⟨by decide!,
   (C14_every_nonzero_status_same_error 10 (statusSeq [] 0xff) 0 I2C_SMBUS_WRITE 0x20 0x01 0
      (by decide!) (by decide!) (by decide!)).1 (by decide!)⟩

/-- C14 fails as stated: the final status 0xFF, the final status 0x01 and a
poll that fails with `-EIO` all make `ppkb_adap_smbus_xfer` return the same
value, `-EIO`. -/
theorem C14_counterexample :
    (ppkb_adap_smbus_xfer 10 0 (statusSeq [] 0xff) 0 I2C_SMBUS_WRITE 0x20 0x01).ret =
      some (-5) ∧
    (ppkb_adap_smbus_xfer 10 0 (statusSeq [] 0x01) 0 I2C_SMBUS_WRITE 0x20 0x01).ret =
      some (-5) ∧
    (ppkb_adap_smbus_xfer 10 0 (statusSeq [] (-5)) 0 I2C_SMBUS_WRITE 0x20 0x01).ret =
      some (-5) ∧
    ¬ ((ppkb_adap_smbus_xfer 10 0 (statusSeq [] 0xff) 0 I2C_SMBUS_WRITE 0x20 0x01).ret ≠
        (ppkb_adap_smbus_xfer 10 0 (statusSeq [] 0x01) 0 I2C_SMBUS_WRITE 0x20 0x01).ret ∧
       (ppkb_adap_smbus_xfer 10 0 (statusSeq [] 0xff) 0 I2C_SMBUS_WRITE 0x20 0x01).ret ≠
        (ppkb_adap_smbus_xfer 10 0 (statusSeq [] (-5)) 0 I2C_SMBUS_WRITE 0x20 0x01).ret) := by
  refine ⟨by decide!, by decide!, by decide!, by decide!⟩

/-- C15 (as the code has it): a tunnel write to register 0x20 with value 0x01
whose status reads 0xa1, the write command byte, on the first two polls and
0x00 on the third returns 0 after exactly three polls, reads no data register
and leaves the caller's data byte as it was. -/
theorem C15_write_polls_until_status_changes (fuel : Nat) (status : Nat → Int)
    (data_read : Int) (h0 : status 0 = 0xa1) (h1 : status 1 = 0xa1) (h2 : status 2 = 0x00)
    (hfuel : 3 ≤ fuel) :
    ppkb_adap_smbus_xfer fuel 0 status data_read I2C_SMBUS_WRITE 0x20 0x01 =
      { ret := some 0, byte := 0x01,
        ops := [I2cOp.write_block 0x21 [0x20, 0x01, 0xa1], I2cOp.read_byte 0x23,
                I2cOp.read_byte 0x23, I2cOp.read_byte 0x23] } := by
  rw [xfer_eq fuel status data_read I2C_SMBUS_WRITE 0x20 0x01 2
    (by
      intro j hj
      have : j = 0 ∨ j = 1 := by omega
      rcases this with rfl | rfl
      · rw [h0]; decide
      · rw [h1]; decide)
    (by rw [h2]; decide) (by omega)]
  simp only [h2]
  rw [if_neg (by decide), if_neg (by decide), if_neg (by decide)]
  rfl

/-- C15 (as the code has it), with the status sequence 0xa1, 0xa1, 0x00. -/
theorem C15_write_polls_until_status_changes_witness :
    statusSeq [0xa1, 0xa1] 0 0 = 0xa1 ∧ statusSeq [0xa1, 0xa1] 0 1 = 0xa1 ∧
    statusSeq [0xa1, 0xa1] 0 2 = 0x00 ∧
    ppkb_adap_smbus_xfer 3 0 (statusSeq [0xa1, 0xa1] 0) 0 I2C_SMBUS_WRITE 0x20 0x01 =
      { ret := some 0, byte := 0x01,
        ops := [I2cOp.write_block 0x21 [0x20, 0x01, 0xa1], I2cOp.read_byte 0x23,
                I2cOp.read_byte 0x23, I2cOp.read_byte 0x23] } :=
  ⟨by decide!, by decide!, by decide!,
   C15_write_polls_until_status_changes 3 (statusSeq [0xa1, 0xa1] 0) 0 (by decide!) (by decide!)
     (by decide!) (by decide!)⟩

/-- C15 fails as stated: the write command byte is 0xa1, not 0x01, so when the
status reads 0x01 on the first poll the loop ends there, and the non-zero
status makes the call return `-EIO` after that single poll. -/
theorem C15_counterexample :
    ppkb_adap_smbus_xfer 3 0 (statusSeq [0x01, 0x01] 0) 0 I2C_SMBUS_WRITE 0x20 0x01 =
      { ret := some (-5), byte := 0x01,
        ops := [I2cOp.write_block 0x21 [0x20, 0x01, 0xa1], I2cOp.read_byte 0x23] } ∧
    (ppkb_adap_smbus_xfer 3 0 (statusSeq [0x01, 0x01] 0) 0 I2C_SMBUS_WRITE 0x20 0x01).ret ≠
      some 0 := by
  refine ⟨by decide!, by decide!⟩

/-- C16: a read request whose status ends the poll loop with 0x00 (at status
read number `k`) is followed by exactly one more register read, of the data
register 0x22, and the byte `v` read there is what the call hands back in
`data->byte`, with return value 0 (when that read fails its error is returned
and the data byte is left alone).  A request in write direction never reads
the data register and leaves the caller's data byte unchanged. -/
theorem C16_read_fetches_data_register (fuel : Nat) (write_ret : Int) (status : Nat → Int)
    (data_read : Int) (read_write command byte k : Nat) :
    (read_write = I2C_SMBUS_READ →
      (∀ j, j < k → status j = (PPKB_SYS_COMMAND_SMBUS_READ : Int)) → status k = 0 →
      k < fuel →
      (ppkb_adap_smbus_xfer fuel 0 status data_read read_write command byte).ops =
        [I2cOp.write_block 0x21 [command, byte, 0x91]] ++
          List.replicate (k + 1) (I2cOp.read_byte 0x23) ++ [I2cOp.read_byte 0x22] ∧
      (∀ v : Nat, v < 256 → data_read = (v : Int) →
        (ppkb_adap_smbus_xfer fuel 0 status data_read read_write command byte).ret = some 0 ∧
        (ppkb_adap_smbus_xfer fuel 0 status data_read read_write command byte).byte = v) ∧
      (data_read < 0 →
        (ppkb_adap_smbus_xfer fuel 0 status data_read read_write command byte).ret =
          some data_read ∧
        (ppkb_adap_smbus_xfer fuel 0 status data_read read_write command byte).byte = byte)) ∧
    (read_write ≠ I2C_SMBUS_READ →
      I2cOp.read_byte 0x22 ∉
        (ppkb_adap_smbus_xfer fuel write_ret status data_read read_write command byte).ops ∧
      (ppkb_adap_smbus_xfer fuel write_ret status data_read read_write command byte).byte =
        byte) := by
  constructor
  · intro hrw heq h0 hfuel
    have heq' : ∀ j, j < k → status j =
        ((if read_write = I2C_SMBUS_READ then PPKB_SYS_COMMAND_SMBUS_READ
          else PPKB_SYS_COMMAND_SMBUS_WRITE : Nat) : Int) := by
      intro j hj; rw [if_pos hrw]; exact heq j hj
    have hne : status k ≠
        ((if read_write = I2C_SMBUS_READ then PPKB_SYS_COMMAND_SMBUS_READ
          else PPKB_SYS_COMMAND_SMBUS_WRITE : Nat) : Int) := by
      rw [if_pos hrw, h0]; decide
    rw [xfer_eq fuel status data_read read_write command byte k heq' hne hfuel]
    simp only [h0, if_pos hrw]
    rw [if_neg (by decide), if_neg (by decide)]
    refine ⟨?_, ?_, ?_⟩
    · split <;> rfl
    · intro v hv hd
      rw [if_neg (by omega)]
      refine ⟨rfl, ?_⟩
      simp only [hd, Int.toNat_ofNat]
      exact Nat.mod_eq_of_lt hv
    · intro hd
      rw [if_pos hd]
      exact ⟨rfl, rfl⟩
  · intro hrw
    unfold ppkb_adap_smbus_xfer
    simp only [if_neg hrw]
    split
    · exact ⟨by simp, rfl⟩
    · split
      · refine ⟨?_, rfl⟩
        simp [PPKB_SYS_COMMAND]
      · split
        · refine ⟨?_, rfl⟩
          simp [PPKB_SYS_COMMAND]
        · split
          · refine ⟨?_, rfl⟩
            simp [PPKB_SYS_COMMAND]
          · refine ⟨?_, rfl⟩
            simp [PPKB_SYS_COMMAND]

/-- C16, at a read whose status echoes 0x91 twice and then reads 0x00, the
data register holding 0x55. -/
theorem C16_read_fetches_data_register_witness :
    (∀ j, j < 2 → statusSeq [0x91, 0x91] 0 j = (PPKB_SYS_COMMAND_SMBUS_READ : Int)) ∧
    statusSeq [0x91, 0x91] 0 2 = 0 ∧
    ppkb_adap_smbus_xfer 10 0 (statusSeq [0x91, 0x91] 0) 0x55 I2C_SMBUS_READ 0x20 0x01 =
      { ret := some 0, byte := 0x55,
        ops := [I2cOp.write_block 0x21 [0x20, 0x01, 0x91], I2cOp.read_byte 0x23,
                I2cOp.read_byte 0x23, I2cOp.read_byte 0x23, I2cOp.read_byte 0x22] } ∧
    (ppkb_adap_smbus_xfer 10 0 (statusSeq [0x91, 0x91] 0) 0x55 I2C_SMBUS_READ 0x20 0x01).ops =
      [I2cOp.write_block 0x21 [0x20, 0x01, 0x91]] ++
        List.replicate (2 + 1) (I2cOp.read_byte 0x23) ++ [I2cOp.read_byte 0x22] :=
  ⟨by decide!, by decide!, by decide!,
   ((C16_read_fetches_data_register 10 0 (statusSeq [0x91, 0x91] 0) 0x55 I2C_SMBUS_READ 0x20
      0x01 2).1 rfl (by decide!) (by decide!) (by decide!)).1⟩

/-! ## Enabling and disabling the scan -/

theorem ppkb_set_scan_byte (v : Nat) (config_write : Int) (enable : Bool) :
    ppkb_set_scan (v : Int) config_write enable =
      (config_write,
       [I2cOp.read_byte PPKB_SYS_CONFIG,
        I2cOp.write_byte PPKB_SYS_CONFIG
          ((if enable then v &&& NOT_DISABLE_SCAN else v ||| PPKB_SYS_CONFIG_DISABLE_SCAN)
            % 256)]) := by
  unfold ppkb_set_scan
  have h : ¬ ((v : Int) < 0) := by omega
  simp only [if_neg h, Int.toNat_ofNat]
  by_cases hw : config_write = 0
  · simp [hw]
  · simp [hw]

theorem ppkb_set_scan_ops (config_read config_write : Int) (enable : Bool) :
    (ppkb_set_scan config_read config_write enable).2 = [I2cOp.read_byte PPKB_SYS_CONFIG] ∨
    ∃ w, (ppkb_set_scan config_read config_write enable).2 =
      [I2cOp.read_byte PPKB_SYS_CONFIG, I2cOp.write_byte PPKB_SYS_CONFIG w] := by
  unfold ppkb_set_scan
  simp only
  split
  · exact Or.inl rfl
  · split <;> exact Or.inr ⟨_, rfl⟩

theorem clear_bit0_u8 : ∀ v, v < 256 → (v &&& NOT_DISABLE_SCAN) % 256 = v &&& 0xfe := by
  decide!

theorem set_bit0_u8 : ∀ v, v < 256 → (v ||| PPKB_SYS_CONFIG_DISABLE_SCAN) % 256 = v ||| 1 := by
  decide!

theorem testBit_clear_bit0 (v : Nat) (hv : v < 256) :
    (v &&& 0xfe).testBit 0 = false ∧ ∀ i, 0 < i → (v &&& 0xfe).testBit i = v.testBit i := by
  constructor
  · rw [Nat.testBit_and]
    have : Nat.testBit 0xfe 0 = false := by decide
    simp [this]
  · intro i hi
    rw [Nat.testBit_and]
    by_cases h8 : i < 8
    · have : Nat.testBit 0xfe i = true := by
        interval_cases i <;> decide
      simp [this]
    · have hlt : v < 2 ^ i :=
        lt_of_lt_of_le hv (by
          have : (256 : Nat) = 2 ^ 8 := by norm_num
          rw [this]
          exact Nat.pow_le_pow_right (by norm_num) (by omega))
      simp [Nat.testBit_lt_two_pow hlt]

theorem testBit_set_bit0 (v : Nat) :
    (v ||| 1).testBit 0 = true ∧ ∀ i, 0 < i → (v ||| 1).testBit i = v.testBit i := by
  constructor
  · rw [Nat.testBit_or]
    simp
  · intro i hi
    rw [Nat.testBit_or]
    have h1 : Nat.testBit 1 i = false := by
      have := @Nat.testBit_two_pow 0 i
      simp only [pow_zero] at this
      rw [this]
      simp
      omega
    simp [h1]

theorem cellBit_replicate_zero (n r c : Nat) : cellBit (List.replicate n 0) r c = false := by
  unfold cellBit
  have h0 : (List.replicate n 0).getD (c + 1) 0 = 0 := by
    simp [List.getD_eq_getElem?_getD, List.getElem?_replicate]
    split <;> simp
  rw [h0]
  simp

theorem flatten_zipWith_pressed (shift : Nat) (cur : List Nat) :
    ∀ (cells : List (Nat × Nat)) (keys : List Nat),
      (∀ cell ∈ cells, cellBit cur cell.1 cell.2 = true) →
      (List.zipWith (cellEvents shift cur) cells keys).flatten =
        (List.zipWith
          (fun (cell : Nat × Nat) (k : Nat) =>
            [Event.msc_scan ((cell.1 <<< shift) ||| cell.2), Event.key k true])
          cells keys).flatten := by
  intro cells
  induction cells with
  | nil => intro keys _; rfl
  | cons x rest ih =>
    intro keys h
    cases keys with
    | nil => rfl
    | cons k ks =>
      simp only [List.zipWith_cons_cons, List.flatten_cons, cellEvents,
        h x (List.mem_cons_self _ _)]
      rw [← ih ks (fun y hy => h y (List.mem_cons_of_mem _ hy))]

/-- C17: when the read of the config register returns the byte `v` and the
write succeeds, `ppkb_open` returns 0 after exactly three transport
operations: the read of register 0x20, the write to register 0x20 of `v` with
bit 0 cleared and the other bits unchanged, and the one block read of
`ppkb_update`, whose state and events are those of `ppkb_open`.  From the
zero-initialised state and with a valid first frame, the cells reported are
exactly the cells of the matrix that are held in that frame, each as
pressed. -/
theorem C17_open_enables_scan_and_scans_once (s : pinephone_keyboard) (v : Nat)
    (rd : BlockRead) (hv : v < 256) :
    (ppkb_open s (v : Int) 0 rd).ret = 0 ∧
    (∃ w, (ppkb_open s (v : Int) 0 rd).ops =
        [I2cOp.read_byte 0x20, I2cOp.write_byte 0x20 w, I2cOp.read_block 0x07 (s.cols + 1)] ∧
      w.testBit 0 = false ∧ ∀ i, 0 < i → w.testBit i = v.testBit i) ∧
    (ppkb_open s (v : Int) 0 rd).state = (ppkb_update s rd).1 ∧
    (ppkb_open s (v : Int) 0 rd).events = (ppkb_update s rd).2 ∧
    (∀ frame, rd = .data frame → ZeroInit s → ValidFrame s frame →
      (∀ r c, (r, c) ∈ changedCells s.rows s.cols (List.replicate (s.cols + 1) 0) frame ↔
        r < s.rows ∧ c < s.cols ∧ cellBit frame r c = true) ∧
      ∃ keys : List Nat,
        keys.length =
          (changedCells s.rows s.cols (List.replicate (s.cols + 1) 0) frame).length ∧
        (ppkb_open s (v : Int) 0 rd).events =
          (List.zipWith
            (fun (cell : Nat × Nat) (k : Nat) =>
              [Event.msc_scan ((cell.1 <<< s.row_shift) ||| cell.2), Event.key k true])
            (changedCells s.rows s.cols (List.replicate (s.cols + 1) 0) frame)
            keys).flatten ++ [Event.sync]) := by
  have hopen : ppkb_open s (v : Int) 0 rd =
      { ret := 0, state := (ppkb_update s rd).1, events := (ppkb_update s rd).2,
        ops := [I2cOp.read_byte PPKB_SYS_CONFIG,
                I2cOp.write_byte PPKB_SYS_CONFIG (v &&& 0xfe)] ++ ppkb_update_ops s } := by
    unfold ppkb_open
    rw [ppkb_set_scan_byte v 0 true]
    simp only [ne_eq, not_true_eq_false, if_false, if_true, clear_bit0_u8 v hv]
  rw [hopen]
  have hbits := testBit_clear_bit0 v hv
  refine ⟨rfl, ⟨v &&& 0xfe, rfl, hbits.1, hbits.2⟩, rfl, rfl, ?_⟩
  intro frame hrd hzero hvalid
  subst hrd
  obtain ⟨hz, hwf⟩ := old_frame_zeroInit s hzero
  have hmem : ∀ r c,
      (r, c) ∈ changedCells s.rows s.cols (List.replicate (s.cols + 1) 0) frame ↔
        r < s.rows ∧ c < s.cols ∧ cellBit frame r c = true := by
    intro r c
    rw [mem_changedCells, cellBit_replicate_zero]
    constructor
    · rintro ⟨h1, h2, h3⟩
      refine ⟨h1, h2, ?_⟩
      cases h : cellBit frame r c
      · exact absurd h.symm h3
      · rfl
    · rintro ⟨h1, h2, h3⟩
      exact ⟨h1, h2, by rw [h3]; decide⟩
  refine ⟨hmem, _, length_cellKeys s frame _ (if s.fn_state ≠ 0 then s.fn_keymap else s.keycode),
    ?_⟩
  simp only
  rw [events_of_valid_scan s frame hwf hvalid, hz]
  rw [flatten_zipWith_pressed s.row_shift frame _ _ (fun cell hcell => ((hmem cell.1 cell.2).mp hcell).2.2)]

/-- C17, at frame A as the first frame of a blank 6 x 12 keyboard whose config
register reads 0x55. -/
theorem C17_open_enables_scan_and_scans_once_witness :
    (0x55 : Nat) < 256 ∧ ZeroInit blank_6x12 ∧ ValidFrame blank_6x12 frame_A ∧
    ppkb_open blank_6x12 ((0x55 : Nat) : Int) 0 (.data frame_A) =
      { ret := 0, state := (ppkb_update blank_6x12 (.data frame_A)).1,
        events := [Event.msc_scan 0, Event.key 0 true, Event.sync],
        ops := [I2cOp.read_byte 0x20, I2cOp.write_byte 0x20 0x54, I2cOp.read_block 0x07 13] } ∧
    (ppkb_open blank_6x12 ((0x55 : Nat) : Int) 0 (.data frame_A)).ret = 0 :=
  ⟨by decide!, by decide!, by decide!, by decide!,
   (C17_open_enables_scan_and_scans_once blank_6x12 0x55 (.data frame_A) (by decide!)).1⟩

/-- C18 (as the code has it): `ppkb_open` and `ppkb_close` change the
scan-disabled bit through `ppkb_set_scan`, a read-modify-write of the config
register 0x20 itself: one byte read and, when it succeeds, one byte write of
the updated value.  No operation of either call is a block write (so none to
the control register 0x21) or a read of the status register. -/
theorem C18_scan_bit_by_register_read_modify_write (s : pinephone_keyboard)
    (config_read config_write : Int) (v : Nat) (rd : BlockRead) :
    (∀ op ∈ (ppkb_open s config_read config_write rd).ops,
      op.isWriteBlock = false ∧ op ≠ I2cOp.read_byte PPKB_SYS_COMMAND) ∧
    (∀ op ∈ (ppkb_close s config_read config_write).ops,
      op.isWriteBlock = false ∧ op ≠ I2cOp.read_byte PPKB_SYS_COMMAND) ∧
    (∃ w, (ppkb_close s (v : Int) config_write).ops =
      [I2cOp.read_byte 0x20, I2cOp.write_byte 0x20 w]) ∧
    (∃ w, (ppkb_open s (v : Int) config_write rd).ops.take 2 =
      [I2cOp.read_byte 0x20, I2cOp.write_byte 0x20 w]) := by
  have hset : ∀ enable, ∀ op ∈ (ppkb_set_scan config_read config_write enable).2,
      op.isWriteBlock = false ∧ op ≠ I2cOp.read_byte PPKB_SYS_COMMAND := by
    intro enable op hop
    rcases ppkb_set_scan_ops config_read config_write enable with h | ⟨w, h⟩
    · rw [h] at hop
      rw [List.mem_singleton.mp hop]
      exact ⟨rfl, by decide⟩
    · rw [h] at hop
      simp only [List.mem_cons, List.mem_singleton, List.not_mem_nil, or_false] at hop
      rcases hop with rfl | rfl
      · exact ⟨rfl, by decide⟩
      · exact ⟨rfl, by simp⟩
  refine ⟨?_, ?_, ?_, ?_⟩
  · intro op hop
    unfold ppkb_open at hop
    simp only at hop
    split at hop
    · exact hset true op hop
    · rcases List.mem_append.mp hop with h | h
      · exact hset true op h
      · unfold ppkb_update_ops at h
        rw [List.mem_singleton.mp h]
        exact ⟨rfl, by simp⟩
  · intro op hop
    exact hset false op hop
  · unfold ppkb_close
    rw [ppkb_set_scan_byte v config_write false]
    exact ⟨_, rfl⟩
  · unfold ppkb_open
    rw [ppkb_set_scan_byte v config_write true]
    simp only
    split
    · exact ⟨_, rfl⟩
    · exact ⟨_, rfl⟩

/-- C18 fails as stated: opening and closing a 6 x 12 keyboard makes a byte
read and a byte write of register 0x20 (and, for open, the scan read); there
is no block write and no read of the status register 0x23 among the
operations. -/
theorem C18_counterexample :
    (ppkb_open blank_6x12 0x55 0 (.data frame_A)).ops =
      [I2cOp.read_byte 0x20, I2cOp.write_byte 0x20 0x54, I2cOp.read_block 0x07 13] ∧
    (ppkb_close blank_6x12 0x54 0).ops =
      [I2cOp.read_byte 0x20, I2cOp.write_byte 0x20 0x55] ∧
    ¬ (∃ op ∈ (ppkb_open blank_6x12 0x55 0 (.data frame_A)).ops,
        op.isWriteBlock = true ∨ op = I2cOp.read_byte 0x23) ∧
    ¬ (∃ op ∈ (ppkb_close blank_6x12 0x54 0).ops,
        op.isWriteBlock = true ∨ op = I2cOp.read_byte 0x23) := by
  refine ⟨by decide!, by decide!, by decide!, by decide!⟩

/-- C19: when the read of the config register returns the byte `v`,
`ppkb_close` makes exactly two transport operations, the read of register
0x20 and the write to register 0x20 of `v` with bit 0 set and the other bits
unchanged (so it reads no scan frame); it emits no event and leaves the whole
scan state, both frame slots, parity bit and layer flag included, as it
was. -/
theorem C19_close_sets_disable_bit_only (s : pinephone_keyboard) (v : Nat)
    (config_write : Int) (hv : v < 256) :
    (∃ w, (ppkb_close s (v : Int) config_write).ops =
        [I2cOp.read_byte 0x20, I2cOp.write_byte 0x20 w] ∧
      w.testBit 0 = true ∧ ∀ i, 0 < i → w.testBit i = v.testBit i) ∧
    (ppkb_close s (v : Int) config_write).events = [] ∧
    (ppkb_close s (v : Int) config_write).state = s ∧
    (ppkb_close s (v : Int) config_write).state.buf = s.buf ∧
    (ppkb_close s (v : Int) config_write).state.buf_swap = s.buf_swap ∧
    (ppkb_close s (v : Int) config_write).state.fn_state = s.fn_state := by
  have hclose : ppkb_close s (v : Int) config_write =
      { ret := 0, state := s, events := [],
        ops := [I2cOp.read_byte PPKB_SYS_CONFIG, I2cOp.write_byte PPKB_SYS_CONFIG (v ||| 1)] } := by
    unfold ppkb_close
    rw [ppkb_set_scan_byte v config_write false]
    simp only [set_bit0_u8 v hv, Bool.false_eq_true, if_false]
  rw [hclose]
  have hbits := testBit_set_bit0 v
  exact ⟨⟨v ||| 1, rfl, hbits.1, hbits.2⟩, rfl, rfl, rfl, rfl, rfl⟩

/-- C19, at a keyboard that has accepted frame A and whose config register
reads 0x54. -/
theorem C19_close_sets_disable_bit_only_witness :
    (0x54 : Nat) < 256 ∧
    ppkb_close (ppkb_update blank_6x12 (.data frame_A)).1 ((0x54 : Nat) : Int) 0 =
      { ret := 0, state := (ppkb_update blank_6x12 (.data frame_A)).1, events := [],
        ops := [I2cOp.read_byte 0x20, I2cOp.write_byte 0x20 0x55] } ∧
    (ppkb_close (ppkb_update blank_6x12 (.data frame_A)).1 ((0x54 : Nat) : Int) 0).events = [] :=
  ⟨by decide!, by decide!,
   (C19_close_sets_disable_bit_only (ppkb_update blank_6x12 (.data frame_A)).1 0x54 0
      (by decide!)).2.1⟩

/-! ## Attaching -/

/-- The run of `ppkb_probe` up to the size check, when the identity read
returns 7 bytes with the expected device ID, the config register reads the
byte `v`, its write succeeds and the keymap dimensions are known. -/
theorem ppkb_probe_size_check (env : ProbeEnv) (bytes : List Nat) (v map_rows map_cols : Nat)
    (hinfo : env.info = .data bytes) (hlen : bytes.length = 7)
    (hhi : bytes.getD 0 0 % 256 = 0x4b) (hlo : bytes.getD 1 0 % 256 = 0x42)
    (hread : env.config_read = (v : Int)) (hwrite : env.config_write = 0)
    (hdt : env.dt_keymap = some (0, map_rows, map_cols) ∨
      (env.dt_keymap = none ∧ map_rows = 6 ∧ map_cols = 12)) :
    ppkb_probe env =
      (let ops2 := [I2cOp.read_block 0 7, I2cOp.read_byte PPKB_SYS_CONFIG,
          I2cOp.write_byte PPKB_SYS_CONFIG ((v ||| PPKB_SYS_CONFIG_DISABLE_SCAN) % 256)]
       if map_rows ≠ (bytes.getD 6 0 % 256) &&& 0xf ∨ map_cols ≠ (bytes.getD 6 0 % 256) >>> 4 then
         { exit := .size_mismatch, ret := -EINVAL, ops := ops2, state := none }
       else if env.setup ≠ 0 then
         { exit := .setup_failed, ret := env.setup, ops := ops2, state := none }
       else
         { exit := .ok, ret := 0, ops := ops2,
           state := some (ppkb_probe_state env.keycode env.fn_keymap map_rows map_cols) }) := by
  have hparsed : (match env.dt_keymap with
      | some p => p
      | none => (0, PPKB_DEFAULT_KEYMAP_ROWS, PPKB_DEFAULT_KEYMAP_COLS)) =
      ((0 : Int), map_rows, map_cols) := by
    rcases hdt with h | ⟨h, rfl, rfl⟩
    · rw [h]
    · rw [h]; rfl
  unfold ppkb_probe
  simp only [hparsed]
  rw [hinfo, hread, hwrite, ppkb_set_scan_byte v 0 false]
  have hret : (BlockRead.data bytes).ret = ((PPKB_MATRIX_SIZE + 1 : Nat) : Int) := by
    simp [BlockRead.ret, hlen, PPKB_MATRIX_SIZE]
  have hid : ¬ ((BlockRead.data bytes).bytes.getD 0 0 % 256 ≠ PPKB_DEVICE_ID_HI_VALUE ∨
      (BlockRead.data bytes).bytes.getD 1 0 % 256 ≠ PPKB_DEVICE_ID_LO_VALUE) := by
    simp only [BlockRead.bytes, hhi, hlo, PPKB_DEVICE_ID_HI_VALUE, PPKB_DEVICE_ID_LO_VALUE]
    simp
  rw [if_neg (fun h => h hret), if_neg hid]
  simp only [ne_eq, not_true_eq_false, if_false, BlockRead.bytes, PPKB_MATRIX_SIZE,
    Bool.false_eq_true, List.singleton_append, List.cons_append, List.nil_append]

/-- C20: after a successful identity read with the expected device ID and a
successful config update, `ppkb_probe` leaves through the size-mismatch exit,
returning `-EINVAL`, iff the rows the keyboard reports (low nibble of info
byte 6) differ from the keymap rows or the columns it reports (high nibble)
differ from the keymap columns; when no later setup step fails with `-EINVAL`
that is also the only way for it to return `-EINVAL`.  Up to that exit the
transport operations are the identity read and the two transfers of the config
update: no scan frame has been read, and no state has been set up. -/
theorem C20_probe_rejects_size_mismatch (env : ProbeEnv) (bytes : List Nat)
    (v map_rows map_cols : Nat)
    (hinfo : env.info = .data bytes) (hlen : bytes.length = 7)
    (hhi : bytes.getD 0 0 % 256 = 0x4b) (hlo : bytes.getD 1 0 % 256 = 0x42)
    (hread : env.config_read = (v : Int)) (hwrite : env.config_write = 0)
    (hdt : env.dt_keymap = some (0, map_rows, map_cols) ∨
      (env.dt_keymap = none ∧ map_rows = 6 ∧ map_cols = 12)) :
    (((ppkb_probe env).exit = ProbeExit.size_mismatch ∧ (ppkb_probe env).ret = -EINVAL) ↔
      (map_rows ≠ (bytes.getD 6 0 % 256) &&& 0xf ∨ map_cols ≠ (bytes.getD 6 0 % 256) >>> 4)) ∧
    (env.setup ≠ -EINVAL →
      ((ppkb_probe env).ret = -EINVAL ↔
        (map_rows ≠ (bytes.getD 6 0 % 256) &&& 0xf ∨
          map_cols ≠ (bytes.getD 6 0 % 256) >>> 4))) ∧
    (∃ w, (ppkb_probe env).ops =
      [I2cOp.read_block 0 7, I2cOp.read_byte 0x20, I2cOp.write_byte 0x20 w]) ∧
    (∀ len, I2cOp.read_block PPKB_SCAN_CRC len ∉ (ppkb_probe env).ops) ∧
    ((ppkb_probe env).exit = ProbeExit.size_mismatch → (ppkb_probe env).state = none) := by
  rw [ppkb_probe_size_check env bytes v map_rows map_cols hinfo hlen hhi hlo hread hwrite hdt]
  simp only
  by_cases hm : map_rows ≠ (bytes.getD 6 0 % 256) &&& 0xf ∨
      map_cols ≠ (bytes.getD 6 0 % 256) >>> 4
  · rw [if_pos hm]
    refine ⟨⟨fun _ => hm, fun _ => ⟨rfl, rfl⟩⟩, fun _ => ⟨fun _ => hm, fun _ => rfl⟩,
      ⟨_, rfl⟩, ?_, fun _ => rfl⟩
    intro len
    simp [PPKB_SCAN_CRC]
  · rw [if_neg hm]
    by_cases hs : env.setup ≠ 0
    · rw [if_pos hs]
      refine ⟨⟨fun h => ProbeExit.noConfusion h.1, fun h => absurd h hm⟩,
        fun hne => ⟨fun h => absurd h hne, fun h => absurd h hm⟩, ⟨_, rfl⟩, ?_,
        fun h => ProbeExit.noConfusion h⟩
      intro len
      simp [PPKB_SCAN_CRC]
    · rw [if_neg hs]
      have h0 : (0 : Int) ≠ -EINVAL := by decide
      refine ⟨⟨fun h => ProbeExit.noConfusion h.1, fun h => absurd h hm⟩,
        fun _ => ⟨fun h => absurd h h0, fun h => absurd h hm⟩, ⟨_, rfl⟩, ?_,
        fun h => ProbeExit.noConfusion h⟩
      intro len
      simp [PPKB_SCAN_CRC]

/-- C20, at a keyboard reporting 6 x 12 (size byte 0xC6) with keymaps declared
5 x 12: the attach fails with `-EINVAL` at the size check. -/
theorem C20_probe_rejects_size_mismatch_witness :
    env_6x12_keymap_5x12.info = .data [0x4b, 0x42, 0x10, 0x00, 0x00, 0x00, 0xC6] ∧
    (0xC6 % 256) &&& 0xf = 6 ∧ (0xC6 % 256) >>> 4 = 12 ∧
    ppkb_probe env_6x12_keymap_5x12 =
      { exit := .size_mismatch, ret := -22,
        ops := [I2cOp.read_block 0 7, I2cOp.read_byte 0x20, I2cOp.write_byte 0x20 0x55],
        state := none } ∧
    (((ppkb_probe env_6x12_keymap_5x12).exit = ProbeExit.size_mismatch ∧
        (ppkb_probe env_6x12_keymap_5x12).ret = -EINVAL) ↔
      (5 ≠ ([0x4b, 0x42, 0x10, 0x00, 0x00, 0x00, 0xC6].getD 6 0 % 256) &&& 0xf ∨
        12 ≠ ([0x4b, 0x42, 0x10, 0x00, 0x00, 0x00, 0xC6].getD 6 0 % 256) >>> 4)) :=
  ⟨rfl, by decide, by decide, by decide!,
   (C20_probe_rejects_size_mismatch env_6x12_keymap_5x12
      [0x4b, 0x42, 0x10, 0x00, 0x00, 0x00, 0xC6] 0x54 5 12 rfl (by decide) (by decide)
      (by decide) rfl rfl (Or.inl rfl)).1⟩

/-! ## The identity check of `ppkb_probe` -/

/-- What `ppkb_probe` does when the identity read does not return 7 bytes:
it returns the value of the read itself, after that one transport
operation. -/
theorem ppkb_probe_id_read_failed (env : ProbeEnv)
    (h : env.info.ret ≠ ((PPKB_MATRIX_SIZE + 1 : Nat) : Int)) :
    ppkb_probe env =
      { exit := .id_read_failed, ret := env.info.ret, ops := [I2cOp.read_block 0 7],
        state := none } := by
  unfold ppkb_probe
  simp only [if_pos h]
  rfl

/-- What `ppkb_probe` does when the identity read returns 7 bytes that do
not start with the device ID: it returns `-ENODEV` after that one transport
operation. -/
theorem ppkb_probe_unexpected_id (env : ProbeEnv)
    (h : env.info.ret = ((PPKB_MATRIX_SIZE + 1 : Nat) : Int))
    (hid : env.info.bytes.getD 0 0 % 256 ≠ PPKB_DEVICE_ID_HI_VALUE ∨
      env.info.bytes.getD 1 0 % 256 ≠ PPKB_DEVICE_ID_LO_VALUE) :
    ppkb_probe env =
      { exit := .unexpected_id, ret := -ENODEV, ops := [I2cOp.read_block 0 7],
        state := none } := by
  unfold ppkb_probe
  simp only [h, ne_eq, not_true_eq_false, if_false, if_pos hid]
  rfl

/-- C21, at the failing inputs: when the identity read returns 0 bytes,
`ppkb_probe` leaves through the "Failed to read device ID" exit with return
value 0, the success status; when it returns 5 of the 7 bytes, the return
value is 5.  Neither is a negative error code.  (No config write and no scan
read have been made.) -/
theorem C21_probe_returns_count_of_short_identity_read :
    ppkb_probe env_identity_read_empty =
      { exit := .id_read_failed, ret := 0, ops := [I2cOp.read_block 0 7], state := none } ∧
    ppkb_probe env_identity_read_short =
      { exit := .id_read_failed, ret := 5, ops := [I2cOp.read_block 0 7], state := none } ∧
    ¬ ((ppkb_probe env_identity_read_empty).ret < 0) ∧
    ¬ ((ppkb_probe env_identity_read_short).ret < 0) := by
  refine ⟨by decide!, by decide!, by decide!, by decide!⟩

/-! ## The parity bit -/

theorem new_off_after_ok (s : pinephone_keyboard) (l : List Nat) (f : Nat) :
    new_off { s with buf := l, buf_swap := if s.buf_swap ≠ 0 then 0 else 1, fn_state := f } =
      old_off s := by
  unfold old_off new_off
  by_cases h : s.buf_swap = 0 <;> simp [h]

theorem buf_swap_ppkb_update (s : pinephone_keyboard) (rd : BlockRead) :
    (ppkb_update s rd).1.buf_swap = s.buf_swap ∨
      (ppkb_update s rd).1.buf_swap = (if s.buf_swap ≠ 0 then 0 else 1) := by
  unfold ppkb_update
  simp only
  split_ifs <;> simp

theorem buf_swap_ppkb_run :
    ∀ (rds : List BlockRead) (s : pinephone_keyboard),
      (s.buf_swap = 0 ∨ s.buf_swap = 1) →
      ((ppkb_run s rds).buf_swap = 0 ∨ (ppkb_run s rds).buf_swap = 1) := by
  intro rds
  induction rds with
  | nil => intro s h; exact h
  | cons rd rest ih =>
    intro s h
    unfold ppkb_run
    rw [List.foldl_cons]
    apply ih
    rcases buf_swap_ppkb_update s rd with h1 | h1
    · rw [h1]; exact h
    · rw [h1]
      split
      · exact Or.inl rfl
      · exact Or.inr rfl

/-- C22: from the zero-initialised state the parity bit `buf_swap` is 0 or 1
after every sequence of scan attempts.  A successful scan flips it: the slot
it has just written (holding the new frame) is the one `old_buf` points to in
the next scan, and the slot that held the previous frame is the one the next
scan writes into.  An abandoned scan leaves it unchanged. -/
theorem C22_parity_flips_on_success_only (s : pinephone_keyboard) (rds : List BlockRead)
    (hzero : ZeroInit s) :
    ((ppkb_run s rds).buf_swap = 0 ∨ (ppkb_run s rds).buf_swap = 1) ∧
    (∀ (t : pinephone_keyboard) (frame : List Nat), WellFormed t → ValidFrame t frame →
      (ppkb_update t (.data frame)).1.buf_swap = (if t.buf_swap ≠ 0 then 0 else 1) ∧
      old_off (ppkb_update t (.data frame)).1 = new_off t ∧
      new_off (ppkb_update t (.data frame)).1 = old_off t ∧
      old_frame (ppkb_update t (.data frame)).1 = frame) ∧
    (∀ (t : pinephone_keyboard) (rd : BlockRead), WellFormed t →
      ¬ (rd.ret = ((t.cols + 1 : Nat) : Int) ∧ ValidFrame t rd.bytes) →
      (ppkb_update t rd).1.buf_swap = t.buf_swap ∧
      old_off (ppkb_update t rd).1 = old_off t ∧
      new_off (ppkb_update t rd).1 = new_off t) := by
  refine ⟨buf_swap_ppkb_run rds s (Or.inl hzero.2.1), ?_, ?_⟩
  · intro t frame hwf hv
    rw [ppkb_update_ok t frame hwf hv]
    exact ⟨rfl, old_off_after_ok t _ _, new_off_after_ok t _ _,
      old_frame_after_ok t frame _ hwf hv.1⟩
  · intro t rd hwf hn
    rcases ppkb_update_cases t rd hwf with ⟨h1, hv, _⟩ | ⟨_, h⟩
    · exact absurd ⟨h1, hv⟩ hn
    · rw [h]
      exact ⟨rfl, rfl, rfl⟩

/-- C22, on a blank 6 x 12 keyboard: frame A flips the parity bit to 1, a
short read leaves it, frame B flips it back to 0. -/
theorem C22_parity_flips_on_success_only_witness :
    ZeroInit blank_6x12 ∧
    (ppkb_run blank_6x12 [.data frame_A]).buf_swap = 1 ∧
    (ppkb_run blank_6x12 [.data frame_A, .data [1, 2, 3, 4, 5]]).buf_swap = 1 ∧
    (ppkb_run blank_6x12 [.data frame_A, .data [1, 2, 3, 4, 5], .data frame_B]).buf_swap = 0 ∧
    ((ppkb_run blank_6x12 [.data frame_A, .data [1, 2, 3, 4, 5]]).buf_swap = 0 ∨
      (ppkb_run blank_6x12 [.data frame_A, .data [1, 2, 3, 4, 5]]).buf_swap = 1) :=
  ⟨by decide!, by decide!, by decide!, by decide!,
   (C22_parity_flips_on_success_only blank_6x12 [.data frame_A, .data [1, 2, 3, 4, 5]]
      (by decide!)).1⟩

/-! ## Errors of `ppkb_open` -/

/-- C27: `ppkb_open` returns a non-zero value iff the read of the config
register fails or, the read having succeeded, the write fails.  It then
returns the value the failed transfer returned, reads no scan frame, emits no
event and leaves the scan state as it was; a failed read is the only
transport operation of the call.  When both transfers succeed it returns 0
whatever the block read of the scan gives. -/
theorem C27_open_fails_only_on_config_transfer (s : pinephone_keyboard)
    (config_read config_write : Int) (rd : BlockRead) :
    ((ppkb_open s config_read config_write rd).ret ≠ 0 ↔
      (config_read < 0 ∨ (0 ≤ config_read ∧ config_write ≠ 0))) ∧
    (config_read < 0 →
      (ppkb_open s config_read config_write rd).ret = config_read ∧
      (ppkb_open s config_read config_write rd).ops = [I2cOp.read_byte 0x20]) ∧
    (0 ≤ config_read → config_write ≠ 0 →
      (ppkb_open s config_read config_write rd).ret = config_write ∧
      ∃ w, (ppkb_open s config_read config_write rd).ops =
        [I2cOp.read_byte 0x20, I2cOp.write_byte 0x20 w]) ∧
    ((ppkb_open s config_read config_write rd).ret ≠ 0 →
      (ppkb_open s config_read config_write rd).events = [] ∧
      (ppkb_open s config_read config_write rd).state = s ∧
      ∀ reg len, I2cOp.read_block reg len ∉ (ppkb_open s config_read config_write rd).ops) ∧
    (0 ≤ config_read → config_write = 0 →
      (ppkb_open s config_read config_write rd).ret = 0 ∧
      (ppkb_open s config_read config_write rd).state = (ppkb_update s rd).1 ∧
      (ppkb_open s config_read config_write rd).events = (ppkb_update s rd).2) := by
  by_cases hr : config_read < 0
  · have hopen : ppkb_open s config_read config_write rd =
        { ret := config_read, state := s, events := [],
          ops := [I2cOp.read_byte PPKB_SYS_CONFIG] } := by
      unfold ppkb_open ppkb_set_scan
      simp only [if_pos hr]
      rw [if_pos (by omega)]
    rw [hopen]
    refine ⟨⟨fun _ => Or.inl hr, fun _ => by simp only; omega⟩, fun _ => ⟨rfl, rfl⟩,
      fun h => absurd hr (by omega), fun _ => ⟨rfl, rfl, by simp⟩, fun h => absurd hr (by omega)⟩
  · have hv : config_read = ((config_read.toNat : Nat) : Int) := by omega
    by_cases hw : config_write = 0
    · have hopen : ppkb_open s config_read config_write rd =
          { ret := 0, state := (ppkb_update s rd).1, events := (ppkb_update s rd).2,
            ops := (ppkb_set_scan config_read config_write true).2 ++ ppkb_update_ops s } := by
        unfold ppkb_open
        rw [hv, ppkb_set_scan_byte config_read.toNat config_write true]
        simp only [hw, ne_eq, not_true_eq_false, if_false]
      rw [hopen]
      refine ⟨⟨fun h => absurd rfl h, fun h => ?_⟩, fun h => absurd h hr,
        fun _ h => absurd hw h, fun h => absurd rfl h, fun _ _ => ⟨rfl, rfl, rfl⟩⟩
      rcases h with h | h
      · exact absurd h hr
      · exact absurd hw h.2
    · have hopen : ppkb_open s config_read config_write rd =
          { ret := config_write, state := s, events := [],
            ops := [I2cOp.read_byte PPKB_SYS_CONFIG,
                    I2cOp.write_byte PPKB_SYS_CONFIG
                      ((config_read.toNat &&& NOT_DISABLE_SCAN) % 256)] } := by
        unfold ppkb_open
        rw [hv, ppkb_set_scan_byte config_read.toNat config_write true]
        simp only [hw, ne_eq, not_false_eq_true, if_true, Int.toNat_ofNat]
      rw [hopen]
      refine ⟨⟨fun _ => Or.inr ⟨by omega, hw⟩, fun _ => hw⟩, fun h => absurd h hr,
        fun _ _ => ⟨rfl, _, rfl⟩, fun _ => ⟨rfl, rfl, by simp⟩, fun _ h => absurd h hw⟩

/-! ## Packing a cell into a scan code -/

/-- The value of `get_count_order`: enough bits for the columns, and no more
than needed. -/
theorem get_count_order_spec (cols : Nat) (hcols : 1 ≤ cols) :
    cols ≤ 2 ^ get_count_order cols ∧ ∀ s, cols ≤ 2 ^ s → get_count_order cols ≤ s := by
  unfold get_count_order
  rw [if_neg (by omega)]
  by_cases h1 : cols = 1
  · rw [if_pos h1]
    subst h1
    exact ⟨by norm_num, fun s _ => Nat.zero_le s⟩
  · rw [if_neg h1]
    have hne : cols - 1 ≠ 0 := by omega
    constructor
    · have := @Nat.lt_log2_self (cols - 1)
      omega
    · intro s hs
      have : (cols - 1).log2 < s := (Nat.log2_lt hne).mpr (by omega)
      omega

theorem scan_code_eq_add (r c s : Nat) (hc : c < 2 ^ s) :
    MATRIX_SCAN_CODE r c s = (r <<< s) + c := by
  unfold MATRIX_SCAN_CODE
  rw [Nat.shiftLeft_eq, Nat.mul_comm]
  exact (Nat.mul_add_lt_is_or hc r).symm

theorem scan_code_unpack (r c s : Nat) (hc : c < 2 ^ s) :
    MATRIX_SCAN_CODE r c s >>> s = r ∧ MATRIX_SCAN_CODE r c s &&& (2 ^ s - 1) = c := by
  rw [scan_code_eq_add r c s hc, Nat.shiftRight_eq_div_pow, Nat.and_pow_two_sub_one_eq_mod,
    Nat.shiftLeft_eq, Nat.mul_comm]
  have hpos : 0 < 2 ^ s := Nat.pos_pow_of_pos s (by norm_num)
  constructor
  · rw [Nat.mul_add_div hpos, Nat.div_eq_of_lt hc]
    rfl
  · rw [Nat.mul_add_mod, Nat.mod_eq_of_lt hc]

/-- C24: with `row_shift = get_count_order(cols)`, which for `cols ≥ 1` is the
least `s` with `cols ≤ 2 ^ s`, the packing of a cell `(r, c)` with `c < cols`
is the same in its bitwise form `(r << row_shift) | c` and its additive form
`(r << row_shift) + c`, and it can be undone: `code >> row_shift = r` and
`code & (2 ^ row_shift - 1) = c`.  Hence distinct cells get distinct scan
codes.  For 12 columns the shift is 4, and cell (0, 0) has code 0. -/
theorem C24_scan_code_packing_is_invertible (cols : Nat) (hcols : 1 ≤ cols) :
    (cols ≤ 2 ^ get_count_order cols ∧ ∀ s, cols ≤ 2 ^ s → get_count_order cols ≤ s) ∧
    (∀ r c, c < cols →
      (r <<< get_count_order cols) + c = (r <<< get_count_order cols) ||| c ∧
      MATRIX_SCAN_CODE r c (get_count_order cols) = (r <<< get_count_order cols) ||| c ∧
      (MATRIX_SCAN_CODE r c (get_count_order cols)) >>> get_count_order cols = r ∧
      (MATRIX_SCAN_CODE r c (get_count_order cols)) &&& (2 ^ get_count_order cols - 1) = c) ∧
    (∀ r1 c1 r2 c2, c1 < cols → c2 < cols →
      MATRIX_SCAN_CODE r1 c1 (get_count_order cols) =
        MATRIX_SCAN_CODE r2 c2 (get_count_order cols) → r1 = r2 ∧ c1 = c2) ∧
    get_count_order 12 = 4 ∧ MATRIX_SCAN_CODE 0 0 (get_count_order 12) = 0 := by
  have hspec := get_count_order_spec cols hcols
  refine ⟨hspec, ?_, ?_, by decide!, by decide!⟩
  · intro r c hc
    have hlt : c < 2 ^ get_count_order cols := lt_of_lt_of_le hc hspec.1
    have h := scan_code_unpack r c (get_count_order cols) hlt
    exact ⟨(scan_code_eq_add r c _ hlt).symm, rfl, h.1, h.2⟩
  · intro r1 c1 r2 c2 h1 h2 heq
    have hl1 : c1 < 2 ^ get_count_order cols := lt_of_lt_of_le h1 hspec.1
    have hl2 : c2 < 2 ^ get_count_order cols := lt_of_lt_of_le h2 hspec.1
    have u1 := scan_code_unpack r1 c1 _ hl1
    have u2 := scan_code_unpack r2 c2 _ hl2
    rw [heq] at u1
    exact ⟨u1.1.symm.trans u2.1, u1.2.symm.trans u2.2⟩

/-- C24, for the 12 columns of the default matrix. -/
theorem C24_scan_code_packing_is_invertible_witness :
    (1 : Nat) ≤ 12 ∧ get_count_order 12 = 4 ∧ MATRIX_SCAN_CODE 5 2 (get_count_order 12) = 82 ∧
    (12 ≤ 2 ^ get_count_order 12 ∧ ∀ s, 12 ≤ 2 ^ s → get_count_order 12 ≤ s) :=
  ⟨by decide, by decide!, by decide!, (C24_scan_code_packing_is_invertible 12 (by decide)).1⟩

/-- C23 (as the code has it): for a matrix of `rows` by `cols` cells with
`row_shift = get_count_order(cols)`, the packed scan code of every cell
`(r, c)` with `r < rows` and `c < cols` is `r * 2 ^ row_shift + c` and is
smaller than `rows << row_shift`, the number of entries of the keymap tables
indexed by it; both default tables have that many entries (96 for the
6 x 12 matrix). -/
theorem C23_scan_code_below_rows_shifted (rows cols r c : Nat)
    (hr : r < rows) (hc : c < cols) :
    MATRIX_SCAN_CODE r c (get_count_order cols) = r * 2 ^ get_count_order cols + c ∧
    MATRIX_SCAN_CODE r c (get_count_order cols) < rows <<< get_count_order cols ∧
    (∀ keymap_data t, matrix_keypad_build_keymap keymap_data rows cols = some t →
      t.length = rows <<< get_count_order cols) ∧
    ppkb_default_state.keycode.length = 6 <<< get_count_order 12 ∧
    ppkb_default_state.fn_keymap.length = 6 <<< get_count_order 12 := by
  have hspec := get_count_order_spec cols (by omega)
  have hlt : c < 2 ^ get_count_order cols := lt_of_lt_of_le hc hspec.1
  have hadd := scan_code_eq_add r c _ hlt
  refine ⟨by rw [hadd, Nat.shiftLeft_eq], ?_, ?_, by decide!, by decide!⟩
  · rw [hadd, Nat.shiftLeft_eq, Nat.shiftLeft_eq]
    calc r * 2 ^ get_count_order cols + c
        < r * 2 ^ get_count_order cols + 2 ^ get_count_order cols := by omega
      _ = (r + 1) * 2 ^ get_count_order cols := by ring
      _ ≤ rows * 2 ^ get_count_order cols := Nat.mul_le_mul_right _ (by omega)
  · intro keymap_data t
    unfold matrix_keypad_build_keymap
    simp only
    have key : ∀ (l : List (Nat × Nat × Nat)) (init : Option (List Nat)) (n : Nat),
        (∀ u, init = some u → u.length = n) →
        ∀ t, l.foldl
          (fun (keymap : Option (List Nat)) (k : Nat × Nat × Nat) =>
            match keymap with
            | none => none
            | some t =>
              if k.1 < rows ∧ k.2.1 < cols then
                some (t.set (MATRIX_SCAN_CODE k.1 k.2.1 (get_count_order cols)) k.2.2)
              else none) init = some t → t.length = n := by
      intro l
      induction l with
      | nil => intro init n h t ht; exact h t ht
      | cons k rest ih =>
        intro init n h t ht
        rw [List.foldl_cons] at ht
        refine ih _ n ?_ t ht
        intro u hu
        cases init with
        | none => simp at hu
        | some v =>
          simp only at hu
          split at hu
          · cases hu
            rw [List.length_set]
            exact h v rfl
          · simp at hu
    exact key keymap_data _ _ (fun u hu => by cases hu; simp) t

/-- C23 (as the code has it), at cell (5, 11) of the 6 x 12 matrix. -/
theorem C23_scan_code_below_rows_shifted_witness :
    (5 : Nat) < 6 ∧ (11 : Nat) < 12 ∧
    MATRIX_SCAN_CODE 5 11 (get_count_order 12) = 91 ∧ 6 <<< get_count_order 12 = 96 ∧
    MATRIX_SCAN_CODE 5 11 (get_count_order 12) < 6 <<< get_count_order 12 :=
  ⟨by decide, by decide, by decide!, by decide!,
   (C23_scan_code_below_rows_shifted 6 12 5 11 (by decide) (by decide)).2.1⟩

/-- C23 fails as stated: on the 6 x 12 matrix the shift is 4, cell (5, 11) has
the packed code 91 and the FN cell (5, 2) the code 82, neither below
`rows * cols = 72` nor equal to `r * cols + c` (71 and 62). -/
theorem C23_counterexample :
    get_count_order 12 = 4 ∧
    MATRIX_SCAN_CODE 5 11 (get_count_order 12) = 91 ∧
    ¬ (MATRIX_SCAN_CODE 5 11 (get_count_order 12) < 6 * 12) ∧
    MATRIX_SCAN_CODE 5 11 (get_count_order 12) ≠ 5 * 12 + 11 ∧
    MATRIX_SCAN_CODE 5 2 (get_count_order 12) = 82 ∧
    ¬ (MATRIX_SCAN_CODE 5 2 (get_count_order 12) < 6 * 12) ∧
    ppkb_default_state.keycode.getD (MATRIX_SCAN_CODE 5 2 (get_count_order 12)) 0 = KEY_FN := by
  refine ⟨by decide!, by decide!, by decide!, by decide!, by decide!, by decide!, by decide!⟩

/-! ## The number of status polls -/

/-- While the status equals the command byte the call of
`ppkb_adap_smbus_xfer` is still polling: after `fuel` status reads nothing has
been returned. -/
theorem xfer_running (fuel : Nat) (status : Nat → Int) (data_read : Int)
    (read_write command byte : Nat)
    (heq : ∀ j, j < fuel → status j =
      ((if read_write = I2C_SMBUS_READ then PPKB_SYS_COMMAND_SMBUS_READ
        else PPKB_SYS_COMMAND_SMBUS_WRITE : Nat) : Int)) :
    ppkb_adap_smbus_xfer fuel 0 status data_read read_write command byte =
      { ret := none, byte := byte,
        ops := [I2cOp.write_block PPKB_SYS_SMBUS_COMMAND
          [command, byte, if read_write = I2C_SMBUS_READ then PPKB_SYS_COMMAND_SMBUS_READ
                          else PPKB_SYS_COMMAND_SMBUS_WRITE]] ++
          List.replicate fuel (I2cOp.read_byte PPKB_SYS_COMMAND) } := by
  unfold ppkb_adap_smbus_xfer
  simp only [ne_eq, not_true_eq_false, if_false]
  rw [ppkb_poll_running status _ fuel 0 (fun j hj => by rw [Nat.zero_add]; exact heq j hj)]
  simp

/-- When the status first differs from the command byte at its read number
`k`, the call of `ppkb_adap_smbus_xfer` returns after the block write, `k + 1`
status reads and at most one read of the data register. -/
theorem xfer_shape (fuel : Nat) (status : Nat → Int) (data_read : Int)
    (read_write command byte k : Nat)
    (heq : ∀ j, j < k → status j =
      ((if read_write = I2C_SMBUS_READ then PPKB_SYS_COMMAND_SMBUS_READ
        else PPKB_SYS_COMMAND_SMBUS_WRITE : Nat) : Int))
    (hne : status k ≠
      ((if read_write = I2C_SMBUS_READ then PPKB_SYS_COMMAND_SMBUS_READ
        else PPKB_SYS_COMMAND_SMBUS_WRITE : Nat) : Int))
    (hfuel : k < fuel) :
    (ppkb_adap_smbus_xfer fuel 0 status data_read read_write command byte).ret ≠ none ∧
      ∃ tail, (tail = [] ∨ tail = [I2cOp.read_byte PPKB_SYS_SMBUS_DATA]) ∧
        (ppkb_adap_smbus_xfer fuel 0 status data_read read_write command byte).ops =
          [I2cOp.write_block PPKB_SYS_SMBUS_COMMAND
            [command, byte, if read_write = I2C_SMBUS_READ then PPKB_SYS_COMMAND_SMBUS_READ
                            else PPKB_SYS_COMMAND_SMBUS_WRITE]] ++
          List.replicate (k + 1) (I2cOp.read_byte PPKB_SYS_COMMAND) ++ tail := by
  have hx := xfer_eq fuel status data_read read_write command byte k heq hne hfuel
  rw [hx]
  simp only
  split
  · exact ⟨by simp, [], Or.inl rfl, by simp⟩
  · split
    · exact ⟨by simp, [], Or.inl rfl, by simp⟩
    · split
      · split
        · exact ⟨by simp, _, Or.inr rfl, rfl⟩
        · exact ⟨by simp, _, Or.inr rfl, rfl⟩
      · exact ⟨by simp, [], Or.inl rfl, by simp⟩

/-- C25: for a tunnel request whose block write succeeds, if the status
register returns the sent command byte on its first `k` reads and another
value (a byte, or the negative value of a failed read) on read `k + 1`, then
`ppkb_adap_smbus_xfer` returns, and its transport operations are the block
write, exactly `k + 1` reads of the status register, and after them at most
the one read of the data register.  There is no bound on `k`: as long as the
status equals the command byte the call is still polling, whatever the number
of reads made.  So the call returns iff some status read differs from the
command byte. -/
theorem C25_poll_count_and_termination (fuel : Nat) (status : Nat → Int) (data_read : Int)
    (read_write command byte k : Nat)
    (heq : ∀ j, j < k → status j =
      ((if read_write = I2C_SMBUS_READ then PPKB_SYS_COMMAND_SMBUS_READ
        else PPKB_SYS_COMMAND_SMBUS_WRITE : Nat) : Int))
    (hne : status k ≠
      ((if read_write = I2C_SMBUS_READ then PPKB_SYS_COMMAND_SMBUS_READ
        else PPKB_SYS_COMMAND_SMBUS_WRITE : Nat) : Int))
    (hfuel : k < fuel) :
    ((ppkb_adap_smbus_xfer fuel 0 status data_read read_write command byte).ret ≠ none ∧
      ∃ tail, (tail = [] ∨ tail = [I2cOp.read_byte PPKB_SYS_SMBUS_DATA]) ∧
        (ppkb_adap_smbus_xfer fuel 0 status data_read read_write command byte).ops =
          [I2cOp.write_block PPKB_SYS_SMBUS_COMMAND
            [command, byte, if read_write = I2C_SMBUS_READ then PPKB_SYS_COMMAND_SMBUS_READ
                            else PPKB_SYS_COMMAND_SMBUS_WRITE]] ++
          List.replicate (k + 1) (I2cOp.read_byte PPKB_SYS_COMMAND) ++ tail) ∧
    ((ppkb_adap_smbus_xfer fuel 0 status data_read read_write command byte).ops.filter
        (fun op => decide (op = I2cOp.read_byte PPKB_SYS_COMMAND))).length = k + 1 ∧
    (∀ (n : Nat) (st : Nat → Int),
      (∀ j, j < n → st j =
        ((if read_write = I2C_SMBUS_READ then PPKB_SYS_COMMAND_SMBUS_READ
          else PPKB_SYS_COMMAND_SMBUS_WRITE : Nat) : Int)) →
      (ppkb_adap_smbus_xfer n 0 st data_read read_write command byte).ret = none ∧
      ((ppkb_adap_smbus_xfer n 0 st data_read read_write command byte).ops.filter
        (fun op => decide (op = I2cOp.read_byte PPKB_SYS_COMMAND))).length = n) ∧
    (∀ (st : Nat → Int),
      (∃ n, (ppkb_adap_smbus_xfer n 0 st data_read read_write command byte).ret ≠ none) ↔
      ∃ j, st j ≠
        ((if read_write = I2C_SMBUS_READ then PPKB_SYS_COMMAND_SMBUS_READ
          else PPKB_SYS_COMMAND_SMBUS_WRITE : Nat) : Int)) := by
  have hfilter : ∀ (w : I2cOp) (n : Nat) (tail : List I2cOp),
      (∃ a b, w = I2cOp.write_block a b) →
      (tail = [] ∨ tail = [I2cOp.read_byte PPKB_SYS_SMBUS_DATA]) →
      (([w] ++ List.replicate n (I2cOp.read_byte PPKB_SYS_COMMAND) ++ tail).filter
        (fun op => decide (op = I2cOp.read_byte PPKB_SYS_COMMAND))).length = n := by
    intro w n tail hw htail
    obtain ⟨a, b, rfl⟩ := hw
    have hrep : (List.replicate n (I2cOp.read_byte PPKB_SYS_COMMAND)).filter
        (fun op => decide (op = I2cOp.read_byte PPKB_SYS_COMMAND)) =
        List.replicate n (I2cOp.read_byte PPKB_SYS_COMMAND) := by
      apply List.filter_eq_self.mpr
      intro x hx
      simp [List.eq_of_mem_replicate hx]
    have hd : I2cOp.read_byte PPKB_SYS_SMBUS_DATA ≠ I2cOp.read_byte PPKB_SYS_COMMAND := by
      decide
    rw [List.filter_append, List.filter_append, hrep]
    rcases htail with rfl | rfl
    · simp
    · simp [hd]
  have hshape := xfer_shape fuel status data_read read_write command byte k heq hne hfuel
  refine ⟨hshape, ?_, ?_, ?_⟩
  · obtain ⟨_, tail, htail, hops⟩ := hshape
    rw [hops]
    exact hfilter _ _ tail ⟨_, _, rfl⟩ htail
  · intro n st hst
    rw [xfer_running n st data_read read_write command byte hst]
    refine ⟨rfl, ?_⟩
    simp
  · intro st
    constructor
    · rintro ⟨n, hn⟩
      by_contra hall
      push_neg at hall
      exact hn (by rw [xfer_running n st data_read read_write command byte (fun j _ => hall j)])
    · intro hex
      classical
      have hspec := Nat.find_spec hex
      exact ⟨Nat.find hex + 1,
        (xfer_shape (Nat.find hex + 1) st data_read read_write command byte (Nat.find hex)
          (fun j hj => by have := Nat.find_min hex hj; push_neg at this; exact this)
          hspec (by omega)).1⟩

/-- C25, for a read request whose status is the command byte 0x91 three times
and then 0: four status reads, then the read of the data register. -/
theorem C25_poll_count_and_termination_witness :
    (ppkb_adap_smbus_xfer 10 0 (statusSeq [0x91, 0x91, 0x91] 0) 0x5a I2C_SMBUS_READ 0x10 0).ops =
      [I2cOp.write_block PPKB_SYS_SMBUS_COMMAND [0x10, 0, 0x91],
       I2cOp.read_byte PPKB_SYS_COMMAND, I2cOp.read_byte PPKB_SYS_COMMAND,
       I2cOp.read_byte PPKB_SYS_COMMAND, I2cOp.read_byte PPKB_SYS_COMMAND,
       I2cOp.read_byte PPKB_SYS_SMBUS_DATA] ∧
    ((ppkb_adap_smbus_xfer 10 0 (statusSeq [0x91, 0x91, 0x91] 0) 0x5a I2C_SMBUS_READ 0x10 0).ops.filter
        (fun op => decide (op = I2cOp.read_byte PPKB_SYS_COMMAND))).length = 3 + 1 :=
  ⟨by decide!,
   (C25_poll_count_and_termination 10 (statusSeq [0x91, 0x91, 0x91] 0) 0x5a I2C_SMBUS_READ 0x10 0 3
      (by decide!) (by decide!) (by decide)).2.1⟩
/-! ## The table-driven checksum and the bit-by-bit one -/

/-- C26: the table `crc8_populate_msb` builds for polynomial 0x07 has 256
entries, entry `i` being `i` shifted left eight times with 0x07 folded in
whenever the bit shifted out is 1; so one step `crc = table[crc ^ byte]` of
`crc8` is the eight shifts of the bit-by-bit CRC-8, and the two checksums
agree on every byte sequence for every initial value. -/
theorem C26_table_checksum_equals_bitwise (data : List Nat) (init : Nat) :
    (crc8_populate_msb PPKB_CRC8_POLYNOMIAL).length = 256 ∧
    (∀ i, i < 256 →
      (crc8_populate_msb PPKB_CRC8_POLYNOMIAL).getD i 0 = (crc8_shift 0x07)^[8] i) ∧
    (∀ crc b, crc < 256 → b < 256 →
      crc8 (crc8_populate_msb PPKB_CRC8_POLYNOMIAL) [b] crc =
        (crc8_shift 0x07)^[8] (crc ^^^ b)) ∧
    (∀ crc, crc < 256 →
      crc8_shift 0x07 crc =
        if crc.testBit 7 then ((2 * crc) % 256) ^^^ 0x07 else (2 * crc) % 256) ∧
    crc8 (crc8_populate_msb PPKB_CRC8_POLYNOMIAL) data init = crc8_bitwise 0x07 init data := by
  refine ⟨by decide!, crc8_table_eq_shift, ?_, by decide!, crc8_eq_bitwise data init⟩
  intro crc b hcrc hb
  have hlt : crc ^^^ b < 256 := @Nat.xor_lt_two_pow crc b 8 hcrc hb
  have h := crc8_eq_bitwise [b] crc
  unfold crc8_bitwise at h
  simp only [List.foldl_cons, List.foldl_nil, Nat.mod_eq_of_lt hlt] at h
  exact h

/-! ## Runs with the default keymaps -/

theorem lastGoodFrom_none (s : pinephone_keyboard) :
    ∀ (rds : List BlockRead) (prev : List Nat),
      (∀ rd ∈ rds, ¬ (rd.ret = ((s.cols + 1 : Nat) : Int) ∧ ValidFrame s rd.bytes)) →
      lastGoodFrom s prev rds = prev := by
  intro rds
  induction rds with
  | nil => intro prev _; rfl
  | cons rd rest ih =>
    intro prev h
    unfold lastGoodFrom
    rw [List.foldl_cons, if_neg (h rd (List.mem_cons_self _ _))]
    exact ih prev (fun x hx => h x (List.mem_cons_of_mem _ hx))

/-- C28: in the default keymaps on the 6 x 12 matrix, `KEY_FN` is at cell
(5, 2), scan code 82, in both tables and nowhere else.  With them, from the
zero-initialised state and after every sequence of scan attempts (each
returning at most the 13 bytes asked for), the layer flag `fn_state` is
non-zero iff bit 5 of the data byte of column 2 is set in the frame of the
most recent successful scan; it is zero when no scan has succeeded. -/
theorem C28_default_layer_follows_fn_cell (rds : List BlockRead)
    (hrds : ∀ rd ∈ rds, rd.bytes.length ≤ PPKB_DEFAULT_KEYMAP_COLS + 1) :
    (∀ code, code < 96 →
      ((ppkb_default_state.keycode.getD code 0 = KEY_FN ↔ code = MATRIX_SCAN_CODE 5 2 4) ∧
       (ppkb_default_state.fn_keymap.getD code 0 = KEY_FN ↔ code = MATRIX_SCAN_CODE 5 2 4))) ∧
    ((ppkb_run ppkb_default_state rds).fn_state ≠ 0 ↔
      (((lastGoodFrame ppkb_default_state rds).getD 3 0) % 256).testBit 5 = true) ∧
    ((∀ rd ∈ rds, ¬ (rd.ret = 13 ∧ ValidFrame ppkb_default_state rd.bytes)) →
      (ppkb_run ppkb_default_state rds).fn_state = 0) := by
  have hzero : ZeroInit ppkb_default_state := by decide!
  have hfn : FnCellAt ppkb_default_state 5 2 := by decide!
  obtain ⟨hz, hwf⟩ := old_frame_zeroInit ppkb_default_state hzero
  obtain ⟨_, _, hinv⟩ := inv_ppkb_run ppkb_default_state 5 2 rds hzero hfn hrds
  obtain ⟨hold, _, _⟩ := old_frame_ppkb_run ppkb_default_state rds ppkb_default_state
    ⟨rfl, rfl, rfl, rfl, rfl, rfl⟩ hwf hrds
  rw [hz] at hold
  have hmain : (ppkb_run ppkb_default_state rds).fn_state ≠ 0 ↔
      (((lastGoodFrame ppkb_default_state rds).getD 3 0) % 256).testBit 5 = true := by
    rw [hinv, hold]
    rfl
  refine ⟨by decide!, hmain, ?_⟩
  intro hnone
  by_contra hne
  have hbit := hmain.mp hne
  have hlast : lastGoodFrame ppkb_default_state rds =
      List.replicate (ppkb_default_state.cols + 1) 0 :=
    lastGoodFrom_none ppkb_default_state rds _ hnone
  rw [hlast] at hbit
  revert hbit
  decide!

/-- C28, on a run of four scans: FN pressed, a frame with a bad checksum, a
short read, FN released. -/
theorem C28_default_layer_follows_fn_cell_witness :
    (ppkb_run ppkb_default_state [.data frame_FN]).fn_state = 32 ∧
    (ppkb_run ppkb_default_state
      [.data frame_FN, .data (0 :: frame_B.drop 1), .data [1, 2, 3], .data frame_B]).fn_state = 0 ∧
    ((ppkb_run ppkb_default_state [.data frame_FN, .data (0xff :: frame_B.drop 1)]).fn_state ≠ 0 ↔
      (((lastGoodFrame ppkb_default_state
          [.data frame_FN, .data (0xff :: frame_B.drop 1)]).getD 3 0) % 256).testBit 5 = true) :=
  ⟨by decide!, by decide!,
   (C28_default_layer_follows_fn_cell [.data frame_FN, .data (0xff :: frame_B.drop 1)]
      (by decide!)).2.1⟩

/-- C29: with the default keymaps, from the zero-initialised state, the three
valid frames "cell (0, 1) pressed", "cells (0, 1) and (5, 2) pressed", "cell
(5, 2) pressed" give in turn a press of `KEY_1`, a press of `KEY_FN` and a
release of `KEY_F1`: the release of cell (0, 1) is looked up in the overlay
keymap, which is the active one when it happens, and no release of `KEY_1` is
ever emitted. -/
theorem C29_release_uses_keymap_at_release_time :
    ZeroInit ppkb_default_state ∧
    ValidFrame ppkb_default_state frame_K1 ∧ ValidFrame ppkb_default_state frame_K1_FN ∧
    ValidFrame ppkb_default_state frame_FN ∧
    (ppkb_update ppkb_default_state (.data frame_K1)).2 =
      [Event.msc_scan 1, Event.key KEY_1 true, Event.sync] ∧
    (ppkb_update (ppkb_run ppkb_default_state [.data frame_K1]) (.data frame_K1_FN)).2 =
      [Event.msc_scan 82, Event.key KEY_FN true, Event.sync] ∧
    (ppkb_update (ppkb_run ppkb_default_state [.data frame_K1, .data frame_K1_FN])
        (.data frame_FN)).2 =
      [Event.msc_scan 1, Event.key KEY_F1 false, Event.sync] ∧
    Event.key KEY_1 false ∉
      (ppkb_update ppkb_default_state (.data frame_K1)).2 ++
      (ppkb_update (ppkb_run ppkb_default_state [.data frame_K1]) (.data frame_K1_FN)).2 ++
      (ppkb_update (ppkb_run ppkb_default_state [.data frame_K1, .data frame_K1_FN])
        (.data frame_FN)).2 := by
  refine ⟨by decide!, by decide!, by decide!, by decide!, by decide!, by decide!, by decide!,
    by decide!⟩

/-! ## The keymap switch within one scan -/

/-- C30 (as the code has it): when the base keymap and the overlay keymap
both map the one cell `(rF, cF)`, and no other cell, to `KEY_FN`, then in a
successful scan in which that cell changes the events are, for each changed
cell in the order (column, row), its scan code and its key event, the key
being looked up in
the keymap that was active when the scan started for the cells that come
before `(rF, cF)` in that order, and in the newly selected keymap (the overlay
when `(rF, cF)` is now pressed, the base keymap when it is now released) for
`(rF, cF)` itself and for the cells that come after it; then the sync. -/
theorem C30_keymap_switch_at_fn_cell_position (s : pinephone_keyboard) (frame : List Nat)
    (rF cF : Nat) (hwf : WellFormed s) (hv : ValidFrame s frame) (hfn : FnCellAt s rF cF)
    (hch : cellBit (old_frame s) rF cF ≠ cellBit frame rF cF) :
    (ppkb_update s (.data frame)).2 =
      ((changedCells s.rows s.cols (old_frame s) frame).flatMap fun x =>
        [Event.msc_scan ((x.1 <<< s.row_shift) ||| x.2),
         Event.key
          ((if x.2 < cF ∨ (x.2 = cF ∧ x.1 < rF) then
              (if s.fn_state ≠ 0 then s.fn_keymap else s.keycode)
            else (if cellBit frame rF cF then s.fn_keymap else s.keycode)).getD
              ((x.1 <<< s.row_shift) ||| x.2) 0)
          (cellBit frame x.1 x.2)]) ++ [Event.sync] := by
  have hmem : (rF, cF) ∈ changedCells s.rows s.cols (old_frame s) frame :=
    (mem_changedCells _ _ _ _ rF cF).mpr ⟨hfn.1, hfn.2.1, hch⟩
  rw [events_of_valid_scan s frame hwf hv,
    cellKeys_of_fnCell s frame rF cF hfn _ _ (pairwise_changedCells _ _ _ _)
      (fun x hx => by
        have := (mem_changedCells s.rows s.cols (old_frame s) frame x.1 x.2).mp hx
        exact ⟨this.1, this.2.1⟩)
      (by split <;> simp),
    flatten_zipWith_map]
  congr 1
  apply List.flatMap_congr
  intro x _
  unfold cellEvents
  by_cases hb : x.2 < cF ∨ (x.2 = cF ∧ x.1 < rF)
  · have hb' : cellBefore x (rF, cF) := hb
    simp only [hmem, hb', not_true_eq_false, and_false, if_false, if_pos hb]
  · have hb' : ¬ cellBefore x (rF, cF) := hb
    simp only [hmem, hb', not_false_eq_true, and_self, if_true, if_neg hb]

/-- C30, with the default keymaps: cells (0, 1), (5, 2) and (0, 3) pressed in
one scan give `KEY_1` from the base keymap before the switch, then `KEY_FN`
and `KEY_F3` from the overlay keymap. -/
theorem C30_keymap_switch_at_fn_cell_position_witness :
    WellFormed ppkb_default_state ∧ ValidFrame ppkb_default_state frame_K1_FN_K3 ∧
    FnCellAt ppkb_default_state 5 2 ∧
    cellBit (old_frame ppkb_default_state) 5 2 ≠ cellBit frame_K1_FN_K3 5 2 ∧
    (ppkb_update ppkb_default_state (.data frame_K1_FN_K3)).2 =
      [Event.msc_scan 1, Event.key KEY_1 true, Event.msc_scan 82, Event.key KEY_FN true,
       Event.msc_scan 3, Event.key KEY_F3 true, Event.sync] ∧
    (ppkb_update ppkb_default_state (.data frame_K1_FN_K3)).2 =
      ((changedCells ppkb_default_state.rows ppkb_default_state.cols
          (old_frame ppkb_default_state) frame_K1_FN_K3).flatMap fun x =>
        [Event.msc_scan ((x.1 <<< ppkb_default_state.row_shift) ||| x.2),
         Event.key
          ((if x.2 < 2 ∨ (x.2 = 2 ∧ x.1 < 5) then
              (if ppkb_default_state.fn_state ≠ 0 then ppkb_default_state.fn_keymap
               else ppkb_default_state.keycode)
            else (if cellBit frame_K1_FN_K3 5 2 then ppkb_default_state.fn_keymap
                  else ppkb_default_state.keycode)).getD
              ((x.1 <<< ppkb_default_state.row_shift) ||| x.2) 0)
          (cellBit frame_K1_FN_K3 x.1 x.2)]) ++ [Event.sync] :=
  ⟨by decide!, by decide!, by decide!, by decide!, by decide!,
   C30_keymap_switch_at_fn_cell_position ppkb_default_state frame_K1_FN_K3 5 2
     (by decide!) (by decide!) (by decide!) (by decide!)⟩

/-- C30 fails as stated: with the default base keymap and an overlay keymap
that leaves the trigger cell (5, 2) unassigned, take the scan that follows a
press of that cell and in which the cell is released and cell (0, 3), which
comes after it in the (column, row) order, is pressed.  The trigger cell
changes, but its release is looked up in the overlay keymap and not
recognised: no switch happens, the layer flag stays set, and cell (0, 3) is
reported with the overlay key `KEY_F3`, not with the base key `KEY_3`. -/
theorem C30_counterexample :
    ZeroInit default_overlay_without_fn ∧
    default_overlay_without_fn.keycode.getD (MATRIX_SCAN_CODE 5 2 4) 0 = KEY_FN ∧
    default_overlay_without_fn.fn_keymap.getD (MATRIX_SCAN_CODE 5 2 4) 0 = 0 ∧
    default_overlay_without_fn.keycode.getD (MATRIX_SCAN_CODE 0 3 4) 0 = KEY_3 ∧
    default_overlay_without_fn.fn_keymap.getD (MATRIX_SCAN_CODE 0 3 4) 0 = KEY_F3 ∧
    ValidFrame default_overlay_without_fn frame_FN ∧
    ValidFrame default_overlay_without_fn frame_K3 ∧
    (ppkb_update default_overlay_without_fn (.data frame_FN)).2 =
      [Event.msc_scan 82, Event.key 0 true, Event.sync] ∧
    (ppkb_run default_overlay_without_fn [.data frame_FN]).fn_state = BIT 5 ∧
    cellBit (old_frame (ppkb_run default_overlay_without_fn [.data frame_FN])) 5 2 = true ∧
    cellBit frame_K3 5 2 = false ∧
    changedCells 6 12 (old_frame (ppkb_run default_overlay_without_fn [.data frame_FN]))
      frame_K3 = [(5, 2), (0, 3)] ∧
    (ppkb_update (ppkb_run default_overlay_without_fn [.data frame_FN]) (.data frame_K3)).2 =
      [Event.msc_scan 82, Event.key 0 false, Event.msc_scan 3, Event.key KEY_F3 true,
       Event.sync] ∧
    Event.key KEY_3 true ∉
      (ppkb_update (ppkb_run default_overlay_without_fn [.data frame_FN]) (.data frame_K3)).2 ∧
    (ppkb_run default_overlay_without_fn [.data frame_FN, .data frame_K3]).fn_state = BIT 5 := by
  refine ⟨by decide!, by decide!, by decide!, by decide!, by decide!, by decide!, by decide!,
    by decide!, by decide!, by decide!, by decide!, by decide!, by decide!, by decide!,
    by decide!⟩

end PPKB
